import Mathlib

/-!
# gocq-leveldb-migrate: the index writer (`cmd/writer.go`) and the migration loop (`cmd/main.go`)

A shallow embedding of the writer and of the record loop of `Main`, and the properties of the
wire format proved over it.

Conventions of the embedding:
* a byte is a `Nat` (below 256 when it is produced by the writer); a `bytes.Buffer` that is only
  appended to is the list of its bytes;
* a Go `string` is the list of its bytes (`len` is the byte length);
* `uint64` values are `Nat`, `int64` values are `Int`; conversions and shifts that can wrap are
  written with an explicit `% 2 ^ 64`;
* a Go map is the list of its entries in the order in which `range` yields them;
* a `panic` is `Except.error`.
-/

namespace Cmd

/-! ## Constants -/

/-- Source constant `dataVersion`. -/
def dataVersion : Nat := 1

/-- Kind marker `group`. -/
def group : Nat := 0x0

/-- Kind marker `private` (the name is reserved in Lean). -/
def private_ : Nat := 0x1

/-- Kind marker `guildChannel`. -/
def guildChannel : Nat := 0x2

/-- Source type `coder`, a byte. -/
abbrev coder := Nat

def coderNil : coder := 0
def coderInt : coder := 1
def coderUint : coder := 2
def coderInt32 : coder := 3
def coderUint32 : coder := 4
def coderInt64 : coder := 5
def coderUint64 : coder := 6
def coderString : coder := 7
def coderMSG : coder := 8
def coderArrayMSG : coder := 9
def coderStruct : coder := 10

/-! ## intWriter -/

/-- A Go string, as its bytes. -/
abbrev GoString := List Nat

/-- Source type `intWriter`: a `bytes.Buffer`, here the bytes written so far. -/
abbrev intWriter := List Nat

/-- Buffer method `WriteByte`. -/
def intWriter.WriteByte (w : intWriter) (b : Nat) : intWriter := w ++ [b]

/-- Buffer method `WriteString`. -/
def intWriter.WriteString (w : intWriter) (s : GoString) : intWriter := w ++ s

/-- Buffer method `Len` (nothing is ever read from these buffers before `bytes`). -/
def intWriter.Len (w : intWriter) : Nat := w.length

/-- The loop of `intWriter.uvarint`, with a bound on the number of rounds:
`for x >= 0x80 { w.WriteByte(byte(x) | 0x80); x >>= 7 }; w.WriteByte(byte(x))`. -/
def intWriter.uvarintLoop : Nat → intWriter → Nat → intWriter
  | 0, w, x => intWriter.WriteByte w (x % 256)
  | fuel + 1, w, x =>
    if x ≥ 0x80 then
      intWriter.uvarintLoop fuel (intWriter.WriteByte w ((x % 256) ||| 0x80)) (x >>> 7)
    else
      intWriter.WriteByte w (x % 256)

/-- Source method `intWriter.uvarint`. Every round of the loop makes `x` smaller, so `x` rounds
are always enough (`uvarint_unfold` below shows that this is the loop itself). -/
def intWriter.uvarint (w : intWriter) (x : Nat) : intWriter :=
  intWriter.uvarintLoop x w x

/-- Conversion `uint64(x)` of an `int64`. -/
def toUint64 (x : Int) : Nat := (x % 2 ^ 64).toNat

/-- Conversion `int64(u)` of a `uint64`. -/
def toInt64 (u : Nat) : Int := if u % 2 ^ 64 < 2 ^ 63 then (u % 2 ^ 64 : Nat) else (u % 2 ^ 64 : Nat) - 2 ^ 64

/-- The expression `uint64(x)<<1 ^ uint64(x>>63)` of `intWriter.varint`; the shift of the signed
`x` is arithmetic, the shift of the unsigned value wraps at 64 bits. -/
def zigzag (x : Int) : Nat :=
  ((toUint64 x <<< 1) % 2 ^ 64) ^^^ toUint64 (Int.shiftRight x 63)

/-- Source method `intWriter.varint`. -/
def intWriter.varint (w : intWriter) (x : Int) : intWriter :=
  intWriter.uvarint w (zigzag x)

/-- The bytes `uvarint(x)` appends to an empty buffer. -/
def uvarintBytes (x : Nat) : List Nat := intWriter.uvarint [] x

/-- The bytes `varint(x)` appends to an empty buffer. -/
def varintBytes (x : Int) : List Nat := intWriter.varint [] x

/-! ## writer -/

/-- Source type `writer`. The map `stringIndex` is kept as an association list; an assignment
`stringIndex[s] = off` puts the pair in front and a lookup takes the first match. -/
structure writer where
  data : intWriter
  strings : intWriter
  stringIndex : List (GoString × Nat)

/-- Source function `newWriter`. -/
def newWriter : writer := { data := [], strings := [], stringIndex := [] }

/-- Source method `writer.coder`. -/
def writer.coder (w : writer) (o : coder) : writer :=
  { w with data := intWriter.WriteByte w.data o }

/-- Source method `writer.varint`. -/
def writer.varint (w : writer) (x : Int) : writer :=
  { w with data := intWriter.varint w.data x }

/-- Source method `writer.uvarint`. -/
def writer.uvarint (w : writer) (x : Nat) : writer :=
  { w with data := intWriter.uvarint w.data x }

/-- Source method `writer.nil`. -/
def writer.nil (w : writer) : writer := w.coder coderNil

/-- Source method `writer.int`; `int64(i)` keeps the value. -/
def writer.int (w : writer) (i : Int) : writer := w.varint i

/-- Source method `writer.uint`; `uint64(i)` keeps the value. -/
def writer.uint (w : writer) (i : Nat) : writer := w.uvarint i

/-- Source method `writer.int32`; `int64(i)` keeps the value. -/
def writer.int32 (w : writer) (i : Int) : writer := w.varint i

/-- Source method `writer.uint32`; `uint64(i)` keeps the value. -/
def writer.uint32 (w : writer) (i : Nat) : writer := w.uvarint i

/-- Source method `writer.int64`. -/
def writer.int64 (w : writer) (i : Int) : writer := w.varint i

/-- Source method `writer.uint64`. -/
def writer.uint64 (w : writer) (i : Nat) : writer := w.uvarint i

/-- Source method `writer.string`. -/
def writer.string (w : writer) (s : GoString) : writer :=
  match w.stringIndex.lookup s with
  | some off => w.uvarint off
  | none =>
    let off := intWriter.Len w.strings
    let w1 : writer := { w with strings := intWriter.uvarint w.strings s.length }
    let w2 : writer := { w1 with strings := intWriter.WriteString w1.strings s }
    let w3 : writer := { w2 with stringIndex := (s, off) :: w2.stringIndex }
    w3.uvarint off

/-- Source method `writer.bytes`: the bytes returned, and the writer afterwards. `io.Copy` moves
the whole content of a buffer to `out` through `Buffer.WriteTo`, which leaves the buffer empty.
-/
def writer.bytes (w : writer) : List Nat × writer :=
  let out : intWriter := []
  let out := intWriter.uvarint out dataVersion
  let out := intWriter.uvarint out (intWriter.Len w.strings)
  let out := intWriter.uvarint out (intWriter.Len w.data)
  let out := out ++ w.strings
  let w1 : writer := { w with strings := [] }
  let out := out ++ w1.data
  let w2 : writer := { w1 with data := [] }
  (out, w2)

/-! ## Values, segment maps and records -/

/-- A value held in an `interface{}`: the ten dynamic types that `writer.obj` has a case for,
and `other` for every other dynamic type. A `global.MSG` is ranged over with a string key, so
it is a Go map; it is kept as the list of its entries in the order in which `range` yields
them, and a `[]global.MSG` as the list of its elements (a nil map or slice is the empty list).
-/
inductive Value where
  | nil
  | int (x : Int)
  | int32 (x : Int)
  | int64 (x : Int)
  | uint (x : Nat)
  | uint32 (x : Nat)
  | uint64 (x : Nat)
  | string (x : GoString)
  | msg (x : List (GoString × Value))
  | arrayMsg (x : List (List (GoString × Value)))
  | other

/-- Type `global.MSG`, as the entries that `range` yields, in that order. -/
abbrev MSG := List (GoString × Value)

/-- Type `db.StoredMessageAttribute`, with the fields the writer reads. -/
structure StoredMessageAttribute where
  MessageSeq : Int
  InternalID : Int
  SenderUin : Int
  SenderName : GoString
  Timestamp : Int

/-- Type `db.StoredGuildMessageAttribute`, with the fields the writer reads. -/
structure StoredGuildMessageAttribute where
  MessageSeq : Nat
  InternalID : Nat
  SenderTinyID : Nat
  SenderName : GoString
  Timestamp : Int

/-- Type `db.QuotedInfo`, with the fields the writer reads. -/
structure QuotedInfo where
  PrevID : GoString
  PrevGlobalID : Int
  QuotedContent : List MSG

/-- Type `db.StoredGroupMessage`; a nil pointer field is `none`. -/
structure StoredGroupMessage where
  ID : GoString
  GlobalID : Int
  Attribute : Option StoredMessageAttribute
  SubType : GoString
  QuotedInfo : Option QuotedInfo
  GroupCode : Int
  AnonymousID : GoString
  Content : List MSG

/-- Type `db.StoredPrivateMessage`; a nil pointer field is `none`. -/
structure StoredPrivateMessage where
  ID : GoString
  GlobalID : Int
  Attribute : Option StoredMessageAttribute
  SubType : GoString
  QuotedInfo : Option QuotedInfo
  SessionUin : Int
  TargetUin : Int
  Content : List MSG

/-- Type `db.StoredGuildChannelMessage`; a nil pointer field is `none`. -/
structure StoredGuildChannelMessage where
  ID : GoString
  Attribute : Option StoredGuildMessageAttribute
  GuildID : Nat
  ChannelID : Nat
  QuotedInfo : Option QuotedInfo
  Content : List MSG

/-! ## The tagged-value writers -/

mutual
/-- Source method `writer.obj`. The calls `w.msg(x)` and `w.arrayMsg(x)` are written out as the
count followed by the loop (see `writer.msg`, `writer.arrayMsg` and `obj_msg`, `obj_arrayMsg`).
-/
def writer.obj (w : writer) : Value → Except String writer
  | .nil => .ok w.nil
  | .int x => .ok ((w.coder coderInt).int x)
  | .int32 x => .ok ((w.coder coderInt32).int32 x)
  | .int64 x => .ok ((w.coder coderInt64).int64 x)
  | .uint x => .ok ((w.coder coderUint).uint x)
  | .uint32 x => .ok ((w.coder coderUint32).uint32 x)
  | .uint64 x => .ok ((w.coder coderUint64).uint64 x)
  | .string x => .ok ((w.coder coderString).string x)
  | .msg x => writer.msgLoop ((w.coder coderMSG).uvarint x.length) x
  | .arrayMsg x => writer.arrayMsgLoop ((w.coder coderArrayMSG).uvarint x.length) x
  | .other => .error "unsupported type"
/-- The loop `for s, obj := range m { w.string(s); w.obj(obj) }` of `writer.msg`. -/
def writer.msgLoop (w : writer) : List (GoString × Value) → Except String writer
  | [] => .ok w
  | (s, o) :: rest =>
    match writer.obj (w.string s) o with
    | .ok w1 => writer.msgLoop w1 rest
    | .error e => .error e
/-- The loop `for _, v := range a { w.msg(v) }` of `writer.arrayMsg`. -/
def writer.arrayMsgLoop (w : writer) : List (List (GoString × Value)) → Except String writer
  | [] => .ok w
  | v :: rest =>
    match writer.msgLoop (w.uvarint v.length) v with
    | .ok w1 => writer.arrayMsgLoop w1 rest
    | .error e => .error e
end

/-- Source method `writer.msg`. -/
def writer.msg (w : writer) (m : MSG) : Except String writer :=
  writer.msgLoop (w.uvarint m.length) m

/-- Source method `writer.arrayMsg`. -/
def writer.arrayMsg (w : writer) (a : List MSG) : Except String writer :=
  writer.arrayMsgLoop (w.uvarint a.length) a

/-! ## The record writers -/

/-- Source method `writer.writeStoredMessageAttribute`. -/
def writer.writeStoredMessageAttribute (w : writer) : Option StoredMessageAttribute → writer
  | none => w.nil
  | some x =>
    let w := w.coder coderStruct
    let w := w.int32 x.MessageSeq
    let w := w.int32 x.InternalID
    let w := w.int64 x.SenderUin
    let w := w.string x.SenderName
    w.int64 x.Timestamp

/-- Source method `writer.writeStoredGuildMessageAttribute`. -/
def writer.writeStoredGuildMessageAttribute (w : writer) :
    Option StoredGuildMessageAttribute → writer
  | none => w.nil
  | some x =>
    let w := w.coder coderStruct
    let w := w.uint64 x.MessageSeq
    let w := w.uint64 x.InternalID
    let w := w.uint64 x.SenderTinyID
    let w := w.string x.SenderName
    w.int64 x.Timestamp

/-- Source method `writer.writeQuotedInfo`. -/
def writer.writeQuotedInfo (w : writer) : Option QuotedInfo → Except String writer
  | none => .ok w.nil
  | some x =>
    let w := w.coder coderStruct
    let w := w.string x.PrevID
    let w := w.int32 x.PrevGlobalID
    w.arrayMsg x.QuotedContent

/-- Source method `writer.writeStoredGroupMessage`. -/
def writer.writeStoredGroupMessage (w : writer) : Option StoredGroupMessage → Except String writer
  | none => .ok w.nil
  | some x =>
    let w := w.coder coderStruct
    let w := w.string x.ID
    let w := w.int32 x.GlobalID
    let w := w.writeStoredMessageAttribute x.Attribute
    let w := w.string x.SubType
    match w.writeQuotedInfo x.QuotedInfo with
    | .error e => .error e
    | .ok w =>
      let w := w.int64 x.GroupCode
      let w := w.string x.AnonymousID
      w.arrayMsg x.Content

/-- Source method `writer.writeStoredPrivateMessage`. -/
def writer.writeStoredPrivateMessage (w : writer) :
    Option StoredPrivateMessage → Except String writer
  | none => .ok w.nil
  | some x =>
    let w := w.coder coderStruct
    let w := w.string x.ID
    let w := w.int32 x.GlobalID
    let w := w.writeStoredMessageAttribute x.Attribute
    let w := w.string x.SubType
    match w.writeQuotedInfo x.QuotedInfo with
    | .error e => .error e
    | .ok w =>
      let w := w.int64 x.SessionUin
      let w := w.int64 x.TargetUin
      w.arrayMsg x.Content

/-- Source method `writer.writeStoredGuildChannelMessage`. -/
def writer.writeStoredGuildChannelMessage (w : writer) :
    Option StoredGuildChannelMessage → Except String writer
  | none => .ok w.nil
  | some x =>
    let w := w.coder coderStruct
    let w := w.string x.ID
    let w := w.writeStoredGuildMessageAttribute x.Attribute
    let w := w.uint64 x.GuildID
    let w := w.uint64 x.ChannelID
    match w.writeQuotedInfo x.QuotedInfo with
    | .error e => .error e
    | .ok w => w.arrayMsg x.Content

/-! ## The mirror decoder of the integer encoding -/

/-- Modelled from the spec: the decoder of an unsigned varint, which the repository does not
contain. It accumulates the low 7 bits of each byte, little-endian, until a byte with the high
bit clear, and rejects a sequence that does not end within the bytes left in `n`. -/
def readUvarintAux : Nat → Nat → Nat → List Nat → Option (Nat × List Nat)
  | 0, _, _, _ => none
  | _ + 1, _, _, [] => none
  | n + 1, shift, acc, b :: rest =>
    if b < 0x80 then some ((acc ||| (b <<< shift)) % 2 ^ 64, rest)
    else readUvarintAux n (shift + 7) (acc ||| ((b &&& 0x7f) <<< shift)) rest

/-- Modelled from the spec: the decoder of a 64-bit unsigned varint, which the repository does
not contain; a 64-bit value takes at most ten bytes, a longer sequence is malformed. -/
def readUvarint (data : List Nat) : Option (Nat × List Nat) :=
  readUvarintAux 10 0 0 data

/-- Modelled from the spec: the inverse of the zig-zag map, `(z >> 1) xor -(z and 1)` in 64-bit
unsigned arithmetic, read as a signed value; the repository does not contain it. -/
def unzigzag (z : Nat) : Int :=
  toInt64 ((z >>> 1) ^^^ ((2 ^ 64 - (z &&& 1)) % 2 ^ 64))

/-- Modelled from the spec: the decoder of a signed varint, which the repository does not
contain. -/
def readVarint (data : List Nat) : Option (Int × List Nat) :=
  match readUvarint data with
  | some (z, rest) => some (unzigzag z, rest)
  | none => none

/-- Conversion `int32(x)` of an `int64`. -/
def toInt32 (x : Int) : Int := (x + 2 ^ 31) % 2 ^ 32 - 2 ^ 31

/-- Conversion `uint32(u)` of a `uint64`. -/
def toUint32 (u : Nat) : Nat := u % 2 ^ 32

/-! ## The mirror reader of the index data -/

/-- Modelled from the spec: the reader of a string, which the repository does not contain. The
index data holds the offset of the entry in the string data; the entry is the byte length as a
uvarint followed by that many bytes. -/
def readString (strings : List Nat) (data : List Nat) : Option (GoString × List Nat) :=
  match readUvarint data with
  | none => none
  | some (off, rest) =>
    match readUvarint (strings.drop off) with
    | none => none
    | some (len, body) => if len ≤ body.length then some (body.take len, rest) else none

/-- Modelled from the spec: the reader of `n` entries of a segment map (a string key and a
tagged value each), which the repository does not contain; `rd` reads one tagged value. -/
def readEntries (rd : List Nat → Option (Value × List Nat)) (strings : List Nat) :
    Nat → List Nat → Option (MSG × List Nat)
  | 0, data => some ([], data)
  | n + 1, data =>
    match readString strings data with
    | none => none
    | some (k, rest) =>
      match rd rest with
      | none => none
      | some (v, rest) =>
        match readEntries rd strings n rest with
        | none => none
        | some (m, rest) => some ((k, v) :: m, rest)

/-- Modelled from the spec: the reader of a segment map (entry count, then the entries), which
the repository does not contain. -/
def readMsg (rd : List Nat → Option (Value × List Nat)) (strings : List Nat)
    (data : List Nat) : Option (MSG × List Nat) :=
  match readUvarint data with
  | none => none
  | some (n, rest) => readEntries rd strings n rest

/-- Modelled from the spec: the reader of `n` segment maps without a discriminant of their own,
which the repository does not contain. -/
def readMsgs (rd : List Nat → Option (Value × List Nat)) (strings : List Nat) :
    Nat → List Nat → Option (List MSG × List Nat)
  | 0, data => some ([], data)
  | n + 1, data =>
    match readMsg rd strings data with
    | none => none
    | some (m, rest) =>
      match readMsgs rd strings n rest with
      | none => none
      | some (a, rest) => some (m :: a, rest)

/-- Modelled from the spec: the reader of a segment-map array (element count, then the
elements), which the repository does not contain. -/
def readArrayMsgWith (rd : List Nat → Option (Value × List Nat)) (strings : List Nat)
    (data : List Nat) : Option (List MSG × List Nat) :=
  match readUvarint data with
  | none => none
  | some (n, rest) => readMsgs rd strings n rest

/-- Modelled from the spec: the reader of a tagged value (discriminant byte, then the payload of
that kind), which the repository does not contain. `fuel` bounds the nesting of segment maps
that the reader follows. -/
def readObj (strings : List Nat) : Nat → List Nat → Option (Value × List Nat)
  | 0, _ => none
  | _ + 1, [] => none
  | fuel + 1, c :: rest =>
    if c = coderNil then some (Value.nil, rest)
    else if c = coderInt then
      match readVarint rest with
      | none => none
      | some (x, rest) => some (Value.int x, rest)
    else if c = coderUint then
      match readUvarint rest with
      | none => none
      | some (x, rest) => some (Value.uint x, rest)
    else if c = coderInt32 then
      match readVarint rest with
      | none => none
      | some (x, rest) => some (Value.int32 (toInt32 x), rest)
    else if c = coderUint32 then
      match readUvarint rest with
      | none => none
      | some (x, rest) => some (Value.uint32 (toUint32 x), rest)
    else if c = coderInt64 then
      match readVarint rest with
      | none => none
      | some (x, rest) => some (Value.int64 x, rest)
    else if c = coderUint64 then
      match readUvarint rest with
      | none => none
      | some (x, rest) => some (Value.uint64 x, rest)
    else if c = coderString then
      match readString strings rest with
      | none => none
      | some (x, rest) => some (Value.string x, rest)
    else if c = coderMSG then
      match readMsg (readObj strings fuel) strings rest with
      | none => none
      | some (x, rest) => some (Value.msg x, rest)
    else if c = coderArrayMSG then
      match readArrayMsgWith (readObj strings fuel) strings rest with
      | none => none
      | some (x, rest) => some (Value.arrayMsg x, rest)
    else none

/-- Modelled from the spec: the reader of a Content field (a segment-map array without a
discriminant), which the repository does not contain. -/
def readArrayMsg (strings : List Nat) (fuel : Nat) (data : List Nat) :
    Option (List MSG × List Nat) :=
  readArrayMsgWith (readObj strings fuel) strings data

/-- Modelled from the spec: the reader of a signed 32-bit field, which the repository does not
contain. -/
def readInt32 (data : List Nat) : Option (Int × List Nat) :=
  match readVarint data with
  | none => none
  | some (x, rest) => some (toInt32 x, rest)

/-- Modelled from the spec: the mirror of `writeStoredMessageAttribute`, which the repository
does not contain: the nil discriminant for an absent attribute, else the struct discriminant
and the fields in the order of the data model. -/
def readStoredMessageAttribute (strings : List Nat) :
    List Nat → Option (Option StoredMessageAttribute × List Nat)
  | [] => none
  | c :: rest =>
    if c = coderNil then some (none, rest)
    else if c = coderStruct then
      match readInt32 rest with
      | none => none
      | some (seq, rest) =>
      match readInt32 rest with
      | none => none
      | some (iid, rest) =>
      match readVarint rest with
      | none => none
      | some (uin, rest) =>
      match readString strings rest with
      | none => none
      | some (name, rest) =>
      match readVarint rest with
      | none => none
      | some (ts, rest) =>
        some (some { MessageSeq := seq, InternalID := iid, SenderUin := uin,
                     SenderName := name, Timestamp := ts }, rest)
    else none

/-- Modelled from the spec: the mirror of `writeQuotedInfo`, which the repository does not
contain. -/
def readQuotedInfo (strings : List Nat) (fuel : Nat) :
    List Nat → Option (Option QuotedInfo × List Nat)
  | [] => none
  | c :: rest =>
    if c = coderNil then some (none, rest)
    else if c = coderStruct then
      match readString strings rest with
      | none => none
      | some (pid, rest) =>
      match readInt32 rest with
      | none => none
      | some (gid, rest) =>
      match readArrayMsg strings fuel rest with
      | none => none
      | some (content, rest) =>
        some (some { PrevID := pid, PrevGlobalID := gid, QuotedContent := content }, rest)
    else none

/-- Modelled from the spec: the mirror of `writeStoredGroupMessage`, which the repository does
not contain. It reads the struct discriminant, then ID, GlobalID, Attribute, SubType,
QuotedInfo, GroupCode, AnonymousID and Content, in this order. -/
def readStoredGroupMessage (strings : List Nat) (fuel : Nat) :
    List Nat → Option (Option StoredGroupMessage × List Nat)
  | [] => none
  | c :: rest =>
    if c = coderNil then some (none, rest)
    else if c = coderStruct then
      match readString strings rest with
      | none => none
      | some (id, rest) =>
      match readInt32 rest with
      | none => none
      | some (gid, rest) =>
      match readStoredMessageAttribute strings rest with
      | none => none
      | some (attr, rest) =>
      match readString strings rest with
      | none => none
      | some (sub, rest) =>
      match readQuotedInfo strings fuel rest with
      | none => none
      | some (quoted, rest) =>
      match readVarint rest with
      | none => none
      | some (code, rest) =>
      match readString strings rest with
      | none => none
      | some (anon, rest) =>
      match readArrayMsg strings fuel rest with
      | none => none
      | some (content, rest) =>
        some (some { ID := id, GlobalID := gid, Attribute := attr, SubType := sub,
                     QuotedInfo := quoted, GroupCode := code, AnonymousID := anon,
                     Content := content }, rest)
    else none

/-! ## Sequences of writer calls -/

/-- A call of a method of `writer`, with its argument. -/
inductive Op where
  | coder (o : coder)
  | varint (x : Int)
  | uvarint (x : Nat)
  | nil
  | int (i : Int)
  | uint (i : Nat)
  | int32 (i : Int)
  | uint32 (i : Nat)
  | int64 (i : Int)
  | uint64 (i : Nat)
  | string (s : GoString)
  | msg (m : MSG)
  | arrayMsg (a : List MSG)
  | obj (o : Value)
  | bytes
  | writeStoredGroupMessage (x : Option StoredGroupMessage)
  | writeStoredPrivateMessage (x : Option StoredPrivateMessage)
  | writeStoredGuildChannelMessage (x : Option StoredGuildChannelMessage)
  | writeStoredMessageAttribute (x : Option StoredMessageAttribute)
  | writeStoredGuildMessageAttribute (x : Option StoredGuildMessageAttribute)
  | writeQuotedInfo (x : Option QuotedInfo)

/-- The writer after one call. -/
def writer.apply (w : writer) : Op → Except String writer
  | .coder o => .ok (w.coder o)
  | .varint x => .ok (w.varint x)
  | .uvarint x => .ok (w.uvarint x)
  | .nil => .ok w.nil
  | .int i => .ok (w.int i)
  | .uint i => .ok (w.uint i)
  | .int32 i => .ok (w.int32 i)
  | .uint32 i => .ok (w.uint32 i)
  | .int64 i => .ok (w.int64 i)
  | .uint64 i => .ok (w.uint64 i)
  | .string s => .ok (w.string s)
  | .msg m => w.msg m
  | .arrayMsg a => w.arrayMsg a
  | .obj o => w.obj o
  | .bytes => .ok w.bytes.2
  | .writeStoredGroupMessage x => w.writeStoredGroupMessage x
  | .writeStoredPrivateMessage x => w.writeStoredPrivateMessage x
  | .writeStoredGuildChannelMessage x => w.writeStoredGuildChannelMessage x
  | .writeStoredMessageAttribute x => .ok (w.writeStoredMessageAttribute x)
  | .writeStoredGuildMessageAttribute x => .ok (w.writeStoredGuildMessageAttribute x)
  | .writeQuotedInfo x => w.writeQuotedInfo x

/-- The writer after a sequence of calls; a panic ends the sequence. -/
def writer.run (w : writer) : List Op → Except String writer
  | [] => .ok w
  | op :: rest =>
    match w.apply op with
    | .ok w1 => w1.run rest
    | .error e => .error e

/-! ## The record loop of `Main` -/

/-- The legacy decoder, `gob.NewDecoder(bytes.NewReader(data)).Decode(x)` into a fresh record of
the kind, as a parameter: it fails with an error or fills the record. -/
structure LegacyDecoder where
  group : List Nat → Except String StoredGroupMessage
  private_ : List Nat → Except String StoredPrivateMessage
  guildChannel : List Nat → Except String StoredGuildChannelMessage

/-- Library function `errors.Wrap(err, message)`: the text of the wrapped error. -/
def wrap (err : String) (message : String) : String := message ++ ": " ++ err

/-- What one round of the loop of `Main` does with a value, up to the call of `Put`. -/
inductive Outcome where
  /-- The `continue` taken at `len(value) == 0`. -/
  | skipped
  /-- A decode failure: the error appended to `errs` before `continue`. -/
  | decodeFailed (err : String)
  /-- The round reaches `v3db.Put(key, writer.bytes(), nil)` with these bytes. -/
  | encoded (out : List Nat)

/-- The body of the loop of `Main` from `value := iter.Value()` to `writer.bytes()`. -/
def Main.encode (dec : LegacyDecoder) (value : List Nat) : Except String Outcome :=
  match value with
  | [] => .ok .skipped
  | kind :: data =>
    let writer := newWriter
    let writer := writer.uvarint kind
    if kind = group then
      match dec.group data with
      | .error err => .ok (.decodeFailed (wrap err "decode group message failed"))
      | .ok x =>
        match writer.writeStoredGroupMessage (some x) with
        | .error e => .error e
        | .ok writer => .ok (.encoded writer.bytes.1)
    else if kind = private_ then
      match dec.private_ data with
      | .error err => .ok (.decodeFailed (wrap err "decode private message failed"))
      | .ok x =>
        match writer.writeStoredPrivateMessage (some x) with
        | .error e => .error e
        | .ok writer => .ok (.encoded writer.bytes.1)
    else if kind = guildChannel then
      match dec.guildChannel data with
      | .error err => .ok (.decodeFailed (wrap err "decode guild channel message failed"))
      | .ok x =>
        match writer.writeStoredGuildChannelMessage (some x) with
        | .error e => .error e
        | .ok writer => .ok (.encoded writer.bytes.1)
    else .ok (.encoded writer.bytes.1)

/-- The destination store and the error list during the loop of `Main`. -/
structure MainState where
  v3db : List (List Nat × List Nat)
  errs : List String

/-- A successful `Put` on the store: the key gets the value, replacing an earlier one. -/
def storePut (db : List (List Nat × List Nat)) (key value : List Nat) :
    List (List Nat × List Nat) :=
  db.filter (fun e => e.1 ≠ key) ++ [(key, value)]

/-- One round of the loop of `Main`. `putErr` tells whether `Put` fails for a key and value. -/
def Main.step (dec : LegacyDecoder) (putErr : List Nat → List Nat → Option String)
    (st : MainState) (key value : List Nat) : Except String MainState :=
  match Main.encode dec value with
  | .error e => .error e
  | .ok .skipped => .ok st
  | .ok (.decodeFailed err) => .ok { st with errs := st.errs ++ [err] }
  | .ok (.encoded out) =>
    match putErr key out with
    | some err => .ok { st with errs := st.errs ++ [wrap err "put to v3 failed"] }
    | none => .ok { st with v3db := storePut st.v3db key out }

/-- The loop `for iter.Next()` of `Main` over the records of the source store. -/
def Main.loop (dec : LegacyDecoder) (putErr : List Nat → List Nat → Option String)
    (st : MainState) : List (List Nat × List Nat) → Except String MainState
  | [] => .ok st
  | (key, value) :: rest =>
    match Main.step dec putErr st key value with
    | .error e => .error e
    | .ok st1 => Main.loop dec putErr st1 rest

/-- The loop `for iter.Next()` of `Main`, round by round, with the state at a panic kept. Each
round comes with the decoder of that round (what the gob decode returns there, with the maps
of the content in the order in which that round ranges over them), the key and the value. A
panic ends the run at once: the result is the state reached before that round, in which
nothing has been put yet, and the text of the panic. A run that completes gives the final
state and `none`. -/
def Main.rounds (putErr : List Nat → List Nat → Option String) (st : MainState) :
    List (LegacyDecoder × List Nat × List Nat) → MainState × Option String
  | [] => (st, none)
  | (dec, key, value) :: rest =>
    match Main.step dec putErr st key value with
    | .error e => (st, some e)
    | .ok st1 => Main.rounds putErr st1 rest

/-- The buffer layout with the kind marker: version, length of the string data, length of
the index data, the string data, and as index data the marker `uvarint(k)` followed by the
index data of `w0`; `w0` is the writer after a record writer has run in a fresh writer. -/
def markedBuffer (k : Nat) (w0 : writer) : List Nat :=
  uvarintBytes 1 ++ uvarintBytes w0.strings.length
    ++ uvarintBytes ((uvarintBytes k).length + w0.data.length)
    ++ w0.strings ++ (uvarintBytes k ++ w0.data)

/-! ## Predicates on values -/

mutual
/-- The nesting of segment maps in a value, counted as the fuel `readObj` needs for it. -/
def Value.depth : Value → Nat
  | .msg x => entriesDepth x + 1
  | .arrayMsg x => msgsDepth x + 1
  | _ => 1
/-- The largest `Value.depth` among the values of a segment map. -/
def entriesDepth : List (GoString × Value) → Nat
  | [] => 0
  | (_, o) :: rest => max (Value.depth o) (entriesDepth rest)
/-- The largest `Value.depth` among the values of the maps of an array. -/
def msgsDepth : List (List (GoString × Value)) → Nat
  | [] => 0
  | v :: rest => max (entriesDepth v) (msgsDepth rest)
end

mutual
/-- The value and everything nested in it has one of the ten dynamic types `writer.obj` has a
case for. -/
def Value.supported : Value → Bool
  | .msg x => entriesSupported x
  | .arrayMsg x => msgsSupported x
  | .other => false
  | _ => true
/-- Every value of the segment map is supported. -/
def entriesSupported : List (GoString × Value) → Bool
  | [] => true
  | (_, o) :: rest => Value.supported o && entriesSupported rest
/-- Every value of every map of the array is supported. -/
def msgsSupported : List (List (GoString × Value)) → Bool
  | [] => true
  | v :: rest => entriesSupported v && msgsSupported rest
end

/-- The bounds of `int64`. -/
def isInt64 (x : Int) : Bool := decide (-2 ^ 63 ≤ x) && decide (x < 2 ^ 63)

/-- The bounds of `int32`. -/
def isInt32 (x : Int) : Bool := decide (-2 ^ 31 ≤ x) && decide (x < 2 ^ 31)

/-- The bounds of `uint64`. -/
def isUint64 (x : Nat) : Bool := decide (x < 2 ^ 64)

/-- The bounds of `uint32`. -/
def isUint32 (x : Nat) : Bool := decide (x < 2 ^ 32)

mutual
/-- The numbers in the value are within the bounds of their Go types (`int` and `uint` taken
as 64-bit), and so are the lengths of its strings, maps and arrays. -/
def Value.inRange : Value → Bool
  | .nil => true
  | .int x => isInt64 x
  | .int32 x => isInt32 x
  | .int64 x => isInt64 x
  | .uint x => isUint64 x
  | .uint32 x => isUint32 x
  | .uint64 x => isUint64 x
  | .string x => isUint64 x.length
  | .msg x => isUint64 x.length && entriesInRange x
  | .arrayMsg x => isUint64 x.length && msgsInRange x
  | .other => true
/-- Keys and values of the segment map are in range. -/
def entriesInRange : List (GoString × Value) → Bool
  | [] => true
  | (s, o) :: rest => isUint64 s.length && Value.inRange o && entriesInRange rest
/-- The maps of the array are in range. -/
def msgsInRange : List (List (GoString × Value)) → Bool
  | [] => true
  | v :: rest => isUint64 v.length && entriesInRange v && msgsInRange rest
end

/-- The fields of a message attribute are within the bounds of their Go types. -/
def StoredMessageAttribute.inRange (x : StoredMessageAttribute) : Bool :=
  isInt32 x.MessageSeq && isInt32 x.InternalID && isInt64 x.SenderUin
    && isUint64 x.SenderName.length && isInt64 x.Timestamp

/-- The fields of a quoted-message reference are within the bounds of their Go types. -/
def QuotedInfo.inRange (x : QuotedInfo) : Bool :=
  isUint64 x.PrevID.length && isInt32 x.PrevGlobalID
    && isUint64 x.QuotedContent.length && msgsInRange x.QuotedContent

/-- The fields of an optional message attribute are in range. -/
def attributeInRange : Option StoredMessageAttribute → Bool
  | none => true
  | some a => a.inRange

/-- The fields of an optional quoted-message reference are in range. -/
def quotedInRange : Option QuotedInfo → Bool
  | none => true
  | some q => q.inRange

/-- The fields of a group message are within the bounds of their Go types. -/
def StoredGroupMessage.inRange (x : StoredGroupMessage) : Bool :=
  isUint64 x.ID.length && isInt32 x.GlobalID && attributeInRange x.Attribute
    && isUint64 x.SubType.length && quotedInRange x.QuotedInfo
    && isInt64 x.GroupCode && isUint64 x.AnonymousID.length
    && isUint64 x.Content.length && msgsInRange x.Content

/-- The content of an optional quoted-message reference holds supported values only. -/
def quotedSupported : Option QuotedInfo → Bool
  | none => true
  | some q => msgsSupported q.QuotedContent

/-- The nesting of segment maps in an optional quoted-message reference. -/
def quotedDepth : Option QuotedInfo → Nat
  | none => 0
  | some q => msgsDepth q.QuotedContent

/-- The discriminant byte `writer.obj` writes for the dynamic type of a value. -/
def Value.discriminant : Value → Option coder
  | .nil => some coderNil
  | .int _ => some coderInt
  | .int32 _ => some coderInt32
  | .int64 _ => some coderInt64
  | .uint _ => some coderUint
  | .uint32 _ => some coderUint32
  | .uint64 _ => some coderUint64
  | .string _ => some coderString
  | .msg _ => some coderMSG
  | .arrayMsg _ => some coderArrayMSG
  | .other => none

/-! ## Example inputs -/

/-- The group message of the field-order example: ID "m1", GlobalID 7, no Attribute, SubType
"normal", no QuotedInfo, GroupCode 123456, AnonymousID "", Content [{"text": "hi"}]. -/
def exGroup : StoredGroupMessage :=
  { ID := [109, 49], GlobalID := 7, Attribute := none,
    SubType := [110, 111, 114, 109, 97, 108], QuotedInfo := none, GroupCode := 123456,
    AnonymousID := [], Content := [[([116, 101, 120, 116], Value.string [104, 105])]] }

/-- The writer after a fresh writer has written `exGroup`. -/
def exGroupWritten : writer :=
  { data := [10, 0, 14, 0, 3, 0, 128, 137, 15, 10, 1, 1, 11, 7, 16]
    strings := [2, 109, 49, 6, 110, 111, 114, 109, 97, 108, 0, 4, 116, 101, 120, 116, 2, 104, 105]
    stringIndex := [([104, 105], 16), ([116, 101, 120, 116], 11), ([], 10),
      ([110, 111, 114, 109, 97, 108], 3), ([109, 49], 0)] }

/-- The group message with every field at its zero value. -/
def zeroGroup : StoredGroupMessage :=
  { ID := [], GlobalID := 0, Attribute := none, SubType := [], QuotedInfo := none,
    GroupCode := 0, AnonymousID := [], Content := [] }

/-- A legacy decoder that decodes the payload `[1, 2, 3]` of a group record to `exGroup` and
fails on everything else. -/
def exDecoder : LegacyDecoder :=
  { group := fun data => if data = [1, 2, 3] then .ok exGroup else .error "unexpected EOF"
    private_ := fun _ => .error "unexpected EOF"
    guildChannel := fun _ => .error "unexpected EOF" }

/-- A guild-channel message whose unsigned fields use the full 64 bits: ID "g1", an attribute
with MessageSeq 300, InternalID 1, SenderTinyID 2^64 - 1, SenderName "n" and Timestamp -1,
GuildID 2^63, ChannelID 5, no QuotedInfo, no Content. -/
def exGuild : StoredGuildChannelMessage :=
  { ID := [103, 49],
    Attribute := some { MessageSeq := 300, InternalID := 1, SenderTinyID := 2 ^ 64 - 1,
                        SenderName := [110], Timestamp := -1 },
    GuildID := 2 ^ 63, ChannelID := 5, QuotedInfo := none, Content := [] }

/-- The writer after a fresh writer has written `exGuild`. -/
def exGuildWritten : writer :=
  { data := [10, 0, 10, 172, 2, 1, 255, 255, 255, 255, 255, 255, 255, 255, 255, 1, 3, 1,
      128, 128, 128, 128, 128, 128, 128, 128, 128, 1, 5, 0, 0]
    strings := [2, 103, 49, 1, 110]
    stringIndex := [([110], 3), ([103, 49], 0)] }

/-- Writer calls that encode "hi", then the map {"a": "hi", "b": "a"} as a tagged value. -/
def exTableOps : List Op :=
  [Op.string [104, 105],
    Op.obj (Value.msg [([97], Value.string [104, 105]), ([98], Value.string [97])])]

/-- The writer after a fresh writer has run `exTableOps`. -/
def exTableWriter : writer :=
  { data := [0, 8, 2, 3, 7, 0, 5, 7, 3], strings := [2, 104, 105, 1, 97, 1, 98],
    stringIndex := [([98], 5), ([97], 3), ([104, 105], 0)] }

/-- A nested value: {"a": "hi", "b": int64 -64, "c": [{"d": {}}, {}]}. -/
def exValue : Value :=
  Value.msg [([97], Value.string [104, 105]), ([98], Value.int64 (-64)),
    ([99], Value.arrayMsg [[([100], Value.msg [])], []])]

/-- The writer after a fresh writer has written `exValue` with `obj`. -/
def exValueWritten : writer :=
  { data := [8, 3, 0, 7, 2, 5, 5, 127, 7, 9, 2, 1, 9, 8, 0, 0]
    strings := [1, 97, 2, 104, 105, 1, 98, 1, 99, 1, 100]
    stringIndex := [([100], 9), ([99], 7), ([98], 5), ([104, 105], 2), ([97], 0)] }

/-- Writer calls between two encodings of one string: a tagged string, then a number. -/
def exOps : List Op := [Op.obj (Value.string [104, 105]), Op.uvarint 300]

/-- The writer after a fresh writer has encoded the empty string and run `exOps`. -/
def exAfter : writer :=
  { data := [0, 7, 1, 172, 2], strings := [0, 2, 104, 105],
    stringIndex := [([104, 105], 1), ([], 0)] }

/-! ## The string-table invariant -/

/-- The string data holds the entry of `s` (length, then bytes) at offset `off`. -/
def EntryAt (strings : List Nat) (off : Nat) (s : GoString) : Prop :=
  ∃ tail, strings.drop off = uvarintBytes s.length ++ s ++ tail

/-- Every offset in the offset map points at the entry of its string. -/
def writer.Valid (w : writer) : Prop :=
  ∀ s off, w.stringIndex.lookup s = some off → EntryAt w.strings off s

/-- Writer `w2` continues `w1`: both buffers have only grown at the end, and every string that
had an offset has kept it. -/
def writer.Extends (w1 w2 : writer) : Prop :=
  (∃ out, w2.data = w1.data ++ out) ∧ (∃ out, w2.strings = w1.strings ++ out)
    ∧ ∀ s off, w1.stringIndex.lookup s = some off → w2.stringIndex.lookup s = some off

/-- A relation between writer states that is reflexive and transitive and holds along each of
the four primitive writes; it then holds along every writer call (`obj_closed` and the lemmas
after it). -/
structure StepClosed (P : writer → writer → Prop) : Prop where
  refl : ∀ w, P w w
  trans : ∀ a b c, P a b → P b c → P a c
  coder : ∀ w o, P w (w.coder o)
  uvarint : ∀ w x, P w (w.uvarint x)
  varint : ∀ w x, P w (w.varint x)
  string : ∀ w s, P w (w.string s)

/-- Every string that has an offset in `w1` has the same offset in `w2`. -/
def writer.KeepsIndex (w1 w2 : writer) : Prop :=
  ∀ s off, w1.stringIndex.lookup s = some off → w2.stringIndex.lookup s = some off

/-- The writer `w` with the bytes `p` in front of its index data. -/
def writer.prepend (p : List Nat) (w : writer) : writer := { w with data := p ++ w.data }

/-- The orders in which `range` can yield the entries of a map: Go leaves the order
unspecified, so every arrangement of the entries is one; `entries` lists them in some order,
for instance the order of insertion. -/
def rangeOrderOf (entries yielded : MSG) : Prop := yielded.Perm entries

/-- The string data `S` of the finished record continues the string data of `w`. -/
def Covers (S : List Nat) (w : writer) : Prop := ∃ t, S = w.strings ++ t

/-! ## The strings that the writer calls encode -/

mutual
/-- The strings that `obj` passes to `string` for a value, in the order of the calls. -/
def Value.strs : Value → List GoString
  | .string x => [x]
  | .msg x => entriesStrs x
  | .arrayMsg x => msgsStrs x
  | _ => []
/-- The strings that the loop of `msg` passes to `string`: each key, then those of its value.
-/
def entriesStrs : List (GoString × Value) → List GoString
  | [] => []
  | (s, o) :: rest => s :: (Value.strs o ++ entriesStrs rest)
/-- The strings that the loop of `arrayMsg` passes to `string`. -/
def msgsStrs : List (List (GoString × Value)) → List GoString
  | [] => []
  | v :: rest => entriesStrs v ++ msgsStrs rest
end

/-- The strings that `writeStoredMessageAttribute` passes to `string`. -/
def attributeStrs : Option StoredMessageAttribute → List GoString
  | none => []
  | some x => [x.SenderName]

/-- The strings that `writeStoredGuildMessageAttribute` passes to `string`. -/
def guildAttributeStrs : Option StoredGuildMessageAttribute → List GoString
  | none => []
  | some x => [x.SenderName]

/-- The strings that `writeQuotedInfo` passes to `string`. -/
def quotedStrs : Option QuotedInfo → List GoString
  | none => []
  | some x => x.PrevID :: msgsStrs x.QuotedContent

/-- The strings that `writeStoredGroupMessage` passes to `string`. -/
def groupStrs : Option StoredGroupMessage → List GoString
  | none => []
  | some x => x.ID :: (attributeStrs x.Attribute ++ (x.SubType :: (quotedStrs x.QuotedInfo
      ++ (x.AnonymousID :: msgsStrs x.Content))))

/-- The strings that `writeStoredPrivateMessage` passes to `string`. -/
def privateStrs : Option StoredPrivateMessage → List GoString
  | none => []
  | some x => x.ID :: (attributeStrs x.Attribute ++ (x.SubType :: (quotedStrs x.QuotedInfo
      ++ msgsStrs x.Content)))

/-- The strings that `writeStoredGuildChannelMessage` passes to `string`. -/
def guildChannelStrs : Option StoredGuildChannelMessage → List GoString
  | none => []
  | some x => x.ID :: (guildAttributeStrs x.Attribute ++ (quotedStrs x.QuotedInfo
      ++ msgsStrs x.Content))

/-- The strings that a writer call passes to `string`, in the order of the calls. -/
def Op.strs : Op → List GoString
  | .string s => [s]
  | .msg m => entriesStrs m
  | .arrayMsg a => msgsStrs a
  | .obj o => Value.strs o
  | .writeStoredGroupMessage x => groupStrs x
  | .writeStoredPrivateMessage x => privateStrs x
  | .writeStoredGuildChannelMessage x => guildChannelStrs x
  | .writeStoredMessageAttribute x => attributeStrs x
  | .writeStoredGuildMessageAttribute x => guildAttributeStrs x
  | .writeQuotedInfo x => quotedStrs x
  | _ => []

/-- The strings that a sequence of writer calls passes to `string`, in order. -/
def opsStrs : List Op → List GoString
  | [] => []
  | op :: rest => Op.strs op ++ opsStrs rest

/-- The call writes to the buffers; `bytes()` is the one call that takes the content out. -/
def Op.writes : Op → Bool
  | .bytes => false
  | _ => true

/-- The distinct strings seen so far, in first-seen order, after one more string. -/
def seeString (seen : List GoString) (s : GoString) : List GoString :=
  if s ∈ seen then seen else seen ++ [s]

/-- The distinct strings of a list, in first-seen order. -/
def firstSeen (l : List GoString) : List GoString := l.foldl seeString []

/-- The entry of a string in the string data: `uvarint(byte length)` and the bytes. -/
def stringEntry (s : GoString) : List Nat := uvarintBytes s.length ++ s

/-- The string data that holds the entries of the given strings, in order. -/
def layout : List GoString → List Nat
  | [] => []
  | s :: rest => stringEntry s ++ layout rest

/-- The position at which the entry of `s` starts in `layout seen`, when `s` is in `seen`. -/
def offsetOf (s : GoString) : List GoString → Option Nat
  | [] => none
  | t :: rest =>
    if s = t then some 0
    else
      match offsetOf s rest with
      | some off => some ((stringEntry t).length + off)
      | none => none

/-- The string table of `w` holds exactly the strings `seen`: the string data is their
entries in order, and the offset map sends each of them, and nothing else, to the start of its
entry. -/
def writer.Table (w : writer) (seen : List GoString) : Prop :=
  w.strings = layout seen ∧ ∀ s, w.stringIndex.lookup s = offsetOf s seen

/-- Along a writer call that passes the strings `l` to `string`, the table moves from `seen`
to `seen` extended by the new strings of `l`. -/
def Traces (l : List GoString) (w w1 : writer) : Prop :=
  ∀ seen, w.Table seen → w1.Table (l.foldl seeString seen)

/-! ## What the loop of `Main` is to do with a record -/

/-- The error of a record whose legacy decode fails: the text of the kind wrapped around the
cause; `none` for an empty value, for a value that decodes, and for an unknown kind byte. -/
def decodeError (dec : LegacyDecoder) (value : List Nat) : Option String :=
  match value with
  | [] => none
  | k :: data =>
    if k = group then
      match dec.group data with
      | .error err => some (wrap err "decode group message failed")
      | .ok _ => none
    else if k = private_ then
      match dec.private_ data with
      | .error err => some (wrap err "decode private message failed")
      | .ok _ => none
    else if k = guildChannel then
      match dec.guildChannel data with
      | .error err => some (wrap err "decode guild channel message failed")
      | .ok _ => none
    else none

/-- The buffer of a record with a non-empty value of kind 0, 1 or 2 that decodes: the layout
with the kind marker around what the record writer of the kind writes in a fresh writer;
`none` when the value is empty, does not decode, has another kind byte, or the record writer
panics. -/
def recordBuffer (dec : LegacyDecoder) (value : List Nat) : Option (List Nat) :=
  match value with
  | [] => none
  | k :: data =>
    if k = group then
      match dec.group data with
      | .error _ => none
      | .ok x =>
        match newWriter.writeStoredGroupMessage (some x) with
        | .ok w0 => some (markedBuffer group w0)
        | .error _ => none
    else if k = private_ then
      match dec.private_ data with
      | .error _ => none
      | .ok x =>
        match newWriter.writeStoredPrivateMessage (some x) with
        | .ok w0 => some (markedBuffer private_ w0)
        | .error _ => none
    else if k = guildChannel then
      match dec.guildChannel data with
      | .error _ => none
      | .ok x =>
        match newWriter.writeStoredGuildChannelMessage (some x) with
        | .ok w0 => some (markedBuffer guildChannel w0)
        | .error _ => none
    else none

/-- The value is empty or its kind byte is 0, 1 or 2. -/
def kindKnown (value : List Nat) : Bool :=
  match value with
  | [] => true
  | k :: _ => decide (k = group) || decide (k = private_) || decide (k = guildChannel)

/-- The record that the value decodes to, if it does, holds values of supported kinds only. -/
def recordSupported (dec : LegacyDecoder) (value : List Nat) : Bool :=
  match value with
  | [] => true
  | k :: data =>
    if k = group then
      match dec.group data with
      | .error _ => true
      | .ok x => quotedSupported x.QuotedInfo && msgsSupported x.Content
    else if k = private_ then
      match dec.private_ data with
      | .error _ => true
      | .ok x => quotedSupported x.QuotedInfo && msgsSupported x.Content
    else if k = guildChannel then
      match dec.guildChannel data with
      | .error _ => true
      | .ok x => quotedSupported x.QuotedInfo && msgsSupported x.Content
    else true

/-- The entries that a run is to leave in an empty destination: for each round whose value
has a buffer, the key of the round and that buffer, in the order of the rounds. -/
def writtenBy (rs : List (LegacyDecoder × List Nat × List Nat)) : List (List Nat × List Nat) :=
  rs.filterMap (fun r => (recordBuffer r.1 r.2.2).map (fun b => (r.2.1, b)))

/-- The errors that a run is to report: the decode error of each round that has one, in the
order of the rounds. -/
def reported (rs : List (LegacyDecoder × List Nat × List Nat)) : List String :=
  rs.filterMap (fun r => decodeError r.1 r.2.2)

/-- The text of the key occurs in the message (both taken as sequences of character codes).
-/
def mentionsKey (message : String) (key : List Nat) : Prop :=
  key <:+: message.toList.map Char.toNat

/-- The value that the loop writes for `exGroup`. -/
def exBuffer : List Nat :=
  [1, 19, 16, 2, 109, 49, 6, 110, 111, 114, 109, 97, 108, 0, 4, 116, 101, 120, 116, 2, 104, 105,
    0, 10, 0, 14, 0, 3, 0, 128, 137, 15, 10, 1, 1, 11, 7, 16]

/-- A group message like `exGroup` whose content is the map {"a": nil, "b": int 1}, ranged over
as "a", "b". -/
def exGroupAB : StoredGroupMessage :=
  { exGroup with Content := [[([97], Value.nil), ([98], Value.int 1)]] }

/-- The same group message, its map ranged over as "b", "a". -/
def exGroupBA : StoredGroupMessage :=
  { exGroup with Content := [[([98], Value.int 1), ([97], Value.nil)]] }

/-- A run in which the decoded map of the payload `[1, 2, 3]` is ranged over as "a", "b". -/
def exDecoderAB : LegacyDecoder :=
  { exDecoder with group := fun data =>
      if data = [1, 2, 3] then .ok exGroupAB else .error "unexpected EOF" }

/-- A run in which the decoded map of the payload `[1, 2, 3]` is ranged over as "b", "a". -/
def exDecoderBA : LegacyDecoder :=
  { exDecoder with group := fun data =>
      if data = [1, 2, 3] then .ok exGroupBA else .error "unexpected EOF" }

/-- The value that the loop writes for `exGroupAB`. -/
def exBufferAB : List Nat :=
  [1, 15, 18, 2, 109, 49, 6, 110, 111, 114, 109, 97, 108, 0, 1, 97, 1, 98,
    0, 10, 0, 14, 0, 3, 0, 128, 137, 15, 10, 1, 2, 11, 0, 13, 1, 2]

/-- The value that the loop writes for `exGroupBA`. -/
def exBufferBA : List Nat :=
  [1, 15, 18, 2, 109, 49, 6, 110, 111, 114, 109, 97, 108, 0, 1, 98, 1, 97,
    0, 10, 0, 14, 0, 3, 0, 128, 137, 15, 10, 1, 2, 11, 1, 2, 13, 0]

/-- A run of three rounds under the keys "k1", "k2", "k3": the payload of the second is
corrupted, the first and the third have the same value, whose map is ranged over as "a", "b"
in the first round and as "b", "a" in the third. -/
def exRounds : List (LegacyDecoder × List Nat × List Nat) :=
  [(exDecoderAB, [107, 49], [0, 1, 2, 3]), (exDecoderAB, [107, 50], [0, 9, 9]),
    (exDecoderBA, [107, 51], [0, 1, 2, 3])]

/-- A group message like `exGroup` whose content holds a value of a dynamic type outside the
ten kinds (a `float64`, say). -/
def exGroupOther : StoredGroupMessage :=
  { exGroup with Content := [[([97], Value.other)]] }

/-- A legacy decoder that decodes the payload `[1, 2, 3]` to `exGroup` and the payload
`[4, 5, 6]` to `exGroupOther`. -/
def exDecoderOther : LegacyDecoder :=
  { exDecoder with group := fun data =>
      if data = [1, 2, 3] then Except.ok exGroup
      else (if data = [4, 5, 6] then Except.ok exGroupOther else Except.error "unexpected EOF") }

/-- Three records of kind 0 under the keys "k1", "k2", "k3" that all decode with
`exDecoderOther`; the second holds the unsupported value. -/
def exPanicRecords : List (List Nat × List Nat) :=
  [([107, 49], [0, 1, 2, 3]), ([107, 50], [0, 4, 5, 6]), ([107, 51], [0, 1, 2, 3])]

/-! ## Values nested in a value -/

/-- The value `u` is `v` itself or is nested in `v`: it is the value of an entry of the segment
map `v`, or of an entry of a map of the segment-map array `v`, or nested in such a value. -/
inductive Nested (u : Value) : Value → Prop where
  | self : Nested u u
  | inMsg (s : GoString) (o : Value) (m : List (GoString × Value)) :
      (s, o) ∈ m → Nested u o → Nested u (Value.msg m)
  | inArrayMsg (s : GoString) (o : Value) (m : List (GoString × Value))
      (a : List (List (GoString × Value))) :
      m ∈ a → (s, o) ∈ m → Nested u o → Nested u (Value.arrayMsg a)

/-! ## Lemmas on the integer encoding -/

theorem uvarintLoop_succ (fuel : Nat) :
    ∀ (w : intWriter) (x : Nat), x ≤ fuel →
      intWriter.uvarintLoop (fuel + 1) w x = intWriter.uvarintLoop fuel w x := by
  induction fuel with
  | zero =>
    intro w x hx
    have h0 : x = 0 := by omega
    subst h0
    simp [intWriter.uvarintLoop]
  | succ n ih =>
    intro w x hx
    rw [intWriter.uvarintLoop]
    by_cases h : x ≥ 0x80
    · rw [if_pos h]
      have hs : x >>> 7 ≤ n := by
        rw [Nat.shiftRight_eq_div_pow]
        have : x / 2 ^ 7 < x := Nat.div_lt_self (by omega) (by norm_num)
        omega
      rw [ih _ _ hs]
      conv_rhs => rw [intWriter.uvarintLoop]
      rw [if_pos h]
    · rw [if_neg h]
      conv_rhs => rw [intWriter.uvarintLoop]
      rw [if_neg h]

theorem uvarintLoop_enough (fuel : Nat) (w : intWriter) (x : Nat) (h : x ≤ fuel) :
    intWriter.uvarintLoop fuel w x = intWriter.uvarintLoop x w x := by
  induction fuel with
  | zero =>
    have h0 : x = 0 := by omega
    subst h0
    rfl
  | succ n ih =>
    by_cases hx : x = n + 1
    · subst hx; rfl
    · rw [uvarintLoop_succ n w x (by omega)]
      exact ih (by omega)

/-- The model of `intWriter.uvarint` satisfies the equation of the source loop. -/
theorem uvarint_unfold (w : intWriter) (x : Nat) :
    intWriter.uvarint w x =
      if x ≥ 0x80 then intWriter.uvarint (intWriter.WriteByte w ((x % 256) ||| 0x80)) (x >>> 7)
      else intWriter.WriteByte w (x % 256) := by
  unfold intWriter.uvarint
  cases x with
  | zero => simp [intWriter.uvarintLoop]
  | succ n =>
    rw [intWriter.uvarintLoop]
    by_cases h : n + 1 ≥ 0x80
    · rw [if_pos h, if_pos h]
      apply uvarintLoop_enough
      rw [Nat.shiftRight_eq_div_pow]
      have : (n + 1) / 2 ^ 7 < n + 1 := Nat.div_lt_self (by omega) (by norm_num)
      omega
    · rw [if_neg h, if_neg h]

theorem uvarint_append : ∀ (x : Nat) (w : intWriter),
    intWriter.uvarint w x = w ++ uvarintBytes x := by
  intro x
  induction x using Nat.strong_induction_on with
  | _ x ih =>
    intro w
    unfold uvarintBytes
    rw [uvarint_unfold w x, uvarint_unfold [] x]
    by_cases h : x ≥ 0x80
    · have hlt : x >>> 7 < x := by
        rw [Nat.shiftRight_eq_div_pow]
        exact Nat.div_lt_self (by omega) (by norm_num)
      rw [if_pos h, if_pos h, ih _ hlt, ih _ hlt (intWriter.WriteByte [] _)]
      simp [intWriter.WriteByte]
    · rw [if_neg h, if_neg h]
      simp [intWriter.WriteByte]

theorem uvarintBytes_unfold (x : Nat) :
    uvarintBytes x =
      if x ≥ 0x80 then ((x % 256) ||| 0x80) :: uvarintBytes (x >>> 7) else [x % 256] := by
  conv_lhs => unfold uvarintBytes
  rw [uvarint_unfold]
  by_cases h : x ≥ 0x80
  · rw [if_pos h, if_pos h, uvarint_append]
    simp [intWriter.WriteByte]
  · rw [if_neg h, if_neg h]
    simp [intWriter.WriteByte]

theorem uvarintBytes_ne_nil (x : Nat) : uvarintBytes x ≠ [] := by
  rw [uvarintBytes_unfold]
  split <;> simp

theorem uvarintBytes_length_pos (x : Nat) : 0 < (uvarintBytes x).length :=
  List.length_pos.mpr (uvarintBytes_ne_nil x)

theorem varint_append (x : Int) (w : intWriter) :
    intWriter.varint w x = w ++ varintBytes x := by
  unfold varintBytes intWriter.varint
  rw [uvarint_append]
  rfl

set_option maxRecDepth 100000 in
theorem byte_facts : ∀ y, y < 256 →
    ¬ ((y ||| 0x80) < 0x80) ∧ (y ||| 0x80) &&& 0x7f = y % 128 ∧ (y ||| 0x80) < 256 := by
  decide

theorem or_shiftLeft_eq_add (acc v shift : Nat) (h : acc < 2 ^ shift) :
    acc ||| (v <<< shift) = acc + v * 2 ^ shift := by
  rw [Nat.shiftLeft_eq, Nat.lor_comm, Nat.mul_comm v, ← Nat.mul_add_lt_is_or h, Nat.add_comm]

theorem readUvarintAux_uvarintBytes (n : Nat) :
    ∀ (x shift acc : Nat) (rest : List Nat), x < 2 ^ (7 * (n + 1)) → acc < 2 ^ shift →
      readUvarintAux (n + 1) shift acc (uvarintBytes x ++ rest)
        = some ((acc + x * 2 ^ shift) % 2 ^ 64, rest) := by
  induction n with
  | zero =>
    intro x shift acc rest hx hacc
    have hx7 : x < 0x80 := by simpa using hx
    rw [uvarintBytes_unfold, if_neg (by omega)]
    have hm : x % 256 = x := Nat.mod_eq_of_lt (by omega)
    rw [hm]
    show readUvarintAux (0 + 1) shift acc (x :: rest) = _
    rw [readUvarintAux, if_pos hx7, or_shiftLeft_eq_add _ _ _ hacc]
  | succ n ih =>
    intro x shift acc rest hx hacc
    rw [uvarintBytes_unfold]
    by_cases h : x ≥ 0x80
    · rw [if_pos h]
      obtain ⟨hb1, hb2, -⟩ := byte_facts (x % 256) (Nat.mod_lt _ (by norm_num))
      show readUvarintAux (n + 1 + 1) shift acc
        (((x % 256) ||| 0x80) :: (uvarintBytes (x >>> 7) ++ rest)) = _
      rw [readUvarintAux, if_neg hb1, hb2]
      have hacc2 : acc ||| ((x % 256 % 128) <<< shift) < 2 ^ (shift + 7) := by
        rw [or_shiftLeft_eq_add _ _ _ hacc, Nat.pow_add]
        have h1 : x % 256 % 128 < 128 := Nat.mod_lt _ (by norm_num)
        have h2 : x % 256 % 128 * 2 ^ shift ≤ 127 * 2 ^ shift :=
          Nat.mul_le_mul_right _ (by omega)
        have h3 : 2 ^ shift * 2 ^ 7 = 128 * 2 ^ shift := by ring
        omega
      have hx2 : x >>> 7 < 2 ^ (7 * (n + 1)) := by
        rw [Nat.shiftRight_eq_div_pow]
        apply Nat.div_lt_of_lt_mul
        rw [← Nat.pow_add]
        have : 7 + 7 * (n + 1) = 7 * (n + 1 + 1) := by ring
        rw [this]; exact hx
      rw [ih _ _ _ _ hx2 hacc2, or_shiftLeft_eq_add _ _ _ hacc]
      have e : acc + x % 256 % 128 * 2 ^ shift + x >>> 7 * 2 ^ (shift + 7)
          = acc + x * 2 ^ shift := by
        rw [Nat.shiftRight_eq_div_pow, Nat.pow_add]
        have h1 : x % 256 % 128 = x % 128 := by omega
        rw [h1]
        have h2 : x = 128 * (x / 128) + x % 128 := (Nat.div_add_mod x 128).symm
        have h3 : x / 2 ^ 7 = x / 128 := by norm_num
        rw [h3]
        conv_rhs => rw [h2]
        ring
      rw [e]
    · rw [if_neg h]
      have hx7 : x < 0x80 := by omega
      have hm : x % 256 = x := Nat.mod_eq_of_lt (by omega)
      rw [hm]
      show readUvarintAux (n + 1 + 1) shift acc (x :: rest) = _
      rw [readUvarintAux, if_pos hx7, or_shiftLeft_eq_add _ _ _ hacc]

theorem readUvarint_uvarintBytes (x : Nat) (rest : List Nat) (hx : x < 2 ^ 64) :
    readUvarint (uvarintBytes x ++ rest) = some (x, rest) := by
  unfold readUvarint
  have h70 : x < 2 ^ (7 * (9 + 1)) :=
    Nat.lt_of_lt_of_le hx (Nat.pow_le_pow_right (by decide) (by decide))
  rw [readUvarintAux_uvarintBytes 9 x 0 0 rest h70 (by decide),
    Nat.pow_zero, Nat.mul_one, Nat.zero_add, Nat.mod_eq_of_lt hx]

theorem xor_allOnes (a : Nat) (h : a < 2 ^ 64) : a ^^^ (2 ^ 64 - 1) = 2 ^ 64 - 1 - a := by
  apply Nat.eq_of_testBit_eq
  intro i
  have e : 2 ^ 64 - 1 - a = 2 ^ 64 - (a + 1) := by omega
  rw [e, Nat.testBit_xor, Nat.testBit_two_pow_sub_one, Nat.testBit_two_pow_sub_succ h]
  by_cases hi : i < 64
  · simp [hi]
  · have : a.testBit i = false :=
      Nat.testBit_lt_two_pow (Nat.lt_of_lt_of_le h (Nat.pow_le_pow_right (by decide) (by omega)))
    simp [hi, this]

theorem toUint64_nonneg (x : Int) (h0 : 0 ≤ x) (h1 : x < 2 ^ 63) : toUint64 x = x.toNat := by
  unfold toUint64
  congr 1
  omega

theorem toUint64_neg (x : Int) (h0 : -2 ^ 63 ≤ x) (h1 : x < 0) :
    toUint64 x = (x + 2 ^ 64).toNat := by
  unfold toUint64
  congr 1
  omega

theorem zigzag_nonneg (x : Int) (h0 : 0 ≤ x) (h1 : x < 2 ^ 63) : zigzag x = (2 * x).toNat := by
  unfold zigzag
  have hs : Int.shiftRight x 63 = 0 := by
    match x, h0, h1 with
    | Int.ofNat n, _, h1 =>
      have hn : n < 2 ^ 63 := by
        simp only [Int.ofNat_eq_coe] at h1
        omega
      show Int.ofNat (n >>> 63) = 0
      rw [Nat.shiftRight_eq_div_pow, Nat.div_eq_of_lt hn]
      rfl
    | Int.negSucc n, h0, _ => exact absurd h0 (by simp [Int.negSucc_not_nonneg])
  rw [hs, toUint64_nonneg x h0 h1]
  have : toUint64 0 = 0 := by decide
  rw [this, Nat.xor_zero, Nat.shiftLeft_eq]
  omega

theorem zigzag_neg (x : Int) (h0 : -2 ^ 63 ≤ x) (h1 : x < 0) :
    zigzag x = (-2 * x - 1).toNat := by
  unfold zigzag
  have hs : Int.shiftRight x 63 = -1 := by
    match x, h0, h1 with
    | Int.ofNat n, _, h1 => exact absurd h1 (by simp [Int.ofNat_nonneg])
    | Int.negSucc n, h0, _ =>
      have hn : n < 2 ^ 63 := by
        have := Int.negSucc_eq n
        omega
      show Int.negSucc (n >>> 63) = -1
      rw [Nat.shiftRight_eq_div_pow, Nat.div_eq_of_lt hn]
      rfl
  rw [hs, toUint64_neg x h0 h1]
  have : toUint64 (-1) = 2 ^ 64 - 1 := by decide
  rw [this, Nat.shiftLeft_eq, xor_allOnes _ (Nat.mod_lt _ (by decide))]
  omega

theorem unzigzag_even (z : Nat) (hz : z < 2 ^ 64) (he : z % 2 = 0) :
    unzigzag z = ((z / 2 : Nat) : Int) := by
  unfold unzigzag toInt64
  rw [Nat.and_one_is_mod, he, Nat.shiftRight_eq_div_pow]
  have e0 : (2 ^ 64 - 0) % 2 ^ 64 = 0 := by decide
  rw [e0, Nat.xor_zero]
  have h1 : z / 2 ^ 1 % 2 ^ 64 = z / 2 := by omega
  rw [h1, if_pos (by omega)]

theorem unzigzag_odd (z : Nat) (hz : z < 2 ^ 64) (ho : z % 2 = 1) :
    unzigzag z = -((z / 2 : Nat) : Int) - 1 := by
  unfold unzigzag toInt64
  rw [Nat.and_one_is_mod, ho, Nat.shiftRight_eq_div_pow]
  have e0 : (2 ^ 64 - 1) % 2 ^ 64 = 2 ^ 64 - 1 := by decide
  rw [e0, xor_allOnes _ (by omega)]
  have h1 : (2 ^ 64 - 1 - z / 2 ^ 1) % 2 ^ 64 = 2 ^ 64 - 1 - z / 2 := by omega
  rw [h1, if_neg (by omega)]
  omega

theorem zigzag_lt (x : Int) (h0 : -2 ^ 63 ≤ x) (h1 : x < 2 ^ 63) : zigzag x < 2 ^ 64 := by
  by_cases hx : 0 ≤ x
  · rw [zigzag_nonneg x hx h1]; omega
  · rw [zigzag_neg x h0 (by omega)]; omega

theorem unzigzag_zigzag (x : Int) (h0 : -2 ^ 63 ≤ x) (h1 : x < 2 ^ 63) :
    unzigzag (zigzag x) = x := by
  by_cases hx : 0 ≤ x
  · have hz := zigzag_nonneg x hx h1
    rw [unzigzag_even _ (zigzag_lt x h0 h1) (by omega)]
    omega
  · have hz := zigzag_neg x h0 (by omega)
    rw [unzigzag_odd _ (zigzag_lt x h0 h1) (by omega)]
    omega

theorem unzigzag_range (z : Nat) (hz : z < 2 ^ 64) :
    -2 ^ 63 ≤ unzigzag z ∧ unzigzag z < 2 ^ 63 := by
  rcases Nat.mod_two_eq_zero_or_one z with he | ho
  · rw [unzigzag_even z hz he]; omega
  · rw [unzigzag_odd z hz ho]; omega

theorem zigzag_unzigzag (z : Nat) (hz : z < 2 ^ 64) : zigzag (unzigzag z) = z := by
  have hr := unzigzag_range z hz
  rcases Nat.mod_two_eq_zero_or_one z with he | ho
  · have hu := unzigzag_even z hz he
    rw [zigzag_nonneg _ (by omega) hr.2]
    omega
  · have hu := unzigzag_odd z hz ho
    rw [zigzag_neg _ hr.1 (by omega)]
    omega

theorem readVarint_varintBytes (x : Int) (rest : List Nat)
    (h0 : -2 ^ 63 ≤ x) (h1 : x < 2 ^ 63) :
    readVarint (varintBytes x ++ rest) = some (x, rest) := by
  unfold readVarint varintBytes intWriter.varint
  show (match readUvarint (uvarintBytes (zigzag x) ++ rest) with
    | some (z, rest) => some (unzigzag z, rest)
    | none => none) = _
  rw [readUvarint_uvarintBytes _ _ (zigzag_lt x h0 h1)]
  simp only [unzigzag_zigzag x h0 h1]

/-! ## Lemmas on the primitive writers -/

@[simp] theorem coder_data (w : writer) (o : coder) : (w.coder o).data = w.data ++ [o] := rfl
@[simp] theorem coder_strings (w : writer) (o : coder) : (w.coder o).strings = w.strings := rfl
@[simp] theorem coder_stringIndex (w : writer) (o : coder) :
    (w.coder o).stringIndex = w.stringIndex := rfl

@[simp] theorem uvarint_data (w : writer) (x : Nat) :
    (w.uvarint x).data = w.data ++ uvarintBytes x := uvarint_append x w.data
@[simp] theorem uvarint_strings (w : writer) (x : Nat) : (w.uvarint x).strings = w.strings := rfl
@[simp] theorem uvarint_stringIndex (w : writer) (x : Nat) :
    (w.uvarint x).stringIndex = w.stringIndex := rfl

@[simp] theorem varint_data (w : writer) (x : Int) :
    (w.varint x).data = w.data ++ varintBytes x := varint_append x w.data
@[simp] theorem varint_strings (w : writer) (x : Int) : (w.varint x).strings = w.strings := rfl
@[simp] theorem varint_stringIndex (w : writer) (x : Int) :
    (w.varint x).stringIndex = w.stringIndex := rfl

@[simp] theorem nil_eq (w : writer) : w.nil = w.coder coderNil := rfl
@[simp] theorem int_eq (w : writer) (x : Int) : w.int x = w.varint x := rfl
@[simp] theorem int32_eq (w : writer) (x : Int) : w.int32 x = w.varint x := rfl
@[simp] theorem int64_eq (w : writer) (x : Int) : w.int64 x = w.varint x := rfl
@[simp] theorem uint_eq (w : writer) (x : Nat) : w.uint x = w.uvarint x := rfl
@[simp] theorem uint32_eq (w : writer) (x : Nat) : w.uint32 x = w.uvarint x := rfl
@[simp] theorem uint64_eq (w : writer) (x : Nat) : w.uint64 x = w.uvarint x := rfl

theorem string_hit (w : writer) (s : GoString) (off : Nat)
    (h : w.stringIndex.lookup s = some off) : w.string s = w.uvarint off := by
  unfold writer.string
  rw [h]

theorem string_miss (w : writer) (s : GoString) (h : w.stringIndex.lookup s = none) :
    (w.string s).data = w.data ++ uvarintBytes w.strings.length
    ∧ (w.string s).strings = w.strings ++ (uvarintBytes s.length ++ s)
    ∧ (w.string s).stringIndex = (s, w.strings.length) :: w.stringIndex := by
  unfold writer.string
  rw [h]
  simp [intWriter.Len, intWriter.WriteString, uvarint_append]

/-! ## Continuation of a writer -/

theorem writer.Extends.refl (w : writer) : w.Extends w :=
  ⟨⟨[], by simp⟩, ⟨[], by simp⟩, fun _ _ h => h⟩

theorem writer.Extends.trans {a b c : writer} (h1 : a.Extends b) (h2 : b.Extends c) : a.Extends c := by
  obtain ⟨⟨o1, e1⟩, ⟨s1, f1⟩, g1⟩ := h1
  obtain ⟨⟨o2, e2⟩, ⟨s2, f2⟩, g2⟩ := h2
  refine ⟨⟨o1 ++ o2, ?_⟩, ⟨s1 ++ s2, ?_⟩, fun s off h => g2 s off (g1 s off h)⟩
  · rw [e2, e1, List.append_assoc]
  · rw [f2, f1, List.append_assoc]

theorem coder_extends (w : writer) (o : coder) : w.Extends (w.coder o) :=
  ⟨⟨[o], rfl⟩, ⟨[], by simp⟩, fun _ _ h => h⟩

theorem uvarint_extends (w : writer) (x : Nat) : w.Extends (w.uvarint x) :=
  ⟨⟨uvarintBytes x, by simp⟩, ⟨[], by simp⟩, fun _ _ h => h⟩

theorem varint_extends (w : writer) (x : Int) : w.Extends (w.varint x) :=
  ⟨⟨varintBytes x, by simp⟩, ⟨[], by simp⟩, fun _ _ h => h⟩

theorem string_extends (w : writer) (s : GoString) : w.Extends (w.string s) := by
  cases h : w.stringIndex.lookup s with
  | some off =>
    rw [string_hit w s off h]
    exact uvarint_extends w off
  | none =>
    obtain ⟨hd, hs, hi⟩ := string_miss w s h
    refine ⟨⟨_, hd⟩, ⟨_, hs⟩, ?_⟩
    intro s2 off2 h2
    rw [hi, List.lookup_cons]
    have hne : (s2 == s) = false := by
      cases hb : (s2 == s) with
      | false => rfl
      | true =>
        have : s2 = s := by simpa using hb
        subst this
        rw [h] at h2
        cases h2
    rw [hne]
    exact h2


theorem obj_msg (w : writer) (m : MSG) : w.obj (Value.msg m) = (w.coder coderMSG).msg m := by
  rw [writer.obj]; rfl

theorem obj_arrayMsg (w : writer) (a : List MSG) :
    w.obj (Value.arrayMsg a) = (w.coder coderArrayMSG).arrayMsg a := by
  rw [writer.obj]; rfl

mutual
theorem obj_closed {P : writer → writer → Prop} (hP : StepClosed P) :
    ∀ (v : Value) (w w1 : writer), w.obj v = .ok w1 → P w w1
  | .nil, w, w1, h => by
    simp only [writer.obj, Except.ok.injEq] at h
    subst h; exact hP.coder _ _
  | .int x, w, w1, h => by
    simp only [writer.obj, Except.ok.injEq] at h
    subst h; exact hP.trans _ _ _ (hP.coder _ _) (hP.varint _ _)
  | .int32 x, w, w1, h => by
    simp only [writer.obj, Except.ok.injEq] at h
    subst h; exact hP.trans _ _ _ (hP.coder _ _) (hP.varint _ _)
  | .int64 x, w, w1, h => by
    simp only [writer.obj, Except.ok.injEq] at h
    subst h; exact hP.trans _ _ _ (hP.coder _ _) (hP.varint _ _)
  | .uint x, w, w1, h => by
    simp only [writer.obj, Except.ok.injEq] at h
    subst h; exact hP.trans _ _ _ (hP.coder _ _) (hP.uvarint _ _)
  | .uint32 x, w, w1, h => by
    simp only [writer.obj, Except.ok.injEq] at h
    subst h; exact hP.trans _ _ _ (hP.coder _ _) (hP.uvarint _ _)
  | .uint64 x, w, w1, h => by
    simp only [writer.obj, Except.ok.injEq] at h
    subst h; exact hP.trans _ _ _ (hP.coder _ _) (hP.uvarint _ _)
  | .string x, w, w1, h => by
    simp only [writer.obj, Except.ok.injEq] at h
    subst h; exact hP.trans _ _ _ (hP.coder _ _) (hP.string _ _)
  | .msg x, w, w1, h => by
    rw [writer.obj] at h
    exact hP.trans _ _ _ (hP.trans _ _ _ (hP.coder _ _) (hP.uvarint _ _))
      (msgLoop_closed hP x _ _ h)
  | .arrayMsg x, w, w1, h => by
    rw [writer.obj] at h
    exact hP.trans _ _ _ (hP.trans _ _ _ (hP.coder _ _) (hP.uvarint _ _))
      (arrayMsgLoop_closed hP x _ _ h)
  | .other, w, w1, h => by
    simp [writer.obj] at h
theorem msgLoop_closed {P : writer → writer → Prop} (hP : StepClosed P) :
    ∀ (m : List (GoString × Value)) (w w1 : writer), writer.msgLoop w m = .ok w1 → P w w1
  | [], w, w1, h => by
    simp only [writer.msgLoop, Except.ok.injEq] at h
    subst h; exact hP.refl _
  | (s, o) :: rest, w, w1, h => by
    rw [writer.msgLoop] at h
    cases h2 : writer.obj (w.string s) o with
    | error e => rw [h2] at h; cases h
    | ok w2 =>
      rw [h2] at h
      exact hP.trans _ _ _ (hP.trans _ _ _ (hP.string w s) (obj_closed hP o _ _ h2))
        (msgLoop_closed hP rest _ _ h)
theorem arrayMsgLoop_closed {P : writer → writer → Prop} (hP : StepClosed P) :
    ∀ (a : List (List (GoString × Value))) (w w1 : writer),
      writer.arrayMsgLoop w a = .ok w1 → P w w1
  | [], w, w1, h => by
    simp only [writer.arrayMsgLoop, Except.ok.injEq] at h
    subst h; exact hP.refl _
  | v :: rest, w, w1, h => by
    rw [writer.arrayMsgLoop] at h
    cases h2 : writer.msgLoop (w.uvarint v.length) v with
    | error e => rw [h2] at h; cases h
    | ok w2 =>
      rw [h2] at h
      exact hP.trans _ _ _ (hP.trans _ _ _ (hP.uvarint w _) (msgLoop_closed hP v _ _ h2))
        (arrayMsgLoop_closed hP rest _ _ h)
end

theorem msg_closed {P : writer → writer → Prop} (hP : StepClosed P) (m : MSG) (w w1 : writer)
    (h : w.msg m = .ok w1) : P w w1 :=
  hP.trans _ _ _ (hP.uvarint _ _) (msgLoop_closed hP m _ _ h)

theorem arrayMsg_closed {P : writer → writer → Prop} (hP : StepClosed P) (a : List MSG)
    (w w1 : writer) (h : w.arrayMsg a = .ok w1) : P w w1 :=
  hP.trans _ _ _ (hP.uvarint _ _) (arrayMsgLoop_closed hP a _ _ h)

theorem attribute_closed {P : writer → writer → Prop} (hP : StepClosed P)
    (x : Option StoredMessageAttribute) (w : writer) :
    P w (w.writeStoredMessageAttribute x) := by
  cases x with
  | none => exact hP.coder _ _
  | some x =>
    simp only [writer.writeStoredMessageAttribute, int32_eq, int64_eq]
    exact hP.trans _ _ _ (hP.trans _ _ _ (hP.trans _ _ _ (hP.trans _ _ _ (hP.trans _ _ _
      (hP.coder _ _) (hP.varint _ _)) (hP.varint _ _)) (hP.varint _ _)) (hP.string _ _))
      (hP.varint _ _)

theorem guildAttribute_closed {P : writer → writer → Prop} (hP : StepClosed P)
    (x : Option StoredGuildMessageAttribute) (w : writer) :
    P w (w.writeStoredGuildMessageAttribute x) := by
  cases x with
  | none => exact hP.coder _ _
  | some x =>
    simp only [writer.writeStoredGuildMessageAttribute, uint64_eq, int64_eq]
    exact hP.trans _ _ _ (hP.trans _ _ _ (hP.trans _ _ _ (hP.trans _ _ _ (hP.trans _ _ _
      (hP.coder _ _) (hP.uvarint _ _)) (hP.uvarint _ _)) (hP.uvarint _ _)) (hP.string _ _))
      (hP.varint _ _)

theorem quotedInfo_closed {P : writer → writer → Prop} (hP : StepClosed P)
    (x : Option QuotedInfo) (w w1 : writer) (h : w.writeQuotedInfo x = .ok w1) : P w w1 := by
  cases x with
  | none =>
    simp only [writer.writeQuotedInfo, Except.ok.injEq] at h
    subst h; exact hP.coder _ _
  | some x =>
    simp only [writer.writeQuotedInfo, int32_eq] at h
    exact hP.trans _ _ _ (hP.trans _ _ _ (hP.trans _ _ _ (hP.coder _ _) (hP.string _ _))
      (hP.varint _ _)) (arrayMsg_closed hP _ _ _ h)

theorem groupMessage_closed {P : writer → writer → Prop} (hP : StepClosed P)
    (x : Option StoredGroupMessage) (w w1 : writer)
    (h : w.writeStoredGroupMessage x = .ok w1) : P w w1 := by
  cases x with
  | none =>
    simp only [writer.writeStoredGroupMessage, Except.ok.injEq] at h
    subst h; exact hP.coder _ _
  | some x =>
    simp only [writer.writeStoredGroupMessage, int32_eq, int64_eq] at h
    split at h
    · cases h
    · rename_i w2 hq
      exact hP.trans _ _ _ (hP.trans _ _ _ (hP.trans _ _ _ (hP.trans _ _ _ (hP.trans _ _ _
        (hP.trans _ _ _ (hP.trans _ _ _ (hP.trans _ _ _ (hP.coder _ _) (hP.string _ _))
        (hP.varint _ _)) (attribute_closed hP _ _)) (hP.string _ _))
        (quotedInfo_closed hP _ _ _ hq)) (hP.varint _ _)) (hP.string _ _))
        (arrayMsg_closed hP _ _ _ h)

theorem privateMessage_closed {P : writer → writer → Prop} (hP : StepClosed P)
    (x : Option StoredPrivateMessage) (w w1 : writer)
    (h : w.writeStoredPrivateMessage x = .ok w1) : P w w1 := by
  cases x with
  | none =>
    simp only [writer.writeStoredPrivateMessage, Except.ok.injEq] at h
    subst h; exact hP.coder _ _
  | some x =>
    simp only [writer.writeStoredPrivateMessage, int32_eq, int64_eq] at h
    split at h
    · cases h
    · rename_i w2 hq
      exact hP.trans _ _ _ (hP.trans _ _ _ (hP.trans _ _ _ (hP.trans _ _ _ (hP.trans _ _ _
        (hP.trans _ _ _ (hP.trans _ _ _ (hP.trans _ _ _ (hP.coder _ _) (hP.string _ _))
        (hP.varint _ _)) (attribute_closed hP _ _)) (hP.string _ _))
        (quotedInfo_closed hP _ _ _ hq)) (hP.varint _ _)) (hP.varint _ _))
        (arrayMsg_closed hP _ _ _ h)

theorem guildChannelMessage_closed {P : writer → writer → Prop} (hP : StepClosed P)
    (x : Option StoredGuildChannelMessage) (w w1 : writer)
    (h : w.writeStoredGuildChannelMessage x = .ok w1) : P w w1 := by
  cases x with
  | none =>
    simp only [writer.writeStoredGuildChannelMessage, Except.ok.injEq] at h
    subst h; exact hP.coder _ _
  | some x =>
    simp only [writer.writeStoredGuildChannelMessage, uint64_eq] at h
    split at h
    · cases h
    · rename_i w2 hq
      exact hP.trans _ _ _ (hP.trans _ _ _ (hP.trans _ _ _ (hP.trans _ _ _ (hP.trans _ _ _
        (hP.trans _ _ _ (hP.coder _ _) (hP.string _ _))
        (guildAttribute_closed hP _ _)) (hP.uvarint _ _)) (hP.uvarint _ _))
        (quotedInfo_closed hP _ _ _ hq))
        (arrayMsg_closed hP _ _ _ h)

theorem extends_closed : StepClosed writer.Extends :=
  { refl := writer.Extends.refl
    trans := fun _ _ _ h1 h2 => h1.trans h2
    coder := coder_extends
    uvarint := uvarint_extends
    varint := varint_extends
    string := string_extends }

/-! ## The string-table invariant is kept -/

theorem uvarintBytes_append_ne_nil (n : Nat) (s tail : List Nat) :
    uvarintBytes n ++ s ++ tail ≠ [] := by
  intro h
  have := uvarintBytes_ne_nil n
  simp only [List.append_eq_nil] at h
  exact this h.1.1

theorem EntryAt.lt {strings : List Nat} {off : Nat} {s : GoString}
    (h : EntryAt strings off s) : off < strings.length := by
  obtain ⟨tail, ht⟩ := h
  by_contra hge
  rw [List.drop_eq_nil_of_le (by omega)] at ht
  exact uvarintBytes_append_ne_nil _ _ _ ht.symm

theorem EntryAt.append {strings : List Nat} {off : Nat} {s : GoString}
    (h : EntryAt strings off s) (e : List Nat) : EntryAt (strings ++ e) off s := by
  have hlt := h.lt
  obtain ⟨tail, ht⟩ := h
  refine ⟨tail ++ e, ?_⟩
  rw [List.drop_append_of_le_length (by omega), ht, List.append_assoc]

theorem valid_newWriter : newWriter.Valid := by
  intro s off h
  simp [newWriter] at h

theorem string_valid (w : writer) (s : GoString) (hv : w.Valid) : (w.string s).Valid := by
  cases h : w.stringIndex.lookup s with
  | some off =>
    rw [string_hit w s off h]
    exact hv
  | none =>
    obtain ⟨-, hs, hi⟩ := string_miss w s h
    intro s2 off2 h2
    rw [hi, List.lookup_cons] at h2
    rw [hs]
    cases hb : (s2 == s) with
    | true =>
      rw [hb] at h2
      have e1 : s2 = s := by simpa using hb
      have e2 : w.strings.length = off2 := by simpa using h2
      subst e1 e2
      exact ⟨[], by simp⟩
    | false =>
      rw [hb] at h2
      exact (hv s2 off2 h2).append _

theorem string_spec (w : writer) (s : GoString) (hv : w.Valid) :
    ∃ off, (w.string s).data = w.data ++ uvarintBytes off
      ∧ (w.string s).stringIndex.lookup s = some off
      ∧ EntryAt (w.string s).strings off s := by
  cases h : w.stringIndex.lookup s with
  | some off =>
    rw [string_hit w s off h]
    exact ⟨off, by simp, h, hv s off h⟩
  | none =>
    obtain ⟨hd, hs, hi⟩ := string_miss w s h
    refine ⟨w.strings.length, hd, ?_, ?_⟩
    · rw [hi]; simp
    · rw [hs]; exact ⟨[], by simp⟩

theorem valid_closed : StepClosed (fun w w1 => w.Valid → w1.Valid) :=
  { refl := fun _ h => h
    trans := fun _ _ _ h1 h2 h => h2 (h1 h)
    coder := fun _ _ h => h
    uvarint := fun _ _ h => h
    varint := fun _ _ h => h
    string := fun w s h => string_valid w s h }

/-! ## The mirror reader undoes the writers -/

theorem isUint64_iff (x : Nat) : isUint64 x = true ↔ x < 2 ^ 64 := by
  simp [isUint64]

theorem isInt64_iff (x : Int) : isInt64 x = true ↔ -2 ^ 63 ≤ x ∧ x < 2 ^ 63 := by
  simp [isInt64]

theorem isInt32_iff (x : Int) : isInt32 x = true ↔ -2 ^ 31 ≤ x ∧ x < 2 ^ 31 := by
  simp [isInt32]

theorem isUint32_iff (x : Nat) : isUint32 x = true ↔ x < 2 ^ 32 := by
  simp [isUint32]

theorem toInt32_of_isInt32 (x : Int) (h : isInt32 x = true) : toInt32 x = x := by
  rw [isInt32_iff] at h
  unfold toInt32
  omega

theorem toUint32_of_isUint32 (x : Nat) (h : isUint32 x = true) : toUint32 x = x := by
  rw [isUint32_iff] at h
  unfold toUint32
  omega

theorem readString_entry (S : List Nat) (off : Nat) (s : GoString) (rest : List Nat)
    (he : EntryAt S off s) (hS : S.length < 2 ^ 64) (hs : s.length < 2 ^ 64) :
    readString S (uvarintBytes off ++ rest) = some (s, rest) := by
  have hoff : off < 2 ^ 64 := Nat.lt_trans he.lt hS
  obtain ⟨tail, ht⟩ := he
  unfold readString
  rw [readUvarint_uvarintBytes off rest hoff]
  simp only [ht, List.append_assoc]
  rw [readUvarint_uvarintBytes _ _ hs]
  simp

theorem readInt32_varintBytes (x : Int) (rest : List Nat) (h : isInt32 x = true) :
    readInt32 (varintBytes x ++ rest) = some (x, rest) := by
  have h2 := (isInt32_iff x).mp h
  unfold readInt32
  rw [readVarint_varintBytes x rest (by omega) (by omega)]
  simp [toInt32_of_isInt32 x h]

theorem Covers.of_extends {S : List Nat} {a b : writer} (h : a.Extends b) (hc : Covers S b) :
    Covers S a := by
  obtain ⟨t, ht⟩ := hc
  obtain ⟨-, ⟨e, he⟩, -⟩ := h
  exact ⟨e ++ t, by rw [ht, he, List.append_assoc]⟩

theorem Covers.entry {S : List Nat} {w : writer} {off : Nat} {s : GoString}
    (hc : Covers S w) (he : EntryAt w.strings off s) : EntryAt S off s := by
  obtain ⟨t, ht⟩ := hc
  rw [ht]
  exact he.append t

theorem readString_string (w : writer) (s : GoString) (S : List Nat) (hv : w.Valid)
    (hc : Covers S (w.string s)) (hS : S.length < 2 ^ 64) (hs : s.length < 2 ^ 64) :
    ∃ out, (w.string s).data = w.data ++ out
      ∧ ∀ rest, readString S (out ++ rest) = some (s, rest) := by
  obtain ⟨off, hd, -, he⟩ := string_spec w s hv
  exact ⟨uvarintBytes off, hd, fun rest => readString_entry S off s rest (hc.entry he) hS hs⟩


theorem exists_succ_of_pos {fuel : Nat} (h : 1 ≤ fuel) : ∃ f, fuel = f + 1 :=
  ⟨fuel - 1, by omega⟩

mutual
theorem obj_read : ∀ (v : Value) (w w1 : writer) (S : List Nat),
    w.obj v = .ok w1 → w.Valid → v.inRange = true → Covers S w1 → S.length < 2 ^ 64 →
    ∃ out, w1.data = w.data ++ out
      ∧ ∀ fuel rest, v.depth ≤ fuel → readObj S fuel (out ++ rest) = some (v, rest)
  | .nil, w, w1, S, h, _, _, _, _ => by
    simp only [writer.obj, Except.ok.injEq] at h
    subst h
    refine ⟨[coderNil], rfl, ?_⟩
    intro fuel rest hf
    obtain ⟨f, rfl⟩ := exists_succ_of_pos hf
    simp [readObj]
  | .int x, w, w1, S, h, _, hr, _, _ => by
    simp only [writer.obj, Except.ok.injEq] at h
    subst h
    refine ⟨coderInt :: varintBytes x, by simp, ?_⟩
    intro fuel rest hf
    obtain ⟨f, rfl⟩ := exists_succ_of_pos hf
    have h2 := (isInt64_iff x).mp hr
    simp [readObj, coderNil, coderInt, readVarint_varintBytes x rest h2.1 h2.2]
  | .int32 x, w, w1, S, h, _, hr, _, _ => by
    simp only [writer.obj, Except.ok.injEq] at h
    subst h
    refine ⟨coderInt32 :: varintBytes x, by simp, ?_⟩
    intro fuel rest hf
    obtain ⟨f, rfl⟩ := exists_succ_of_pos hf
    have h2 := (isInt32_iff x).mp hr
    simp [readObj, coderNil, coderInt, coderUint, coderInt32,
      readVarint_varintBytes x rest (by omega) (by omega), toInt32_of_isInt32 x hr]
  | .int64 x, w, w1, S, h, _, hr, _, _ => by
    simp only [writer.obj, Except.ok.injEq] at h
    subst h
    refine ⟨coderInt64 :: varintBytes x, by simp, ?_⟩
    intro fuel rest hf
    obtain ⟨f, rfl⟩ := exists_succ_of_pos hf
    have h2 := (isInt64_iff x).mp hr
    simp [readObj, coderNil, coderInt, coderUint, coderInt32, coderUint32, coderInt64,
      readVarint_varintBytes x rest h2.1 h2.2]
  | .uint x, w, w1, S, h, _, hr, _, _ => by
    simp only [writer.obj, Except.ok.injEq] at h
    subst h
    refine ⟨coderUint :: uvarintBytes x, by simp, ?_⟩
    intro fuel rest hf
    obtain ⟨f, rfl⟩ := exists_succ_of_pos hf
    have h2 := (isUint64_iff x).mp hr
    simp [readObj, coderNil, coderInt, coderUint, readUvarint_uvarintBytes x rest h2]
  | .uint32 x, w, w1, S, h, _, hr, _, _ => by
    simp only [writer.obj, Except.ok.injEq] at h
    subst h
    refine ⟨coderUint32 :: uvarintBytes x, by simp, ?_⟩
    intro fuel rest hf
    obtain ⟨f, rfl⟩ := exists_succ_of_pos hf
    have h2 := (isUint32_iff x).mp hr
    simp [readObj, coderNil, coderInt, coderUint, coderInt32, coderUint32,
      readUvarint_uvarintBytes x rest (by omega), toUint32_of_isUint32 x hr]
  | .uint64 x, w, w1, S, h, _, hr, _, _ => by
    simp only [writer.obj, Except.ok.injEq] at h
    subst h
    refine ⟨coderUint64 :: uvarintBytes x, by simp, ?_⟩
    intro fuel rest hf
    obtain ⟨f, rfl⟩ := exists_succ_of_pos hf
    have h2 := (isUint64_iff x).mp hr
    simp [readObj, coderNil, coderInt, coderUint, coderInt32, coderUint32, coderInt64,
      coderUint64, readUvarint_uvarintBytes x rest h2]
  | .string x, w, w1, S, h, hv, hr, hc, hS => by
    simp only [writer.obj, Except.ok.injEq] at h
    subst h
    obtain ⟨out, hd, hread⟩ := readString_string (w.coder coderString) x S hv hc hS
      ((isUint64_iff _).mp hr)
    refine ⟨coderString :: out, by rw [hd]; simp, ?_⟩
    intro fuel rest hf
    obtain ⟨f, rfl⟩ := exists_succ_of_pos hf
    simp [readObj, coderNil, coderInt, coderUint, coderInt32, coderUint32, coderInt64,
      coderUint64, coderString, hread rest]
  | .msg x, w, w1, S, h, hv, hr, hc, hS => by
    rw [writer.obj] at h
    simp only [Value.inRange, Bool.and_eq_true] at hr
    obtain ⟨out, hd, hread⟩ := msgLoop_read x _ w1 S h hv hr.2 hc hS
    refine ⟨coderMSG :: (uvarintBytes x.length ++ out), by rw [hd]; simp, ?_⟩
    intro fuel rest hf
    simp only [Value.depth] at hf
    obtain ⟨f, rfl⟩ := exists_succ_of_pos (Nat.le_trans (Nat.le_add_left 1 _) hf)
    have hx := (isUint64_iff _).mp hr.1
    simp [readObj, coderNil, coderInt, coderUint, coderInt32, coderUint32, coderInt64,
      coderUint64, coderString, coderMSG, readMsg, readUvarint_uvarintBytes _ _ hx,
      hread f rest (by omega)]
  | .arrayMsg x, w, w1, S, h, hv, hr, hc, hS => by
    rw [writer.obj] at h
    simp only [Value.inRange, Bool.and_eq_true] at hr
    obtain ⟨out, hd, hread⟩ := arrayMsgLoop_read x _ w1 S h hv hr.2 hc hS
    refine ⟨coderArrayMSG :: (uvarintBytes x.length ++ out), by rw [hd]; simp, ?_⟩
    intro fuel rest hf
    simp only [Value.depth] at hf
    obtain ⟨f, rfl⟩ := exists_succ_of_pos (Nat.le_trans (Nat.le_add_left 1 _) hf)
    have hx := (isUint64_iff _).mp hr.1
    simp [readObj, coderNil, coderInt, coderUint, coderInt32, coderUint32, coderInt64,
      coderUint64, coderString, coderMSG, coderArrayMSG, readArrayMsgWith,
      readUvarint_uvarintBytes _ _ hx, hread f rest (by omega)]
  | .other, w, w1, S, h, _, _, _, _ => by
    simp [writer.obj] at h
theorem msgLoop_read : ∀ (m : List (GoString × Value)) (w w1 : writer) (S : List Nat),
    writer.msgLoop w m = .ok w1 → w.Valid → entriesInRange m = true → Covers S w1 →
    S.length < 2 ^ 64 →
    ∃ out, w1.data = w.data ++ out
      ∧ ∀ fuel rest, entriesDepth m ≤ fuel →
          readEntries (readObj S fuel) S m.length (out ++ rest) = some (m, rest)
  | [], w, w1, S, h, _, _, _, _ => by
    simp only [writer.msgLoop, Except.ok.injEq] at h
    subst h
    exact ⟨[], by simp, fun fuel rest _ => by simp [readEntries]⟩
  | (s, o) :: tl, w, w1, S, h, hv, hr, hc, hS => by
    rw [writer.msgLoop] at h
    cases h2 : writer.obj (w.string s) o with
    | error e => rw [h2] at h; cases h
    | ok w2 =>
      rw [h2] at h
      simp only [entriesInRange, Bool.and_eq_true] at hr
      have hv1 : (w.string s).Valid := string_valid w s hv
      have hv2 : w2.Valid := obj_closed valid_closed o _ _ h2 hv1
      have hc2 : Covers S w2 := hc.of_extends (msgLoop_closed extends_closed tl _ _ h)
      have hc1 : Covers S (w.string s) := hc2.of_extends (obj_closed extends_closed o _ _ h2)
      obtain ⟨o1, hd1, hread1⟩ := readString_string w s S hv hc1 hS ((isUint64_iff _).mp hr.1.1)
      obtain ⟨o2, hd2, hread2⟩ := obj_read o _ w2 S h2 hv1 hr.1.2 hc2 hS
      obtain ⟨o3, hd3, hread3⟩ := msgLoop_read tl w2 w1 S h hv2 hr.2 hc hS
      refine ⟨o1 ++ (o2 ++ o3), by rw [hd3, hd2, hd1]; simp, ?_⟩
      intro fuel rest hf
      simp only [entriesDepth] at hf
      have hf1 : o.depth ≤ fuel := le_trans (le_max_left _ _) hf
      have hf2 : entriesDepth tl ≤ fuel := le_trans (le_max_right _ _) hf
      simp only [List.length_cons, readEntries, List.append_assoc, hread1, hread2 fuel _ hf1,
        hread3 fuel rest hf2]
theorem arrayMsgLoop_read : ∀ (a : List (List (GoString × Value))) (w w1 : writer)
    (S : List Nat),
    writer.arrayMsgLoop w a = .ok w1 → w.Valid → msgsInRange a = true → Covers S w1 →
    S.length < 2 ^ 64 →
    ∃ out, w1.data = w.data ++ out
      ∧ ∀ fuel rest, msgsDepth a ≤ fuel →
          readMsgs (readObj S fuel) S a.length (out ++ rest) = some (a, rest)
  | [], w, w1, S, h, _, _, _, _ => by
    simp only [writer.arrayMsgLoop, Except.ok.injEq] at h
    subst h
    exact ⟨[], by simp, fun fuel rest _ => by simp [readMsgs]⟩
  | v :: tl, w, w1, S, h, hv, hr, hc, hS => by
    rw [writer.arrayMsgLoop] at h
    cases h2 : writer.msgLoop (w.uvarint v.length) v with
    | error e => rw [h2] at h; cases h
    | ok w2 =>
      rw [h2] at h
      simp only [msgsInRange, Bool.and_eq_true] at hr
      have hv2 : w2.Valid := msgLoop_closed valid_closed v _ _ h2 hv
      have hc2 : Covers S w2 := hc.of_extends (arrayMsgLoop_closed extends_closed tl _ _ h)
      obtain ⟨o2, hd2, hread2⟩ := msgLoop_read v _ w2 S h2 hv hr.1.2 hc2 hS
      obtain ⟨o3, hd3, hread3⟩ := arrayMsgLoop_read tl w2 w1 S h hv2 hr.2 hc hS
      refine ⟨uvarintBytes v.length ++ (o2 ++ o3), by rw [hd3, hd2]; simp, ?_⟩
      intro fuel rest hf
      simp only [msgsDepth] at hf
      have hf1 : entriesDepth v ≤ fuel := le_trans (le_max_left _ _) hf
      have hf2 : msgsDepth tl ≤ fuel := le_trans (le_max_right _ _) hf
      have hx := (isUint64_iff _).mp hr.1.1
      simp only [List.length_cons, readMsgs, readMsg, List.append_assoc,
        readUvarint_uvarintBytes _ _ hx, hread2 fuel _ hf1, hread3 fuel rest hf2]
end


mutual
theorem obj_ok_of_supported : ∀ (v : Value) (w : writer), v.supported = true →
    ∃ w1, w.obj v = .ok w1
  | .nil, w, _ => ⟨_, by rw [writer.obj]⟩
  | .int _, w, _ => ⟨_, by rw [writer.obj]⟩
  | .int32 _, w, _ => ⟨_, by rw [writer.obj]⟩
  | .int64 _, w, _ => ⟨_, by rw [writer.obj]⟩
  | .uint _, w, _ => ⟨_, by rw [writer.obj]⟩
  | .uint32 _, w, _ => ⟨_, by rw [writer.obj]⟩
  | .uint64 _, w, _ => ⟨_, by rw [writer.obj]⟩
  | .string _, w, _ => ⟨_, by rw [writer.obj]⟩
  | .msg x, w, h => by
    rw [writer.obj]
    simp only [Value.supported] at h
    exact msgLoop_ok_of_supported x _ h
  | .arrayMsg x, w, h => by
    rw [writer.obj]
    simp only [Value.supported] at h
    exact arrayMsgLoop_ok_of_supported x _ h
  | .other, w, h => by
    simp [Value.supported] at h
theorem msgLoop_ok_of_supported : ∀ (m : List (GoString × Value)) (w : writer),
    entriesSupported m = true → ∃ w1, writer.msgLoop w m = .ok w1
  | [], w, _ => ⟨w, by rw [writer.msgLoop]⟩
  | (s, o) :: tl, w, h => by
    simp only [entriesSupported, Bool.and_eq_true] at h
    obtain ⟨w2, h2⟩ := obj_ok_of_supported o (w.string s) h.1
    obtain ⟨w3, h3⟩ := msgLoop_ok_of_supported tl w2 h.2
    exact ⟨w3, by rw [writer.msgLoop, h2]; exact h3⟩
theorem arrayMsgLoop_ok_of_supported : ∀ (a : List (List (GoString × Value))) (w : writer),
    msgsSupported a = true → ∃ w1, writer.arrayMsgLoop w a = .ok w1
  | [], w, _ => ⟨w, by rw [writer.arrayMsgLoop]⟩
  | v :: tl, w, h => by
    simp only [msgsSupported, Bool.and_eq_true] at h
    obtain ⟨w2, h2⟩ := msgLoop_ok_of_supported v (w.uvarint v.length) h.1
    obtain ⟨w3, h3⟩ := arrayMsgLoop_ok_of_supported tl w2 h.2
    exact ⟨w3, by rw [writer.arrayMsgLoop, h2]; exact h3⟩
end

theorem arrayMsg_ok_of_supported (a : List MSG) (w : writer) (h : msgsSupported a = true) :
    ∃ w1, w.arrayMsg a = .ok w1 :=
  arrayMsgLoop_ok_of_supported a _ h

theorem quotedInfo_ok_of_supported (x : Option QuotedInfo) (w : writer)
    (h : quotedSupported x = true) : ∃ w1, w.writeQuotedInfo x = .ok w1 := by
  cases x with
  | none => exact ⟨_, rfl⟩
  | some q => exact arrayMsg_ok_of_supported _ _ h

theorem groupMessage_ok_of_supported (x : StoredGroupMessage) (w : writer)
    (hq : quotedSupported x.QuotedInfo = true) (hc : msgsSupported x.Content = true) :
    ∃ w1, w.writeStoredGroupMessage (some x) = .ok w1 := by
  simp only [writer.writeStoredGroupMessage]
  obtain ⟨w5, h5⟩ := quotedInfo_ok_of_supported x.QuotedInfo
    (((((w.coder coderStruct).string x.ID).int32 x.GlobalID).writeStoredMessageAttribute
      x.Attribute).string x.SubType) hq
  rw [h5]
  exact arrayMsg_ok_of_supported _ _ hc

theorem arrayMsg_read (a : List MSG) (w w1 : writer) (S : List Nat)
    (h : w.arrayMsg a = .ok w1) (hv : w.Valid) (hl : isUint64 a.length = true)
    (hr : msgsInRange a = true) (hc : Covers S w1) (hS : S.length < 2 ^ 64) :
    ∃ out, w1.data = w.data ++ out
      ∧ ∀ fuel rest, msgsDepth a ≤ fuel → readArrayMsg S fuel (out ++ rest) = some (a, rest) := by
  obtain ⟨out, hd, hread⟩ := arrayMsgLoop_read a _ w1 S h hv hr hc hS
  refine ⟨uvarintBytes a.length ++ out, by rw [hd]; simp, ?_⟩
  intro fuel rest hf
  simp only [readArrayMsg, readArrayMsgWith, List.append_assoc,
    readUvarint_uvarintBytes _ _ ((isUint64_iff _).mp hl), hread fuel rest hf]

theorem attribute_read (x : Option StoredMessageAttribute) (w : writer) (S : List Nat)
    (hv : w.Valid) (hr : attributeInRange x = true)
    (hc : Covers S (w.writeStoredMessageAttribute x)) (hS : S.length < 2 ^ 64) :
    ∃ out, (w.writeStoredMessageAttribute x).data = w.data ++ out
      ∧ ∀ rest, readStoredMessageAttribute S (out ++ rest) = some (x, rest) := by
  cases x with
  | none =>
    exact ⟨[coderNil], rfl, fun rest => by simp [readStoredMessageAttribute]⟩
  | some x =>
    simp only [attributeInRange, StoredMessageAttribute.inRange, Bool.and_eq_true] at hr
    obtain ⟨⟨⟨⟨r1, r2⟩, r3⟩, r4⟩, r5⟩ := hr
    simp only [writer.writeStoredMessageAttribute, int32_eq, int64_eq] at hc ⊢
    obtain ⟨o, hd, hread⟩ := readString_string
      ((((w.coder coderStruct).varint x.MessageSeq).varint x.InternalID).varint x.SenderUin)
      x.SenderName S hv hc hS ((isUint64_iff _).mp r4)
    have h3 := (isInt64_iff _).mp r3
    have h5 := (isInt64_iff _).mp r5
    refine ⟨coderStruct :: (varintBytes x.MessageSeq ++ (varintBytes x.InternalID ++
      (varintBytes x.SenderUin ++ (o ++ varintBytes x.Timestamp)))), ?_, ?_⟩
    · rw [varint_data, hd]; simp
    · intro rest
      simp [readStoredMessageAttribute, coderNil, coderStruct, readInt32_varintBytes _ _ r1,
        readInt32_varintBytes _ _ r2, readVarint_varintBytes _ _ h3.1 h3.2, hread,
        readVarint_varintBytes _ _ h5.1 h5.2]

theorem quotedInfo_read (x : Option QuotedInfo) (w w1 : writer) (S : List Nat)
    (h : w.writeQuotedInfo x = .ok w1) (hv : w.Valid) (hr : quotedInRange x = true)
    (hc : Covers S w1) (hS : S.length < 2 ^ 64) :
    ∃ out, w1.data = w.data ++ out
      ∧ ∀ fuel rest, quotedDepth x ≤ fuel →
          readQuotedInfo S fuel (out ++ rest) = some (x, rest) := by
  cases x with
  | none =>
    simp only [writer.writeQuotedInfo, Except.ok.injEq] at h
    subst h
    exact ⟨[coderNil], rfl, fun fuel rest _ => by simp [readQuotedInfo]⟩
  | some x =>
    simp only [quotedInRange, QuotedInfo.inRange, Bool.and_eq_true] at hr
    obtain ⟨⟨⟨r1, r2⟩, r3⟩, r4⟩ := hr
    simp only [writer.writeQuotedInfo, int32_eq] at h
    have hc1 : Covers S ((w.coder coderStruct).string x.PrevID) :=
      hc.of_extends ((varint_extends _ _).trans (arrayMsg_closed extends_closed _ _ _ h))
    obtain ⟨o1, hd1, hread1⟩ := readString_string (w.coder coderStruct) x.PrevID S hv hc1 hS
      ((isUint64_iff _).mp r1)
    have hv2 : (((w.coder coderStruct).string x.PrevID).varint x.PrevGlobalID).Valid :=
      string_valid _ _ hv
    obtain ⟨o3, hd3, hread3⟩ := arrayMsg_read _ _ w1 S h hv2 r3 r4 hc hS
    refine ⟨coderStruct :: (o1 ++ (varintBytes x.PrevGlobalID ++ o3)), ?_, ?_⟩
    · rw [hd3, varint_data, hd1]; simp
    · intro fuel rest hf
      simp only [quotedDepth] at hf
      simp [readQuotedInfo, coderNil, coderStruct, hread1, readInt32_varintBytes _ _ r2,
        hread3 fuel rest hf]

/-! ## Offsets are kept by every writer call -/

theorem string_lookup (w : writer) (s : GoString) :
    ∃ off, (w.string s).data = w.data ++ uvarintBytes off
      ∧ (w.string s).stringIndex.lookup s = some off := by
  cases h : w.stringIndex.lookup s with
  | some off =>
    rw [string_hit w s off h]
    exact ⟨off, by simp, h⟩
  | none =>
    obtain ⟨hd, -, hi⟩ := string_miss w s h
    exact ⟨w.strings.length, hd, by rw [hi]; simp⟩

theorem keepsIndex_closed : StepClosed writer.KeepsIndex :=
  { refl := fun _ _ _ h => h
    trans := fun _ _ _ h1 h2 s off h => h2 s off (h1 s off h)
    coder := fun _ _ _ _ h => h
    uvarint := fun _ _ _ _ h => h
    varint := fun _ _ _ _ h => h
    string := fun w s => (string_extends w s).2.2 }

theorem apply_keepsIndex (w w1 : writer) (op : Op) (h : w.apply op = .ok w1) :
    w.KeepsIndex w1 := by
  cases op with
  | msg m => exact msg_closed keepsIndex_closed m w w1 h
  | arrayMsg a => exact arrayMsg_closed keepsIndex_closed a w w1 h
  | obj o => exact obj_closed keepsIndex_closed o w w1 h
  | writeStoredGroupMessage x => exact groupMessage_closed keepsIndex_closed x w w1 h
  | writeStoredPrivateMessage x => exact privateMessage_closed keepsIndex_closed x w w1 h
  | writeStoredGuildChannelMessage x =>
    exact guildChannelMessage_closed keepsIndex_closed x w w1 h
  | writeQuotedInfo x => exact quotedInfo_closed keepsIndex_closed x w w1 h
  | writeStoredMessageAttribute x =>
    simp only [writer.apply, Except.ok.injEq] at h
    subst h; exact attribute_closed keepsIndex_closed x w
  | writeStoredGuildMessageAttribute x =>
    simp only [writer.apply, Except.ok.injEq] at h
    subst h; exact guildAttribute_closed keepsIndex_closed x w
  | string s =>
    simp only [writer.apply, Except.ok.injEq] at h
    subst h; exact keepsIndex_closed.string w s
  | _ =>
    simp only [writer.apply, Except.ok.injEq] at h
    subst h; exact fun _ _ h => h

theorem run_keepsIndex : ∀ (ops : List Op) (w w1 : writer), w.run ops = .ok w1 →
    w.KeepsIndex w1
  | [], w, w1, h => by
    simp only [writer.run, Except.ok.injEq] at h
    subst h; exact fun _ _ h => h
  | op :: rest, w, w1, h => by
    rw [writer.run] at h
    cases h2 : w.apply op with
    | error e => rw [h2] at h; cases h
    | ok w2 =>
      rw [h2] at h
      exact fun s off hs =>
        run_keepsIndex rest w2 w1 h s off (apply_keepsIndex w w2 op h2 s off hs)

theorem groupMessage_read (x : StoredGroupMessage) (w w1 : writer) (S : List Nat)
    (h : w.writeStoredGroupMessage (some x) = .ok w1) (hv : w.Valid)
    (hr : x.inRange = true) (hc : Covers S w1) (hS : S.length < 2 ^ 64) :
    ∃ out, w1.data = w.data ++ out
      ∧ ∀ fuel rest, max (quotedDepth x.QuotedInfo) (msgsDepth x.Content) ≤ fuel →
          readStoredGroupMessage S fuel (out ++ rest) = some (some x, rest) := by
  simp only [StoredGroupMessage.inRange, Bool.and_eq_true] at hr
  obtain ⟨⟨⟨⟨⟨⟨⟨⟨r1, r2⟩, r3⟩, r4⟩, r5⟩, r6⟩, r7⟩, r8⟩, r9⟩ := hr
  simp only [writer.writeStoredGroupMessage, int32_eq, int64_eq] at h
  split at h
  · cases h
  · rename_i w5 hq
    -- the states after the fields that touch the string table
    have e78 := arrayMsg_closed extends_closed _ _ _ h
    have e57 : w5.Extends ((w5.varint x.GroupCode).string x.AnonymousID) :=
      (varint_extends _ _).trans (string_extends _ _)
    have e45 := quotedInfo_closed extends_closed _ _ _ hq
    have c7 : Covers S ((w5.varint x.GroupCode).string x.AnonymousID) := hc.of_extends e78
    have c5 : Covers S w5 := c7.of_extends e57
    have c4 := c5.of_extends e45
    have c3 := c4.of_extends (string_extends _ _)
    have c1 := c3.of_extends ((varint_extends _ _).trans (attribute_closed extends_closed _ _))
    have v1 : ((w.coder coderStruct).string x.ID).Valid := string_valid _ _ hv
    have v3 := attribute_closed valid_closed x.Attribute
      (((w.coder coderStruct).string x.ID).varint x.GlobalID) v1
    have v4 := string_valid _ x.SubType v3
    have v5 : w5.Valid := quotedInfo_closed valid_closed _ _ _ hq v4
    have v7 : ((w5.varint x.GroupCode).string x.AnonymousID).Valid := string_valid _ _ v5
    obtain ⟨o1, hd1, hread1⟩ := readString_string (w.coder coderStruct) x.ID S hv c1 hS
      ((isUint64_iff _).mp r1)
    obtain ⟨o3, hd3, hread3⟩ := attribute_read x.Attribute
      (((w.coder coderStruct).string x.ID).varint x.GlobalID) S v1 r3 c3 hS
    obtain ⟨o4, hd4, hread4⟩ := readString_string _ x.SubType S v3 c4 hS
      ((isUint64_iff _).mp r4)
    obtain ⟨o5, hd5, hread5⟩ := quotedInfo_read x.QuotedInfo _ w5 S hq v4 r5 c5 hS
    obtain ⟨o7, hd7, hread7⟩ := readString_string (w5.varint x.GroupCode) x.AnonymousID S v5 c7 hS
      ((isUint64_iff _).mp r7)
    obtain ⟨o8, hd8, hread8⟩ := arrayMsg_read x.Content _ w1 S h v7 r8 r9 hc hS
    have h6 := (isInt64_iff _).mp r6
    refine ⟨coderStruct :: (o1 ++ (varintBytes x.GlobalID ++ (o3 ++ (o4 ++ (o5 ++
      (varintBytes x.GroupCode ++ (o7 ++ o8))))))), ?_, ?_⟩
    · rw [hd8, hd7, varint_data, hd5, hd4, hd3, varint_data, hd1]; simp
    · intro fuel rest hf
      have hf1 : quotedDepth x.QuotedInfo ≤ fuel := le_trans (le_max_left _ _) hf
      have hf2 : msgsDepth x.Content ≤ fuel := le_trans (le_max_right _ _) hf
      simp [readStoredGroupMessage, coderNil, coderStruct, hread1,
        readInt32_varintBytes _ _ r2, hread3, hread4, hread5 fuel _ hf1,
        readVarint_varintBytes _ _ h6.1 h6.2, hread7, hread8 fuel rest hf2]

theorem obj_head (v : Value) (w w1 : writer) (h : w.obj v = .ok w1) :
    ∃ c payload, v.discriminant = some c ∧ w1.data = w.data ++ c :: payload := by
  cases v with
  | other => simp [writer.obj] at h
  | msg x =>
    rw [writer.obj] at h
    obtain ⟨⟨out, ho⟩, -⟩ := msgLoop_closed extends_closed x _ w1 h
    exact ⟨coderMSG, uvarintBytes x.length ++ out, rfl, by rw [ho]; simp⟩
  | arrayMsg x =>
    rw [writer.obj] at h
    obtain ⟨⟨out, ho⟩, -⟩ := arrayMsgLoop_closed extends_closed x _ w1 h
    exact ⟨coderArrayMSG, uvarintBytes x.length ++ out, rfl, by rw [ho]; simp⟩
  | string x =>
    simp only [writer.obj, Except.ok.injEq] at h
    subst h
    obtain ⟨off, hd, -⟩ := string_lookup (w.coder coderString) x
    exact ⟨coderString, uvarintBytes off, rfl, by rw [hd]; simp⟩
  | nil =>
    simp only [writer.obj, Except.ok.injEq] at h
    subst h
    exact ⟨coderNil, [], rfl, rfl⟩
  | int x =>
    simp only [writer.obj, Except.ok.injEq] at h
    subst h
    exact ⟨coderInt, varintBytes x, rfl, by simp⟩
  | int32 x =>
    simp only [writer.obj, Except.ok.injEq] at h
    subst h
    exact ⟨coderInt32, varintBytes x, rfl, by simp⟩
  | int64 x =>
    simp only [writer.obj, Except.ok.injEq] at h
    subst h
    exact ⟨coderInt64, varintBytes x, rfl, by simp⟩
  | uint x =>
    simp only [writer.obj, Except.ok.injEq] at h
    subst h
    exact ⟨coderUint, uvarintBytes x, rfl, by simp⟩
  | uint32 x =>
    simp only [writer.obj, Except.ok.injEq] at h
    subst h
    exact ⟨coderUint32, uvarintBytes x, rfl, by simp⟩
  | uint64 x =>
    simp only [writer.obj, Except.ok.injEq] at h
    subst h
    exact ⟨coderUint64, uvarintBytes x, rfl, by simp⟩

theorem Covers.self (w : writer) : Covers w.strings w := ⟨[], by simp⟩

/-! ## Shape of the bytes of a present record -/

theorem privateMessage_ok_of_supported (x : StoredPrivateMessage) (w : writer)
    (hq : quotedSupported x.QuotedInfo = true) (hc : msgsSupported x.Content = true) :
    ∃ w1, w.writeStoredPrivateMessage (some x) = .ok w1 := by
  simp only [writer.writeStoredPrivateMessage]
  obtain ⟨w5, h5⟩ := quotedInfo_ok_of_supported x.QuotedInfo
    (((((w.coder coderStruct).string x.ID).int32 x.GlobalID).writeStoredMessageAttribute
      x.Attribute).string x.SubType) hq
  rw [h5]
  exact arrayMsg_ok_of_supported _ _ hc

theorem guildChannelMessage_ok_of_supported (x : StoredGuildChannelMessage) (w : writer)
    (hq : quotedSupported x.QuotedInfo = true) (hc : msgsSupported x.Content = true) :
    ∃ w1, w.writeStoredGuildChannelMessage (some x) = .ok w1 := by
  simp only [writer.writeStoredGuildChannelMessage]
  obtain ⟨w5, h5⟩ := quotedInfo_ok_of_supported x.QuotedInfo
    (((((w.coder coderStruct).string x.ID).writeStoredGuildMessageAttribute
      x.Attribute).uint64 x.GuildID).uint64 x.ChannelID) hq
  rw [h5]
  exact arrayMsg_ok_of_supported _ _ hc

theorem varintBytes_ne_nil (x : Int) : varintBytes x ≠ [] := by
  unfold varintBytes intWriter.varint
  exact uvarintBytes_ne_nil _

theorem struct_shape (w w2 w1 : writer) (b : List Nat) (hb : b ≠ [])
    (hd : w2.data = (w.coder coderStruct).data ++ b) (he : w2.Extends w1) :
    ∃ tail, tail ≠ [] ∧ w1.data = w.data ++ 0x0A :: tail := by
  obtain ⟨⟨out, ho⟩, -⟩ := he
  refine ⟨b ++ out, by simp [hb], ?_⟩
  rw [ho, hd]
  simp [coderStruct]

theorem string_shape (w w1 : writer) (s : GoString)
    (he : ((w.coder coderStruct).string s).Extends w1) :
    ∃ tail, tail ≠ [] ∧ w1.data = w.data ++ 0x0A :: tail := by
  obtain ⟨off, hd, -⟩ := string_lookup (w.coder coderStruct) s
  exact struct_shape w _ w1 _ (uvarintBytes_ne_nil off) hd he

theorem attribute_shape (x : StoredMessageAttribute) (w : writer) :
    ∃ tail, tail ≠ [] ∧ (w.writeStoredMessageAttribute (some x)).data = w.data ++ 0x0A :: tail := by
  apply struct_shape w ((w.coder coderStruct).varint x.MessageSeq) _ _
    (varintBytes_ne_nil x.MessageSeq) (varint_data _ _)
  simp only [writer.writeStoredMessageAttribute, int32_eq, int64_eq]
  exact (((varint_extends _ _).trans (varint_extends _ _)).trans (string_extends _ _)).trans
    (varint_extends _ _)

theorem guildAttribute_shape (x : StoredGuildMessageAttribute) (w : writer) :
    ∃ tail, tail ≠ [] ∧
      (w.writeStoredGuildMessageAttribute (some x)).data = w.data ++ 0x0A :: tail := by
  apply struct_shape w ((w.coder coderStruct).uvarint x.MessageSeq) _ _
    (uvarintBytes_ne_nil x.MessageSeq) (uvarint_data _ _)
  simp only [writer.writeStoredGuildMessageAttribute, uint64_eq, int64_eq]
  exact (((uvarint_extends _ _).trans (uvarint_extends _ _)).trans (string_extends _ _)).trans
    (varint_extends _ _)

theorem quotedInfo_shape (x : QuotedInfo) (w w1 : writer)
    (h : w.writeQuotedInfo (some x) = .ok w1) :
    ∃ tail, tail ≠ [] ∧ w1.data = w.data ++ 0x0A :: tail := by
  simp only [writer.writeQuotedInfo, int32_eq] at h
  exact string_shape w w1 x.PrevID
    ((varint_extends _ _).trans (arrayMsg_closed extends_closed _ _ _ h))

theorem groupMessage_shape (x : StoredGroupMessage) (w w1 : writer)
    (h : w.writeStoredGroupMessage (some x) = .ok w1) :
    ∃ tail, tail ≠ [] ∧ w1.data = w.data ++ 0x0A :: tail := by
  simp only [writer.writeStoredGroupMessage, int32_eq, int64_eq] at h
  split at h
  · cases h
  · rename_i w5 hq
    exact string_shape w w1 x.ID
      (((((((varint_extends _ _).trans (attribute_closed extends_closed _ _)).trans
        (string_extends _ _)).trans (quotedInfo_closed extends_closed _ _ _ hq)).trans
        (varint_extends _ _)).trans (string_extends _ _)).trans
        (arrayMsg_closed extends_closed _ _ _ h))

theorem privateMessage_shape (x : StoredPrivateMessage) (w w1 : writer)
    (h : w.writeStoredPrivateMessage (some x) = .ok w1) :
    ∃ tail, tail ≠ [] ∧ w1.data = w.data ++ 0x0A :: tail := by
  simp only [writer.writeStoredPrivateMessage, int32_eq, int64_eq] at h
  split at h
  · cases h
  · rename_i w5 hq
    exact string_shape w w1 x.ID
      (((((((varint_extends _ _).trans (attribute_closed extends_closed _ _)).trans
        (string_extends _ _)).trans (quotedInfo_closed extends_closed _ _ _ hq)).trans
        (varint_extends _ _)).trans (varint_extends _ _)).trans
        (arrayMsg_closed extends_closed _ _ _ h))

theorem guildChannelMessage_shape (x : StoredGuildChannelMessage) (w w1 : writer)
    (h : w.writeStoredGuildChannelMessage (some x) = .ok w1) :
    ∃ tail, tail ≠ [] ∧ w1.data = w.data ++ 0x0A :: tail := by
  simp only [writer.writeStoredGuildChannelMessage, uint64_eq] at h
  split at h
  · cases h
  · rename_i w5 hq
    exact string_shape w w1 x.ID
      (((((guildAttribute_closed extends_closed _ _).trans (uvarint_extends _ _)).trans
        (uvarint_extends _ _)).trans (quotedInfo_closed extends_closed _ _ _ hq)).trans
        (arrayMsg_closed extends_closed _ _ _ h))

/-! ## The loops as folds -/

theorem msgLoop_eq_foldlM : ∀ (m : MSG) (w : writer),
    writer.msgLoop w m = m.foldlM (fun w e => (w.string e.1).obj e.2) w
  | [], w => by rw [writer.msgLoop]; rfl
  | (s, o) :: rest, w => by
    rw [writer.msgLoop, List.foldlM_cons]
    cases h : (w.string s).obj o with
    | error e => rfl
    | ok w1 =>
      show writer.msgLoop w1 rest = _
      rw [msgLoop_eq_foldlM rest w1]
      rfl

theorem arrayMsgLoop_eq_foldlM : ∀ (a : List MSG) (w : writer),
    writer.arrayMsgLoop w a = a.foldlM (fun w m => w.msg m) w
  | [], w => by rw [writer.arrayMsgLoop]; rfl
  | v :: rest, w => by
    rw [writer.arrayMsgLoop, List.foldlM_cons]
    show (match w.msg v with
      | .ok w1 => writer.arrayMsgLoop w1 rest
      | .error e => .error e) = _
    cases h : w.msg v with
    | error e => rfl
    | ok w1 =>
      show writer.arrayMsgLoop w1 rest = _
      rw [arrayMsgLoop_eq_foldlM rest w1]
      rfl

theorem msg_head (m : MSG) (u u1 : writer) (h : u.msg m = .ok u1) :
    ∃ tail, u1.data = u.data ++ uvarintBytes m.length ++ tail := by
  obtain ⟨⟨out, ho⟩, -⟩ := msgLoop_closed extends_closed m _ u1 h
  exact ⟨out, by rw [ho, uvarint_data]⟩

theorem arrayMsg_head (a : List MSG) (u u1 : writer) (h : u.arrayMsg a = .ok u1) :
    ∃ tail, u1.data = u.data ++ uvarintBytes a.length ++ tail := by
  obtain ⟨⟨out, ho⟩, -⟩ := arrayMsgLoop_closed extends_closed a _ u1 h
  exact ⟨out, by rw [ho, uvarint_data]⟩

/-! ## Bytes in front of the index data do not change what is written -/

theorem prepend_coder (p : List Nat) (w : writer) (o : coder) :
    (writer.prepend p w).coder o = writer.prepend p (w.coder o) := by
  simp [writer.prepend, writer.coder, intWriter.WriteByte]

theorem prepend_uvarint (p : List Nat) (w : writer) (x : Nat) :
    (writer.prepend p w).uvarint x = writer.prepend p (w.uvarint x) := by
  simp [writer.prepend, writer.uvarint, uvarint_append]

theorem prepend_varint (p : List Nat) (w : writer) (x : Int) :
    (writer.prepend p w).varint x = writer.prepend p (w.varint x) := by
  simp [writer.prepend, writer.varint, varint_append]

theorem prepend_string (p : List Nat) (w : writer) (s : GoString) :
    (writer.prepend p w).string s = writer.prepend p (w.string s) := by
  unfold writer.string
  cases h : w.stringIndex.lookup s with
  | some off =>
    have h2 : (writer.prepend p w).stringIndex.lookup s = some off := h
    rw [h2]
    exact prepend_uvarint p w off
  | none =>
    have h2 : (writer.prepend p w).stringIndex.lookup s = none := h
    rw [h2]
    simp [writer.prepend, writer.uvarint, uvarint_append]

mutual

theorem prepend_obj (p : List Nat) : ∀ (v : Value) (w : writer),
    (writer.prepend p w).obj v = Except.map (writer.prepend p) (w.obj v)
  | .nil, w => by simp only [writer.obj, nil_eq, prepend_coder]; rfl
  | .int x, w => by simp only [writer.obj, int_eq, prepend_coder, prepend_varint]; rfl
  | .int32 x, w => by simp only [writer.obj, int32_eq, prepend_coder, prepend_varint]; rfl
  | .int64 x, w => by simp only [writer.obj, int64_eq, prepend_coder, prepend_varint]; rfl
  | .uint x, w => by simp only [writer.obj, uint_eq, prepend_coder, prepend_uvarint]; rfl
  | .uint32 x, w => by simp only [writer.obj, uint32_eq, prepend_coder, prepend_uvarint]; rfl
  | .uint64 x, w => by simp only [writer.obj, uint64_eq, prepend_coder, prepend_uvarint]; rfl
  | .string x, w => by simp only [writer.obj, prepend_coder, prepend_string]; rfl
  | .msg x, w => by
    rw [writer.obj, writer.obj, prepend_coder, prepend_uvarint]
    exact prepend_msgLoop p x _
  | .arrayMsg x, w => by
    rw [writer.obj, writer.obj, prepend_coder, prepend_uvarint]
    exact prepend_arrayMsgLoop p x _
  | .other, w => by simp only [writer.obj]; rfl

theorem prepend_msgLoop (p : List Nat) : ∀ (m : List (GoString × Value)) (w : writer),
    writer.msgLoop (writer.prepend p w) m = Except.map (writer.prepend p) (writer.msgLoop w m)
  | [], w => by simp only [writer.msgLoop]; rfl
  | (s, o) :: rest, w => by
    rw [writer.msgLoop, writer.msgLoop, prepend_string, prepend_obj p o]
    cases h : (w.string s).obj o with
    | error e => rfl
    | ok w1 => exact prepend_msgLoop p rest w1

theorem prepend_arrayMsgLoop (p : List Nat) : ∀ (a : List (List (GoString × Value)))
    (w : writer),
    writer.arrayMsgLoop (writer.prepend p w) a
      = Except.map (writer.prepend p) (writer.arrayMsgLoop w a)
  | [], w => by simp only [writer.arrayMsgLoop]; rfl
  | v :: rest, w => by
    rw [writer.arrayMsgLoop, writer.arrayMsgLoop, prepend_uvarint, prepend_msgLoop p v]
    cases h : writer.msgLoop (w.uvarint v.length) v with
    | error e => rfl
    | ok w1 => exact prepend_arrayMsgLoop p rest w1
end

theorem prepend_arrayMsg (p : List Nat) (a : List MSG) (w : writer) :
    (writer.prepend p w).arrayMsg a = Except.map (writer.prepend p) (w.arrayMsg a) := by
  unfold writer.arrayMsg
  rw [prepend_uvarint]
  exact prepend_arrayMsgLoop p a _

theorem prepend_attribute (p : List Nat) (x : Option StoredMessageAttribute) (w : writer) :
    (writer.prepend p w).writeStoredMessageAttribute x
      = writer.prepend p (w.writeStoredMessageAttribute x) := by
  cases x with
  | none => exact prepend_coder p w _
  | some x =>
    simp only [writer.writeStoredMessageAttribute, int32_eq, int64_eq, prepend_coder,
      prepend_varint, prepend_string]

theorem prepend_guildAttribute (p : List Nat) (x : Option StoredGuildMessageAttribute)
    (w : writer) :
    (writer.prepend p w).writeStoredGuildMessageAttribute x
      = writer.prepend p (w.writeStoredGuildMessageAttribute x) := by
  cases x with
  | none => exact prepend_coder p w _
  | some x =>
    simp only [writer.writeStoredGuildMessageAttribute, uint64_eq, int64_eq, prepend_coder,
      prepend_uvarint, prepend_varint, prepend_string]

theorem prepend_quotedInfo (p : List Nat) (x : Option QuotedInfo) (w : writer) :
    (writer.prepend p w).writeQuotedInfo x
      = Except.map (writer.prepend p) (w.writeQuotedInfo x) := by
  cases x with
  | none =>
    simp only [writer.writeQuotedInfo, nil_eq, prepend_coder]
    rfl
  | some x =>
    simp only [writer.writeQuotedInfo, int32_eq, prepend_coder, prepend_varint, prepend_string,
      prepend_arrayMsg]

theorem prepend_groupMessage (p : List Nat) (x : Option StoredGroupMessage) (w : writer) :
    (writer.prepend p w).writeStoredGroupMessage x
      = Except.map (writer.prepend p) (w.writeStoredGroupMessage x) := by
  cases x with
  | none =>
    simp only [writer.writeStoredGroupMessage, nil_eq, prepend_coder]
    rfl
  | some x =>
    simp only [writer.writeStoredGroupMessage, int32_eq, int64_eq, prepend_coder,
      prepend_varint, prepend_string, prepend_attribute, prepend_quotedInfo]
    cases h : (((((w.coder coderStruct).string x.ID).varint x.GlobalID).writeStoredMessageAttribute
        x.Attribute).string x.SubType).writeQuotedInfo x.QuotedInfo with
    | error e => rfl
    | ok w5 =>
      simp only [Except.map, prepend_varint, prepend_string, prepend_arrayMsg]

theorem prepend_privateMessage (p : List Nat) (x : Option StoredPrivateMessage) (w : writer) :
    (writer.prepend p w).writeStoredPrivateMessage x
      = Except.map (writer.prepend p) (w.writeStoredPrivateMessage x) := by
  cases x with
  | none =>
    simp only [writer.writeStoredPrivateMessage, nil_eq, prepend_coder]
    rfl
  | some x =>
    simp only [writer.writeStoredPrivateMessage, int32_eq, int64_eq, prepend_coder,
      prepend_varint, prepend_string, prepend_attribute, prepend_quotedInfo]
    cases h : (((((w.coder coderStruct).string x.ID).varint x.GlobalID).writeStoredMessageAttribute
        x.Attribute).string x.SubType).writeQuotedInfo x.QuotedInfo with
    | error e => rfl
    | ok w5 =>
      simp only [Except.map, prepend_varint, prepend_arrayMsg]

theorem prepend_guildChannelMessage (p : List Nat) (x : Option StoredGuildChannelMessage)
    (w : writer) :
    (writer.prepend p w).writeStoredGuildChannelMessage x
      = Except.map (writer.prepend p) (w.writeStoredGuildChannelMessage x) := by
  cases x with
  | none =>
    simp only [writer.writeStoredGuildChannelMessage, nil_eq, prepend_coder]
    rfl
  | some x =>
    simp only [writer.writeStoredGuildChannelMessage, uint64_eq, prepend_coder,
      prepend_uvarint, prepend_string, prepend_guildAttribute, prepend_quotedInfo]
    cases h : (((((w.coder coderStruct).string x.ID).writeStoredGuildMessageAttribute
        x.Attribute).uvarint x.GuildID).uvarint x.ChannelID).writeQuotedInfo x.QuotedInfo with
    | error e => rfl
    | ok w5 =>
      simp only [Except.map, prepend_arrayMsg]

theorem newWriter_uvarint (k : Nat) :
    newWriter.uvarint k = writer.prepend (uvarintBytes k) newWriter := by
  simp [writer.prepend, writer.uvarint, newWriter, uvarint_append]

theorem prepend_bytes (k : Nat) (w0 : writer) :
    (writer.prepend (uvarintBytes k) w0).bytes.1 = markedBuffer k w0 := by
  unfold writer.bytes markedBuffer
  simp only [uvarint_append, dataVersion, intWriter.Len, writer.prepend, List.nil_append,
    List.append_assoc, List.length_append]

theorem prepend_self (w : writer) : writer.prepend w.data { w with data := [] } = w := by
  simp [writer.prepend]

theorem arrayMsg_tagged (w w1 : writer) (a : List MSG) (h : w.arrayMsg a = .ok w1) :
    ∃ w2 out, w.obj (Value.arrayMsg a) = .ok w2 ∧ w1.data = w.data ++ out
      ∧ w2.data = w.data ++ coderArrayMSG :: out
      ∧ w2.strings = w1.strings ∧ w2.stringIndex = w1.stringIndex := by
  have e1 : w.arrayMsg a
      = Except.map (writer.prepend w.data) (writer.arrayMsg { w with data := [] } a) := by
    rw [← prepend_arrayMsg, prepend_self]
  have e2 : (w.coder coderArrayMSG).arrayMsg a
      = Except.map (writer.prepend (w.data ++ [coderArrayMSG]))
          (writer.arrayMsg { w with data := [] } a) := by
    rw [← prepend_arrayMsg]
    congr 1
    simp [writer.prepend, writer.coder, intWriter.WriteByte]
  rw [obj_arrayMsg, e2]
  rw [e1] at h
  cases hu : writer.arrayMsg { w with data := [] } a with
  | error e => rw [hu] at h; cases h
  | ok u =>
    rw [hu] at h
    simp only [Except.map, Except.ok.injEq] at h
    subst h
    exact ⟨_, u.data, rfl, rfl, by simp [writer.prepend], rfl, rfl⟩

/-! ## When `obj` panics -/

mutual

theorem obj_error_of_unsupported : ∀ (v : Value) (w : writer), v.supported = false →
    w.obj v = .error "unsupported type"
  | .nil, _, h => by simp [Value.supported] at h
  | .int _, _, h => by simp [Value.supported] at h
  | .int32 _, _, h => by simp [Value.supported] at h
  | .int64 _, _, h => by simp [Value.supported] at h
  | .uint _, _, h => by simp [Value.supported] at h
  | .uint32 _, _, h => by simp [Value.supported] at h
  | .uint64 _, _, h => by simp [Value.supported] at h
  | .string _, _, h => by simp [Value.supported] at h
  | .msg x, w, h => by
    rw [writer.obj]
    simp only [Value.supported] at h
    exact msgLoop_error_of_unsupported x _ h
  | .arrayMsg x, w, h => by
    rw [writer.obj]
    simp only [Value.supported] at h
    exact arrayMsgLoop_error_of_unsupported x _ h
  | .other, w, _ => by rw [writer.obj]

theorem msgLoop_error_of_unsupported : ∀ (m : List (GoString × Value)) (w : writer),
    entriesSupported m = false → writer.msgLoop w m = .error "unsupported type"
  | [], _, h => by simp [entriesSupported] at h
  | (s, o) :: tl, w, h => by
    rw [writer.msgLoop]
    cases ho : o.supported with
    | false => rw [obj_error_of_unsupported o _ ho]
    | true =>
      obtain ⟨w2, h2⟩ := obj_ok_of_supported o (w.string s) ho
      rw [h2]
      simp only [entriesSupported, ho, Bool.true_and] at h
      exact msgLoop_error_of_unsupported tl w2 h

theorem arrayMsgLoop_error_of_unsupported : ∀ (a : List (List (GoString × Value)))
    (w : writer), msgsSupported a = false → writer.arrayMsgLoop w a = .error "unsupported type"
  | [], _, h => by simp [msgsSupported] at h
  | v :: tl, w, h => by
    rw [writer.arrayMsgLoop]
    cases hv : entriesSupported v with
    | false => rw [msgLoop_error_of_unsupported v _ hv]
    | true =>
      obtain ⟨w2, h2⟩ := msgLoop_ok_of_supported v (w.uvarint v.length) hv
      rw [h2]
      simp only [msgsSupported, hv, Bool.true_and] at h
      exact arrayMsgLoop_error_of_unsupported tl w2 h
end

mutual

theorem nested_other_of_unsupported : ∀ (v : Value), v.supported = false →
    Nested Value.other v
  | .nil, h => by simp [Value.supported] at h
  | .int _, h => by simp [Value.supported] at h
  | .int32 _, h => by simp [Value.supported] at h
  | .int64 _, h => by simp [Value.supported] at h
  | .uint _, h => by simp [Value.supported] at h
  | .uint32 _, h => by simp [Value.supported] at h
  | .uint64 _, h => by simp [Value.supported] at h
  | .string _, h => by simp [Value.supported] at h
  | .msg x, h => by
    simp only [Value.supported] at h
    obtain ⟨s, o, hm, hn⟩ := entries_other_of_unsupported x h
    exact Nested.inMsg s o x hm hn
  | .arrayMsg x, h => by
    simp only [Value.supported] at h
    obtain ⟨m, s, o, ha, hm, hn⟩ := msgs_other_of_unsupported x h
    exact Nested.inArrayMsg s o m x ha hm hn
  | .other, _ => Nested.self

theorem entries_other_of_unsupported : ∀ (m : List (GoString × Value)),
    entriesSupported m = false → ∃ s o, (s, o) ∈ m ∧ Nested Value.other o
  | [], h => by simp [entriesSupported] at h
  | (s, o) :: tl, h => by
    cases ho : o.supported with
    | false => exact ⟨s, o, List.mem_cons_self _ _, nested_other_of_unsupported o ho⟩
    | true =>
      simp only [entriesSupported, ho, Bool.true_and] at h
      obtain ⟨s2, o2, hm, hn⟩ := entries_other_of_unsupported tl h
      exact ⟨s2, o2, List.mem_cons_of_mem _ hm, hn⟩

theorem msgs_other_of_unsupported : ∀ (a : List (List (GoString × Value))),
    msgsSupported a = false → ∃ m s o, m ∈ a ∧ (s, o) ∈ m ∧ Nested Value.other o
  | [], h => by simp [msgsSupported] at h
  | v :: tl, h => by
    cases hv : entriesSupported v with
    | false =>
      obtain ⟨s, o, hm, hn⟩ := entries_other_of_unsupported v hv
      exact ⟨v, s, o, List.mem_cons_self _ _, hm, hn⟩
    | true =>
      simp only [msgsSupported, hv, Bool.true_and] at h
      obtain ⟨m, s, o, ha, hm, hn⟩ := msgs_other_of_unsupported tl h
      exact ⟨m, s, o, List.mem_cons_of_mem _ ha, hm, hn⟩
end

theorem entriesSupported_mem : ∀ (m : List (GoString × Value)) (s : GoString) (o : Value),
    entriesSupported m = true → (s, o) ∈ m → o.supported = true
  | [], _, _, _, hm => by simp at hm
  | (s1, o1) :: tl, s, o, h, hm => by
    simp only [entriesSupported, Bool.and_eq_true] at h
    rcases List.mem_cons.mp hm with e | hin
    · cases e; exact h.1
    · exact entriesSupported_mem tl s o h.2 hin

theorem msgsSupported_mem : ∀ (a : List (List (GoString × Value)))
    (m : List (GoString × Value)), msgsSupported a = true → m ∈ a → entriesSupported m = true
  | [], _, _, hm => by simp at hm
  | v :: tl, m, h, hm => by
    simp only [msgsSupported, Bool.and_eq_true] at h
    rcases List.mem_cons.mp hm with e | hin
    · cases e; exact h.1
    · exact msgsSupported_mem tl m h.2 hin

theorem unsupported_of_nested_other (v : Value) (h : Nested Value.other v) :
    v.supported = false := by
  induction h with
  | self => rfl
  | inMsg s o m hm _ ih =>
    cases hs : (Value.msg m).supported with
    | false => rfl
    | true =>
      simp only [Value.supported] at hs
      rw [entriesSupported_mem m s o hs hm] at ih
      cases ih
  | inArrayMsg s o m a ha hm _ ih =>
    cases hs : (Value.arrayMsg a).supported with
    | false => rfl
    | true =>
      simp only [Value.supported] at hs
      rw [entriesSupported_mem m s o (msgsSupported_mem a m hs ha) hm] at ih
      cases ih

/-! ## Length and bytes of an unsigned varint -/

theorem uvarintBytes_small (x : Nat) (h : x < 0x80) : uvarintBytes x = [x] := by
  rw [uvarintBytes_unfold, if_neg (by omega), Nat.mod_eq_of_lt (by omega)]

theorem uvarintBytes_large (x : Nat) (h : 0x80 ≤ x) :
    uvarintBytes x = ((x % 256) ||| 0x80) :: uvarintBytes (x >>> 7) := by
  rw [uvarintBytes_unfold, if_pos h]

theorem shiftRight_seven_lt (x : Nat) (h : 0x80 ≤ x) : x >>> 7 < x := by
  rw [Nat.shiftRight_eq_div_pow]
  exact Nat.div_lt_self (by omega) (by decide)

theorem shiftRight_seven_pos (x : Nat) (h : 0x80 ≤ x) : 1 ≤ x >>> 7 := by
  rw [Nat.shiftRight_eq_div_pow]
  have : 2 ^ 7 = 128 := by decide
  rw [this]
  omega

theorem size_shiftRight_seven (x : Nat) (h : 0x80 ≤ x) :
    Nat.size x = Nat.size (x >>> 7) + 7 := by
  have hpos := shiftRight_seven_pos x h
  rw [Nat.shiftRight_eq_div_pow] at hpos ⊢
  have h128 : (2 : Nat) ^ 7 = 128 := by decide
  rw [h128] at hpos ⊢
  apply Nat.le_antisymm
  · rw [Nat.size_le, Nat.pow_add, h128]
    have := Nat.lt_size_self (x / 128)
    omega
  · have hs : 0 < Nat.size (x / 128) := Nat.size_pos.mpr (by omega)
    have h1 : Nat.size (x / 128) - 1 < Nat.size (x / 128) := by omega
    have h2 := Nat.lt_size.mp h1
    have h3 : Nat.size (x / 128) + 6 < Nat.size x := by
      rw [Nat.lt_size]
      have e : Nat.size (x / 128) + 6 = (Nat.size (x / 128) - 1) + 7 := by omega
      rw [e, Nat.pow_add, h128]
      omega
    omega

theorem uvarintBytes_length_size : ∀ (x : Nat), 1 ≤ x →
    (uvarintBytes x).length = (Nat.size x + 6) / 7 := by
  intro x
  induction x using Nat.strong_induction_on with
  | _ x ih =>
    intro hx
    by_cases h : 0x80 ≤ x
    · rw [uvarintBytes_large x h, List.length_cons,
        ih _ (shiftRight_seven_lt x h) (shiftRight_seven_pos x h), size_shiftRight_seven x h]
      omega
    · rw [uvarintBytes_small x (by omega), List.length_singleton]
      have h1 : 0 < Nat.size x := Nat.size_pos.mpr (by omega)
      have h2 : Nat.size x ≤ 7 := Nat.size_le.mpr (by omega)
      omega

theorem uvarintBytes_length_le (n x : Nat) (hx : x < 2 ^ (7 * (n + 1))) :
    (uvarintBytes x).length ≤ n + 1 := by
  by_cases h0 : x = 0
  · subst h0
    rw [uvarintBytes_small 0 (by decide)]
    simp
  · rw [uvarintBytes_length_size x (by omega)]
    have := Nat.size_le.mpr hx
    omega

theorem uvarintBytes_length_eq_one (x : Nat) : (uvarintBytes x).length = 1 ↔ x < 0x80 := by
  constructor
  · intro h
    by_contra hx
    rw [uvarintBytes_large x (by omega), List.length_cons] at h
    have := uvarintBytes_length_pos (x >>> 7)
    omega
  · intro h
    rw [uvarintBytes_small x h, List.length_singleton]

set_option maxRecDepth 100000 in
theorem byte_or_facts : ∀ y, y < 256 → (y ||| 0x80) = ((y &&& 0x7f) ||| 0x80) := by
  decide

theorem first_byte (x : Nat) : ((x % 256) ||| 0x80) = ((x &&& 0x7f) ||| 0x80) := by
  rw [byte_or_facts (x % 256) (Nat.mod_lt _ (by decide))]
  have e : (0x7f : Nat) = 2 ^ 7 - 1 := by decide
  rw [e, Nat.and_pow_two_sub_one_eq_mod, Nat.and_pow_two_sub_one_eq_mod]
  have : x % 256 % 2 ^ 7 = x % 2 ^ 7 := by
    have h128 : (2 : Nat) ^ 7 = 128 := by decide
    rw [h128]
    omega
  rw [this]

theorem uvarintBytes_getElem? : ∀ (x i : Nat),
    (uvarintBytes x)[i]? =
      if i + 1 < (uvarintBytes x).length then some (((x >>> (7 * i)) &&& 0x7f) ||| 0x80)
      else if i + 1 = (uvarintBytes x).length then some (x >>> (7 * i))
      else none := by
  intro x
  induction x using Nat.strong_induction_on with
  | _ x ih =>
    intro i
    by_cases h : 0x80 ≤ x
    · rw [uvarintBytes_large x h]
      have hpos := uvarintBytes_length_pos (x >>> 7)
      cases i with
      | zero =>
        simp only [List.getElem?_cons_zero, List.length_cons, Nat.mul_zero, Nat.shiftRight_zero]
        rw [if_pos (by omega), first_byte]
      | succ j =>
        simp only [List.getElem?_cons_succ, List.length_cons]
        rw [ih _ (shiftRight_seven_lt x h) j]
        have e : x >>> 7 >>> (7 * j) = x >>> (7 * (j + 1)) := by
          rw [← Nat.shiftRight_add]
          congr 1
          omega
        rw [e]
        simp only [Nat.add_lt_add_iff_right, Nat.add_right_cancel_iff]
    · rw [uvarintBytes_small x (by omega)]
      cases i with
      | zero => simp
      | succ j => simp

theorem uvarintBytes_last : ∀ (x : Nat),
    x >>> (7 * ((uvarintBytes x).length - 1)) < 0x80
      ∧ (x ≠ 0 → x >>> (7 * ((uvarintBytes x).length - 1)) ≠ 0) := by
  intro x
  induction x using Nat.strong_induction_on with
  | _ x ih =>
    by_cases h : 0x80 ≤ x
    · have hpos := uvarintBytes_length_pos (x >>> 7)
      have hp := shiftRight_seven_pos x h
      obtain ⟨i1, i2⟩ := ih _ (shiftRight_seven_lt x h)
      have e : x >>> (7 * ((uvarintBytes x).length - 1))
          = x >>> 7 >>> (7 * ((uvarintBytes (x >>> 7)).length - 1)) := by
        rw [uvarintBytes_large x h, List.length_cons, ← Nat.shiftRight_add]
        congr 1
        omega
      rw [e]
      exact ⟨i1, fun _ => i2 (by omega)⟩
    · rw [uvarintBytes_small x (by omega)]
      simp only [List.length_singleton, Nat.sub_self, Nat.mul_zero, Nat.shiftRight_zero]
      exact ⟨by omega, fun h0 => h0⟩

/-! ## The destination store -/

theorem lookup_filter_append (key value : List Nat) :
    ∀ db : List (List Nat × List Nat),
      List.lookup key (db.filter (fun e => e.1 ≠ key) ++ [(key, value)]) = some value
  | [] => by simp [List.lookup]
  | (k, v) :: tl => by
    by_cases h : k = key
    · subst h
      simp only [List.filter_cons, ne_eq, not_true_eq_false, decide_False]
      exact lookup_filter_append k value tl
    · have hb : (key == k) = false := by
        simp only [beq_eq_false_iff_ne, ne_eq]
        exact fun e => h e.symm
      simp only [List.filter_cons, ne_eq, h, not_false_eq_true, decide_True, if_true,
        List.cons_append, List.lookup_cons, hb]
      exact lookup_filter_append key value tl

theorem storePut_lookup (db : List (List Nat × List Nat)) (key value : List Nat) :
    List.lookup key (storePut db key value) = some value :=
  lookup_filter_append key value db

theorem storePut_lookup_ne (key value key2 : List Nat) (h : key2 ≠ key) :
    ∀ db : List (List Nat × List Nat),
      List.lookup key2 (storePut db key value) = List.lookup key2 db
  | [] => by
    have hb : (key2 == key) = false := by simpa using h
    simp [storePut, List.lookup, hb]
  | (k, v) :: tl => by
    have ih := storePut_lookup_ne key value key2 h tl
    unfold storePut at ih ⊢
    by_cases hk : k = key
    · subst hk
      have hb : (key2 == k) = false := by simpa using h
      simp only [List.filter_cons, ne_eq, not_true_eq_false, decide_False, List.lookup_cons, hb]
      exact ih
    · simp only [List.filter_cons, ne_eq, hk, not_false_eq_true, decide_True, if_true,
        List.cons_append, List.lookup_cons]
      cases (key2 == k) with
      | true => rfl
      | false => exact ih

/-! ## The bytes of a guild-channel message -/

theorem guildAttribute_bytes (y : StoredGuildMessageAttribute) (u : writer) :
    ∃ off, (((((u.coder coderStruct).uint64 y.MessageSeq).uint64 y.InternalID).uint64
        y.SenderTinyID).string y.SenderName).data
          = ((((u.coder coderStruct).uint64 y.MessageSeq).uint64 y.InternalID).uint64
              y.SenderTinyID).data ++ uvarintBytes off
      ∧ (u.writeStoredGuildMessageAttribute (some y)).data
          = u.data ++ 0x0A :: (uvarintBytes y.MessageSeq ++ uvarintBytes y.InternalID
              ++ uvarintBytes y.SenderTinyID ++ uvarintBytes off
              ++ uvarintBytes (zigzag y.Timestamp)) := by
  obtain ⟨off, hd, -⟩ := string_lookup
    ((((u.coder coderStruct).uint64 y.MessageSeq).uint64 y.InternalID).uint64 y.SenderTinyID)
    y.SenderName
  refine ⟨off, hd, ?_⟩
  simp only [writer.writeStoredGuildMessageAttribute, int64_eq, varint_data, hd]
  simp [coderStruct, varintBytes, intWriter.varint, uvarint_append]

/-! ## The string table along the writer calls -/

theorem layout_append (a b : List GoString) : layout (a ++ b) = layout a ++ layout b := by
  induction a with
  | nil => rfl
  | cons s tl ih => simp [layout, ih]

theorem stringEntry_ne_nil (s : GoString) : stringEntry s ≠ [] := by
  unfold stringEntry
  intro h
  simp only [List.append_eq_nil] at h
  exact uvarintBytes_ne_nil _ h.1

theorem offsetOf_none (s : GoString) : ∀ seen : List GoString,
    offsetOf s seen = none ↔ s ∉ seen
  | [] => by simp [offsetOf]
  | t :: tl => by
    have ih := offsetOf_none s tl
    by_cases h : s = t
    · simp [offsetOf, h]
    · rw [offsetOf, if_neg h]
      cases ho : offsetOf s tl with
      | none =>
        rw [ho] at ih
        simp only [List.mem_cons, not_or, true_iff]
        exact ⟨h, ih.mp rfl⟩
      | some off =>
        rw [ho] at ih
        simp only [List.mem_cons, not_or, false_iff, not_and, reduceCtorEq]
        intro _ hn
        have := ih.mpr hn
        cases this

theorem offsetOf_append_self (s : GoString) : ∀ seen : List GoString, s ∉ seen →
    offsetOf s (seen ++ [s]) = some (layout seen).length
  | [], _ => by simp [offsetOf, layout]
  | t :: tl, h => by
    simp only [List.mem_cons, not_or] at h
    rw [List.cons_append, offsetOf, if_neg h.1, offsetOf_append_self s tl h.2]
    simp [layout]

theorem offsetOf_append_ne (s s2 : GoString) (hne : s2 ≠ s) : ∀ seen : List GoString,
    offsetOf s2 (seen ++ [s]) = offsetOf s2 seen
  | [] => by simp [offsetOf, hne]
  | t :: tl => by
    rw [List.cons_append, offsetOf, offsetOf, offsetOf_append_ne s s2 hne tl]

theorem offsetOf_split (s : GoString) : ∀ (seen : List GoString) (off : Nat),
    offsetOf s seen = some off →
    ∃ before after, seen = before ++ s :: after ∧ s ∉ before ∧ off = (layout before).length
  | [], _, h => by simp [offsetOf] at h
  | t :: tl, off, h => by
    by_cases hst : s = t
    · subst hst
      simp only [offsetOf, if_true, Option.some.injEq] at h
      exact ⟨[], tl, rfl, by simp, by simp [layout, h.symm]⟩
    · rw [offsetOf, if_neg hst] at h
      cases ho : offsetOf s tl with
      | none => rw [ho] at h; cases h
      | some o2 =>
        rw [ho] at h
        simp only [Option.some.injEq] at h
        obtain ⟨before, after, e, hb, hl⟩ := offsetOf_split s tl o2 ho
        refine ⟨t :: before, after, by rw [e]; rfl, ?_, ?_⟩
        · simp only [List.mem_cons, not_or]
          exact ⟨hst, hb⟩
        · simp [layout, ← h, hl]

theorem offsetOf_entry (s : GoString) (seen : List GoString) (off : Nat)
    (h : offsetOf s seen = some off) :
    off < (layout seen).length ∧ EntryAt (layout seen) off s := by
  obtain ⟨before, after, e, -, hl⟩ := offsetOf_split s seen off h
  have hpos : 0 < (stringEntry s).length := List.length_pos.mpr (stringEntry_ne_nil s)
  subst e
  subst hl
  constructor
  · simp only [layout_append, layout, List.length_append]
    omega
  · refine ⟨layout after, ?_⟩
    rw [layout_append, List.drop_left]
    simp [layout, stringEntry]

theorem table_newWriter : newWriter.Table [] :=
  ⟨rfl, fun _ => rfl⟩

theorem table_string (w : writer) (s : GoString) (seen : List GoString) (h : w.Table seen) :
    (w.string s).Table (seeString seen s) := by
  obtain ⟨h1, h2⟩ := h
  unfold seeString
  by_cases hs : s ∈ seen
  · rw [if_pos hs]
    cases ho : offsetOf s seen with
    | none => exact absurd hs ((offsetOf_none s seen).mp ho)
    | some off =>
      rw [string_hit w s off ((h2 s).trans ho)]
      exact ⟨h1, h2⟩
  · rw [if_neg hs]
    have hl : w.stringIndex.lookup s = none := (h2 s).trans ((offsetOf_none s seen).mpr hs)
    obtain ⟨-, hstr, hidx⟩ := string_miss w s hl
    constructor
    · rw [hstr, h1, layout_append]
      simp [layout, stringEntry]
    · intro s2
      rw [hidx, List.lookup_cons]
      by_cases e : s2 = s
      · subst e
        simp only [beq_self_eq_true]
        rw [offsetOf_append_self s2 seen hs, h1]
      · have hb : (s2 == s) = false := by simpa using e
        rw [hb, offsetOf_append_ne s s2 e seen]
        exact h2 s2

theorem Traces.nil_of_eq {w w1 : writer} (hs : w1.strings = w.strings)
    (hi : w1.stringIndex = w.stringIndex) : Traces [] w w1 := by
  intro seen h
  exact ⟨hs.trans h.1, fun s => by rw [hi]; exact h.2 s⟩

theorem Traces.stay (w : writer) : Traces [] w w := Traces.nil_of_eq rfl rfl

theorem Traces.coder (w : writer) (o : coder) : Traces [] w (w.coder o) :=
  Traces.nil_of_eq rfl rfl

theorem Traces.uvarint (w : writer) (x : Nat) : Traces [] w (w.uvarint x) :=
  Traces.nil_of_eq rfl rfl

theorem Traces.varint (w : writer) (x : Int) : Traces [] w (w.varint x) :=
  Traces.nil_of_eq rfl rfl

theorem Traces.string (w : writer) (s : GoString) : Traces [s] w (w.string s) :=
  fun seen h => table_string w s seen h

theorem Traces.andThen {l1 l2 : List GoString} {a b c : writer} (h1 : Traces l1 a b)
    (h2 : Traces l2 b c) : Traces (l1 ++ l2) a c := by
  intro seen h
  rw [List.foldl_append]
  exact h2 _ (h1 seen h)

theorem Traces.cast {l1 l2 : List GoString} {a b : writer} (h : Traces l1 a b)
    (e : l1 = l2) : Traces l2 a b := e ▸ h

mutual

theorem obj_traces : ∀ (v : Value) (w w1 : writer), w.obj v = .ok w1 → Traces v.strs w w1
  | .nil, w, w1, h => by
    simp only [writer.obj, Except.ok.injEq] at h
    subst h; exact Traces.coder _ _
  | .int x, w, w1, h => by
    simp only [writer.obj, Except.ok.injEq] at h
    subst h; exact Traces.nil_of_eq rfl rfl
  | .int32 x, w, w1, h => by
    simp only [writer.obj, Except.ok.injEq] at h
    subst h; exact Traces.nil_of_eq rfl rfl
  | .int64 x, w, w1, h => by
    simp only [writer.obj, Except.ok.injEq] at h
    subst h; exact Traces.nil_of_eq rfl rfl
  | .uint x, w, w1, h => by
    simp only [writer.obj, Except.ok.injEq] at h
    subst h; exact Traces.nil_of_eq rfl rfl
  | .uint32 x, w, w1, h => by
    simp only [writer.obj, Except.ok.injEq] at h
    subst h; exact Traces.nil_of_eq rfl rfl
  | .uint64 x, w, w1, h => by
    simp only [writer.obj, Except.ok.injEq] at h
    subst h; exact Traces.nil_of_eq rfl rfl
  | .string x, w, w1, h => by
    simp only [writer.obj, Except.ok.injEq] at h
    subst h
    exact ((Traces.coder w coderString).andThen (Traces.string _ x)).cast rfl
  | .msg x, w, w1, h => by
    rw [writer.obj] at h
    rw [Value.strs]
    exact ((Traces.nil_of_eq rfl rfl : Traces [] w ((w.coder coderMSG).uvarint x.length)).andThen
      (msgLoop_traces x _ w1 h)).cast rfl
  | .arrayMsg x, w, w1, h => by
    rw [writer.obj] at h
    rw [Value.strs]
    exact ((Traces.nil_of_eq rfl rfl :
      Traces [] w ((w.coder coderArrayMSG).uvarint x.length)).andThen
      (arrayMsgLoop_traces x _ w1 h)).cast rfl
  | .other, w, w1, h => by
    simp [writer.obj] at h

theorem msgLoop_traces : ∀ (m : List (GoString × Value)) (w w1 : writer),
    writer.msgLoop w m = .ok w1 → Traces (entriesStrs m) w w1
  | [], w, w1, h => by
    simp only [writer.msgLoop, Except.ok.injEq] at h
    subst h; exact Traces.stay _
  | (s, o) :: rest, w, w1, h => by
    rw [writer.msgLoop] at h
    cases h2 : writer.obj (w.string s) o with
    | error e => rw [h2] at h; cases h
    | ok w2 =>
      rw [h2] at h
      rw [entriesStrs]
      exact ((Traces.string w s).andThen ((obj_traces o _ _ h2).andThen
        (msgLoop_traces rest _ _ h))).cast rfl

theorem arrayMsgLoop_traces : ∀ (a : List (List (GoString × Value))) (w w1 : writer),
    writer.arrayMsgLoop w a = .ok w1 → Traces (msgsStrs a) w w1
  | [], w, w1, h => by
    simp only [writer.arrayMsgLoop, Except.ok.injEq] at h
    subst h; exact Traces.stay _
  | v :: rest, w, w1, h => by
    rw [writer.arrayMsgLoop] at h
    cases h2 : writer.msgLoop (w.uvarint v.length) v with
    | error e => rw [h2] at h; cases h
    | ok w2 =>
      rw [h2] at h
      rw [msgsStrs]
      exact ((Traces.uvarint w _).andThen ((msgLoop_traces v _ _ h2).andThen
        (arrayMsgLoop_traces rest _ _ h))).cast rfl
end

theorem msg_traces (m : MSG) (w w1 : writer) (h : w.msg m = .ok w1) :
    Traces (entriesStrs m) w w1 :=
  ((Traces.uvarint w _).andThen (msgLoop_traces m _ w1 h)).cast rfl

theorem arrayMsg_traces (a : List MSG) (w w1 : writer) (h : w.arrayMsg a = .ok w1) :
    Traces (msgsStrs a) w w1 :=
  ((Traces.uvarint w _).andThen (arrayMsgLoop_traces a _ w1 h)).cast rfl

theorem attribute_traces (x : Option StoredMessageAttribute) (w : writer) :
    Traces (attributeStrs x) w (w.writeStoredMessageAttribute x) := by
  cases x with
  | none => exact Traces.coder _ _
  | some x =>
    simp only [writer.writeStoredMessageAttribute, int32_eq, int64_eq, attributeStrs]
    exact ((Traces.nil_of_eq rfl rfl : Traces [] w ((((w.coder coderStruct).varint
      x.MessageSeq).varint x.InternalID).varint x.SenderUin)).andThen
      ((Traces.string _ x.SenderName).andThen (Traces.varint _ _))).cast rfl

theorem guildAttribute_traces (x : Option StoredGuildMessageAttribute) (w : writer) :
    Traces (guildAttributeStrs x) w (w.writeStoredGuildMessageAttribute x) := by
  cases x with
  | none => exact Traces.coder _ _
  | some x =>
    simp only [writer.writeStoredGuildMessageAttribute, uint64_eq, int64_eq, guildAttributeStrs]
    exact ((Traces.nil_of_eq rfl rfl : Traces [] w ((((w.coder coderStruct).uvarint
      x.MessageSeq).uvarint x.InternalID).uvarint x.SenderTinyID)).andThen
      ((Traces.string _ x.SenderName).andThen (Traces.varint _ _))).cast rfl

theorem quotedInfo_traces (x : Option QuotedInfo) (w w1 : writer)
    (h : w.writeQuotedInfo x = .ok w1) : Traces (quotedStrs x) w w1 := by
  cases x with
  | none =>
    simp only [writer.writeQuotedInfo, Except.ok.injEq] at h
    subst h; exact Traces.coder _ _
  | some x =>
    simp only [writer.writeQuotedInfo, int32_eq] at h
    exact ((Traces.coder w coderStruct).andThen ((Traces.string _ x.PrevID).andThen
      ((Traces.varint _ _).andThen (arrayMsg_traces _ _ _ h)))).cast rfl

theorem groupMessage_traces (x : Option StoredGroupMessage) (w w1 : writer)
    (h : w.writeStoredGroupMessage x = .ok w1) : Traces (groupStrs x) w w1 := by
  cases x with
  | none =>
    simp only [writer.writeStoredGroupMessage, Except.ok.injEq] at h
    subst h; exact Traces.coder _ _
  | some x =>
    simp only [writer.writeStoredGroupMessage, int32_eq, int64_eq] at h
    split at h
    · cases h
    · rename_i w2 hq
      exact ((Traces.coder w coderStruct).andThen ((Traces.string _ x.ID).andThen
        ((Traces.varint _ _).andThen ((attribute_traces x.Attribute _).andThen
        ((Traces.string _ x.SubType).andThen ((quotedInfo_traces _ _ _ hq).andThen
        ((Traces.varint _ _).andThen ((Traces.string _ x.AnonymousID).andThen
        (arrayMsg_traces _ _ _ h))))))))).cast (by simp [groupStrs])

theorem privateMessage_traces (x : Option StoredPrivateMessage) (w w1 : writer)
    (h : w.writeStoredPrivateMessage x = .ok w1) : Traces (privateStrs x) w w1 := by
  cases x with
  | none =>
    simp only [writer.writeStoredPrivateMessage, Except.ok.injEq] at h
    subst h; exact Traces.coder _ _
  | some x =>
    simp only [writer.writeStoredPrivateMessage, int32_eq, int64_eq] at h
    split at h
    · cases h
    · rename_i w2 hq
      exact ((Traces.coder w coderStruct).andThen ((Traces.string _ x.ID).andThen
        ((Traces.varint _ _).andThen ((attribute_traces x.Attribute _).andThen
        ((Traces.string _ x.SubType).andThen ((quotedInfo_traces _ _ _ hq).andThen
        ((Traces.varint _ _).andThen ((Traces.varint _ _).andThen
        (arrayMsg_traces _ _ _ h))))))))).cast (by simp [privateStrs])

theorem guildChannelMessage_traces (x : Option StoredGuildChannelMessage) (w w1 : writer)
    (h : w.writeStoredGuildChannelMessage x = .ok w1) : Traces (guildChannelStrs x) w w1 := by
  cases x with
  | none =>
    simp only [writer.writeStoredGuildChannelMessage, Except.ok.injEq] at h
    subst h; exact Traces.coder _ _
  | some x =>
    simp only [writer.writeStoredGuildChannelMessage, uint64_eq] at h
    split at h
    · cases h
    · rename_i w2 hq
      exact ((Traces.coder w coderStruct).andThen ((Traces.string _ x.ID).andThen
        ((guildAttribute_traces x.Attribute _).andThen ((Traces.uvarint _ _).andThen
        ((Traces.uvarint _ _).andThen ((quotedInfo_traces _ _ _ hq).andThen
        (arrayMsg_traces _ _ _ h))))))).cast (by simp [guildChannelStrs])

theorem apply_traces (w w1 : writer) (op : Op) (hw : op.writes = true)
    (h : w.apply op = .ok w1) : Traces op.strs w w1 := by
  cases op with
  | bytes => cases hw
  | msg m => exact msg_traces m w w1 h
  | arrayMsg a => exact arrayMsg_traces a w w1 h
  | obj o => exact obj_traces o w w1 h
  | writeStoredGroupMessage x => exact groupMessage_traces x w w1 h
  | writeStoredPrivateMessage x => exact privateMessage_traces x w w1 h
  | writeStoredGuildChannelMessage x => exact guildChannelMessage_traces x w w1 h
  | writeQuotedInfo x => exact quotedInfo_traces x w w1 h
  | writeStoredMessageAttribute x =>
    simp only [writer.apply, Except.ok.injEq] at h
    subst h; exact attribute_traces x w
  | writeStoredGuildMessageAttribute x =>
    simp only [writer.apply, Except.ok.injEq] at h
    subst h; exact guildAttribute_traces x w
  | string s =>
    simp only [writer.apply, Except.ok.injEq] at h
    subst h; exact Traces.string w s
  | _ =>
    simp only [writer.apply, Except.ok.injEq] at h
    subst h; exact Traces.nil_of_eq rfl rfl

theorem run_traces : ∀ (ops : List Op) (w w1 : writer), ops.all Op.writes = true →
    w.run ops = .ok w1 → Traces (opsStrs ops) w w1
  | [], w, w1, _, h => by
    simp only [writer.run, Except.ok.injEq] at h
    subst h; exact Traces.stay _
  | op :: rest, w, w1, hw, h => by
    simp only [List.all_cons, Bool.and_eq_true] at hw
    rw [writer.run] at h
    cases h2 : w.apply op with
    | error e => rw [h2] at h; cases h
    | ok w2 =>
      rw [h2] at h
      exact ((apply_traces w w2 op hw.1 h2).andThen (run_traces rest w2 w1 hw.2 h)).cast rfl

theorem seeString_nodup (seen : List GoString) (s : GoString) (h : seen.Nodup) :
    (seeString seen s).Nodup := by
  unfold seeString
  by_cases hs : s ∈ seen
  · rw [if_pos hs]; exact h
  · rw [if_neg hs]
    exact List.nodup_append.mpr ⟨h, List.nodup_singleton s,
      by
        intro a ha hb
        simp only [List.mem_singleton] at hb
        subst hb
        exact hs ha⟩

theorem mem_seeString (seen : List GoString) (s t : GoString) :
    t ∈ seeString seen s ↔ t ∈ seen ∨ t = s := by
  unfold seeString
  by_cases hs : s ∈ seen
  · rw [if_pos hs]
    constructor
    · exact Or.inl
    · rintro (h | h)
      · exact h
      · subst h; exact hs
  · rw [if_neg hs]
    simp

theorem foldl_seeString_nodup : ∀ (l seen : List GoString), seen.Nodup →
    (l.foldl seeString seen).Nodup
  | [], _, h => h
  | s :: tl, seen, h => foldl_seeString_nodup tl _ (seeString_nodup seen s h)

theorem mem_foldl_seeString : ∀ (l seen : List GoString) (t : GoString),
    t ∈ l.foldl seeString seen ↔ t ∈ seen ∨ t ∈ l
  | [], seen, t => by simp
  | s :: tl, seen, t => by
    rw [List.foldl_cons, mem_foldl_seeString tl _ t, mem_seeString]
    simp only [List.mem_cons]
    tauto

/-! ## The loop body, case by case -/

theorem encode_group (dec : LegacyDecoder) (data : List Nat) (x : StoredGroupMessage)
    (hd : dec.group data = .ok x) :
    Main.encode dec (group :: data) =
      match newWriter.writeStoredGroupMessage (some x) with
      | .ok w0 => .ok (.encoded (markedBuffer group w0))
      | .error e => .error e := by
  simp only [Main.encode, if_true, hd, newWriter_uvarint, prepend_groupMessage]
  cases newWriter.writeStoredGroupMessage (some x) with
  | error e => rfl
  | ok w0 => simp only [Except.map, prepend_bytes]

theorem encode_private (dec : LegacyDecoder) (data : List Nat) (x : StoredPrivateMessage)
    (hd : dec.private_ data = .ok x) :
    Main.encode dec (private_ :: data) =
      match newWriter.writeStoredPrivateMessage (some x) with
      | .ok w0 => .ok (.encoded (markedBuffer private_ w0))
      | .error e => .error e := by
  have hne : ¬ (private_ = group) := by decide
  simp only [Main.encode, if_true, if_neg hne, hd, newWriter_uvarint, prepend_privateMessage]
  cases newWriter.writeStoredPrivateMessage (some x) with
  | error e => rfl
  | ok w0 => simp only [Except.map, prepend_bytes]

theorem encode_guildChannel (dec : LegacyDecoder) (data : List Nat)
    (x : StoredGuildChannelMessage) (hd : dec.guildChannel data = .ok x) :
    Main.encode dec (guildChannel :: data) =
      match newWriter.writeStoredGuildChannelMessage (some x) with
      | .ok w0 => .ok (.encoded (markedBuffer guildChannel w0))
      | .error e => .error e := by
  have hne : ¬ (guildChannel = group) := by decide
  have hne2 : ¬ (guildChannel = private_) := by decide
  simp only [Main.encode, if_true, if_neg hne, if_neg hne2, hd, newWriter_uvarint,
    prepend_guildChannelMessage]
  cases newWriter.writeStoredGuildChannelMessage (some x) with
  | error e => rfl
  | ok w0 => simp only [Except.map, prepend_bytes]

theorem encode_group_error (dec : LegacyDecoder) (data : List Nat) (err : String)
    (hd : dec.group data = .error err) :
    Main.encode dec (group :: data)
      = .ok (.decodeFailed (wrap err "decode group message failed")) := by
  simp only [Main.encode, if_true, hd]

theorem encode_private_error (dec : LegacyDecoder) (data : List Nat) (err : String)
    (hd : dec.private_ data = .error err) :
    Main.encode dec (private_ :: data)
      = .ok (.decodeFailed (wrap err "decode private message failed")) := by
  have hne : ¬ (private_ = group) := by decide
  simp only [Main.encode, if_true, if_neg hne, hd]

theorem encode_guildChannel_error (dec : LegacyDecoder) (data : List Nat) (err : String)
    (hd : dec.guildChannel data = .error err) :
    Main.encode dec (guildChannel :: data)
      = .ok (.decodeFailed (wrap err "decode guild channel message failed")) := by
  have hne : ¬ (guildChannel = group) := by decide
  have hne2 : ¬ (guildChannel = private_) := by decide
  simp only [Main.encode, if_true, if_neg hne, if_neg hne2, hd]

theorem kindKnown_cases (k : Nat) (data : List Nat) (h : kindKnown (k :: data) = true) :
    k = group ∨ k = private_ ∨ k = guildChannel := by
  simpa [kindKnown, or_assoc] using h

/-- What the loop body does with a value of a known kind, in terms of `decodeError` and
`recordBuffer`. -/
theorem encode_known (dec : LegacyDecoder) (value : List Nat) (hk : kindKnown value = true) :
    (value = [] ∧ Main.encode dec value = .ok .skipped
        ∧ decodeError dec value = none ∧ recordBuffer dec value = none)
    ∨ (value ≠ [] ∧ ∃ e, decodeError dec value = some e ∧ recordBuffer dec value = none
        ∧ Main.encode dec value = .ok (.decodeFailed e))
    ∨ (value ≠ [] ∧ decodeError dec value = none ∧ ∃ b, recordBuffer dec value = some b
        ∧ Main.encode dec value = .ok (.encoded b))
    ∨ (value ≠ [] ∧ decodeError dec value = none ∧ recordBuffer dec value = none
        ∧ recordSupported dec value = false ∧ ∃ e, Main.encode dec value = .error e) := by
  cases value with
  | nil => exact Or.inl ⟨rfl, rfl, rfl, rfl⟩
  | cons k data =>
    right
    have hne : k :: data ≠ [] := by simp
    have hp : ¬ (private_ = group) := by decide
    have hg1 : ¬ (guildChannel = group) := by decide
    have hg2 : ¬ (guildChannel = private_) := by decide
    rcases kindKnown_cases k data hk with rfl | rfl | rfl
    · cases hd : dec.group data with
      | error err =>
        exact Or.inl ⟨hne, _, by simp only [decodeError, if_true, hd],
          by simp only [recordBuffer, if_true, hd], encode_group_error dec data err hd⟩
      | ok x =>
        have he := encode_group dec data x hd
        have hde : decodeError dec (group :: data) = none := by
          simp only [decodeError, if_true, hd]
        cases hw : newWriter.writeStoredGroupMessage (some x) with
        | ok w0 =>
          rw [hw] at he
          exact Or.inr (Or.inl ⟨hne, hde, _,
            by simp only [recordBuffer, if_true, hd, hw], he⟩)
        | error e =>
          rw [hw] at he
          refine Or.inr (Or.inr ⟨hne, hde, by simp only [recordBuffer, if_true, hd, hw], ?_,
            e, he⟩)
          cases hs : recordSupported dec (group :: data) with
          | false => rfl
          | true =>
            simp only [recordSupported, if_true, hd, Bool.and_eq_true] at hs
            obtain ⟨w1, h1⟩ := groupMessage_ok_of_supported x newWriter hs.1 hs.2
            rw [hw] at h1
            cases h1
    · cases hd : dec.private_ data with
      | error err =>
        exact Or.inl ⟨hne, _, by simp only [decodeError, if_true, if_neg hp, hd],
          by simp only [recordBuffer, if_true, if_neg hp, hd],
          encode_private_error dec data err hd⟩
      | ok x =>
        have he := encode_private dec data x hd
        have hde : decodeError dec (private_ :: data) = none := by
          simp only [decodeError, if_true, if_neg hp, hd]
        cases hw : newWriter.writeStoredPrivateMessage (some x) with
        | ok w0 =>
          rw [hw] at he
          exact Or.inr (Or.inl ⟨hne, hde, _,
            by simp only [recordBuffer, if_true, if_neg hp, hd, hw], he⟩)
        | error e =>
          rw [hw] at he
          refine Or.inr (Or.inr ⟨hne, hde,
            by simp only [recordBuffer, if_true, if_neg hp, hd, hw], ?_, e, he⟩)
          cases hs : recordSupported dec (private_ :: data) with
          | false => rfl
          | true =>
            simp only [recordSupported, if_true, if_neg hp, hd, Bool.and_eq_true] at hs
            obtain ⟨w1, h1⟩ := privateMessage_ok_of_supported x newWriter hs.1 hs.2
            rw [hw] at h1
            cases h1
    · cases hd : dec.guildChannel data with
      | error err =>
        exact Or.inl ⟨hne, _, by simp only [decodeError, if_true, if_neg hg1, if_neg hg2, hd],
          by simp only [recordBuffer, if_true, if_neg hg1, if_neg hg2, hd],
          encode_guildChannel_error dec data err hd⟩
      | ok x =>
        have he := encode_guildChannel dec data x hd
        have hde : decodeError dec (guildChannel :: data) = none := by
          simp only [decodeError, if_true, if_neg hg1, if_neg hg2, hd]
        cases hw : newWriter.writeStoredGuildChannelMessage (some x) with
        | ok w0 =>
          rw [hw] at he
          exact Or.inr (Or.inl ⟨hne, hde, _,
            by simp only [recordBuffer, if_true, if_neg hg1, if_neg hg2, hd, hw], he⟩)
        | error e =>
          rw [hw] at he
          refine Or.inr (Or.inr ⟨hne, hde,
            by simp only [recordBuffer, if_true, if_neg hg1, if_neg hg2, hd, hw], ?_, e, he⟩)
          cases hs : recordSupported dec (guildChannel :: data) with
          | false => rfl
          | true =>
            simp only [recordSupported, if_true, if_neg hg1, if_neg hg2, hd,
              Bool.and_eq_true] at hs
            obtain ⟨w1, h1⟩ := guildChannelMessage_ok_of_supported x newWriter hs.1 hs.2
            rw [hw] at h1
            cases h1

/-! ## The loop over the records -/

theorem storePut_absent (db : List (List Nat × List Nat)) (key value : List Nat)
    (h : key ∉ db.map Prod.fst) : storePut db key value = db ++ [(key, value)] := by
  unfold storePut
  congr 1
  rw [List.filter_eq_self]
  intro e he
  simp only [ne_eq, decide_eq_true_eq]
  intro hk
  exact h (List.mem_map.mpr ⟨e, he, hk⟩)

theorem foldl_storePut : ∀ (l db : List (List Nat × List Nat)),
    ((db ++ l).map Prod.fst).Nodup →
    l.foldl (fun d e => storePut d e.1 e.2) db = db ++ l
  | [], db, _ => by simp
  | (k, v) :: tl, db, h => by
    have hk : k ∉ db.map Prod.fst := by
      rw [List.map_append, List.nodup_append] at h
      intro hm
      exact h.2.2 hm (by simp)
    rw [List.foldl_cons, storePut_absent db k v hk, foldl_storePut tl (db ++ [(k, v)])]
    · simp
    · simpa using h

theorem length_filterMap_eq_countP {α β : Type} (f : α → Option β) : ∀ l : List α,
    (l.filterMap f).length = l.countP (fun a => (f a).isSome)
  | [] => rfl
  | a :: tl => by
    have ih := length_filterMap_eq_countP f tl
    cases h : f a with
    | none => simp [List.filterMap_cons, List.countP_cons, h, ih]
    | some b => simp [List.filterMap_cons, List.countP_cons, h, ih]

theorem step_of_encode (dec : LegacyDecoder) (st : MainState) (key value : List Nat) :
    Main.step dec (fun _ _ => none) st key value =
      match Main.encode dec value with
      | .error e => .error e
      | .ok .skipped => .ok st
      | .ok (.decodeFailed err) => .ok { st with errs := st.errs ++ [err] }
      | .ok (.encoded out) => .ok { st with v3db := storePut st.v3db key out } := by
  unfold Main.step
  cases Main.encode dec value with
  | error e => rfl
  | ok o => cases o <;> rfl

theorem loop_append (dec : LegacyDecoder) (putErr : List Nat → List Nat → Option String) :
    ∀ (a b : List (List Nat × List Nat)) (st : MainState),
    Main.loop dec putErr st (a ++ b) =
      match Main.loop dec putErr st a with
      | .ok s1 => Main.loop dec putErr s1 b
      | .error e => .error e
  | [], b, st => rfl
  | (key, value) :: tl, b, st => by
    rw [List.cons_append, Main.loop, Main.loop]
    cases Main.step dec putErr st key value with
    | error e => rfl
    | ok s1 => exact loop_append dec putErr tl b s1

theorem step_lookup_ne (dec : LegacyDecoder) (putErr : List Nat → List Nat → Option String)
    (st st1 : MainState) (key value key2 : List Nat)
    (h : Main.step dec putErr st key value = .ok st1) (hne : key2 ≠ key) :
    List.lookup key2 st1.v3db = List.lookup key2 st.v3db := by
  unfold Main.step at h
  cases he : Main.encode dec value with
  | error e => rw [he] at h; cases h
  | ok o =>
    rw [he] at h
    cases o with
    | skipped =>
      simp only [Except.ok.injEq] at h
      subst h; rfl
    | decodeFailed err =>
      simp only [Except.ok.injEq] at h
      subst h; rfl
    | encoded out =>
      cases hp : putErr key out with
      | some err =>
        simp only [hp, Except.ok.injEq] at h
        subst h; rfl
      | none =>
        simp only [hp, Except.ok.injEq] at h
        subst h
        exact storePut_lookup_ne key out key2 hne st.v3db

theorem loop_lookup_absent (dec : LegacyDecoder)
    (putErr : List Nat → List Nat → Option String) (key : List Nat) :
    ∀ (recs : List (List Nat × List Nat)) (st st1 : MainState),
    Main.loop dec putErr st recs = .ok st1 → key ∉ recs.map Prod.fst →
    List.lookup key st1.v3db = List.lookup key st.v3db
  | [], st, st1, h, _ => by
    simp only [Main.loop, Except.ok.injEq] at h
    subst h; rfl
  | (k, v) :: tl, st, st1, h, hk => by
    simp only [List.map_cons, List.mem_cons, not_or] at hk
    rw [Main.loop] at h
    cases hs : Main.step dec putErr st k v with
    | error e => rw [hs] at h; cases h
    | ok s2 =>
      rw [hs] at h
      rw [loop_lookup_absent dec putErr key tl s2 st1 h hk.2]
      exact step_lookup_ne dec putErr st s2 k v key hs hk.1

theorem step_encoded (dec : LegacyDecoder) (putErr : List Nat → List Nat → Option String)
    (st : MainState) (key value out : List Nat)
    (he : Main.encode dec value = .ok (.encoded out)) (hp : putErr key out = none) :
    Main.step dec putErr st key value = .ok { st with v3db := storePut st.v3db key out } := by
  simp only [Main.step, he, hp]

/-! ## The first string of a record -/

theorem first_string (w1 : writer) (s : GoString)
    (he : ((newWriter.coder coderStruct).string s).Extends w1) :
    ∃ tail t, w1.data = 0x0A :: 0 :: tail ∧ w1.strings = stringEntry s ++ t
      ∧ w1.stringIndex.lookup s = some 0 := by
  have hl : (newWriter.coder coderStruct).stringIndex.lookup s = none := rfl
  obtain ⟨hd, hs, hi⟩ := string_miss (newWriter.coder coderStruct) s hl
  obtain ⟨⟨out, ho⟩, ⟨t, ht⟩, hk⟩ := he
  refine ⟨out, t, ?_, ?_, ?_⟩
  · rw [ho, hd]
    have e : uvarintBytes (newWriter.coder coderStruct).strings.length = [0] := by decide
    rw [e]
    rfl
  · rw [ht, hs]
    rfl
  · apply hk
    rw [hi]
    simp
    rfl

theorem groupMessage_after_id (x : StoredGroupMessage) (w w1 : writer)
    (h : w.writeStoredGroupMessage (some x) = .ok w1) :
    ((w.coder coderStruct).string x.ID).Extends w1 := by
  simp only [writer.writeStoredGroupMessage, int32_eq, int64_eq] at h
  split at h
  · cases h
  · rename_i w5 hq
    exact ((((((varint_extends _ _).trans (attribute_closed extends_closed _ _)).trans
      (string_extends _ _)).trans (quotedInfo_closed extends_closed _ _ _ hq)).trans
      (varint_extends _ _)).trans (string_extends _ _)).trans
      (arrayMsg_closed extends_closed _ _ _ h)

theorem privateMessage_after_id (x : StoredPrivateMessage) (w w1 : writer)
    (h : w.writeStoredPrivateMessage (some x) = .ok w1) :
    ((w.coder coderStruct).string x.ID).Extends w1 := by
  simp only [writer.writeStoredPrivateMessage, int32_eq, int64_eq] at h
  split at h
  · cases h
  · rename_i w5 hq
    exact ((((((varint_extends _ _).trans (attribute_closed extends_closed _ _)).trans
      (string_extends _ _)).trans (quotedInfo_closed extends_closed _ _ _ hq)).trans
      (varint_extends _ _)).trans (varint_extends _ _)).trans
      (arrayMsg_closed extends_closed _ _ _ h)

theorem guildChannelMessage_after_id (x : StoredGuildChannelMessage) (w w1 : writer)
    (h : w.writeStoredGuildChannelMessage (some x) = .ok w1) :
    ((w.coder coderStruct).string x.ID).Extends w1 := by
  simp only [writer.writeStoredGuildChannelMessage, uint64_eq] at h
  split at h
  · cases h
  · rename_i w5 hq
    exact ((((guildAttribute_closed extends_closed _ _).trans (uvarint_extends _ _)).trans
      (uvarint_extends _ _)).trans (quotedInfo_closed extends_closed _ _ _ hq)).trans
      (arrayMsg_closed extends_closed _ _ _ h)

theorem firstSeen_around (a b : List GoString) (s : GoString) :
    firstSeen (a ++ s :: b) = b.foldl seeString (seeString (firstSeen a) s) := by
  unfold firstSeen
  rw [List.foldl_append, List.foldl_cons]

/-! ## The run of `Main`, round by round -/

theorem arrayMsg_error_of_unsupported (a : List MSG) (w : writer)
    (h : msgsSupported a = false) : w.arrayMsg a = .error "unsupported type" :=
  arrayMsgLoop_error_of_unsupported a _ h

theorem quotedInfo_error_of_unsupported (x : Option QuotedInfo) (w : writer)
    (h : quotedSupported x = false) : w.writeQuotedInfo x = .error "unsupported type" := by
  cases x with
  | none => simp [quotedSupported] at h
  | some q => exact arrayMsg_error_of_unsupported _ _ h

theorem groupMessage_error_of_unsupported (x : StoredGroupMessage) (w : writer)
    (h : (quotedSupported x.QuotedInfo && msgsSupported x.Content) = false) :
    w.writeStoredGroupMessage (some x) = .error "unsupported type" := by
  simp only [writer.writeStoredGroupMessage]
  cases hq : quotedSupported x.QuotedInfo with
  | false => rw [quotedInfo_error_of_unsupported _ _ hq]
  | true =>
    obtain ⟨w5, h5⟩ := quotedInfo_ok_of_supported x.QuotedInfo
      (((((w.coder coderStruct).string x.ID).int32 x.GlobalID).writeStoredMessageAttribute
        x.Attribute).string x.SubType) hq
    rw [h5]
    rw [hq, Bool.true_and] at h
    exact arrayMsg_error_of_unsupported _ _ h

theorem privateMessage_error_of_unsupported (x : StoredPrivateMessage) (w : writer)
    (h : (quotedSupported x.QuotedInfo && msgsSupported x.Content) = false) :
    w.writeStoredPrivateMessage (some x) = .error "unsupported type" := by
  simp only [writer.writeStoredPrivateMessage]
  cases hq : quotedSupported x.QuotedInfo with
  | false => rw [quotedInfo_error_of_unsupported _ _ hq]
  | true =>
    obtain ⟨w5, h5⟩ := quotedInfo_ok_of_supported x.QuotedInfo
      (((((w.coder coderStruct).string x.ID).int32 x.GlobalID).writeStoredMessageAttribute
        x.Attribute).string x.SubType) hq
    rw [h5]
    rw [hq, Bool.true_and] at h
    exact arrayMsg_error_of_unsupported _ _ h

theorem guildChannelMessage_error_of_unsupported (x : StoredGuildChannelMessage) (w : writer)
    (h : (quotedSupported x.QuotedInfo && msgsSupported x.Content) = false) :
    w.writeStoredGuildChannelMessage (some x) = .error "unsupported type" := by
  simp only [writer.writeStoredGuildChannelMessage]
  cases hq : quotedSupported x.QuotedInfo with
  | false => rw [quotedInfo_error_of_unsupported _ _ hq]
  | true =>
    obtain ⟨w5, h5⟩ := quotedInfo_ok_of_supported x.QuotedInfo
      (((((w.coder coderStruct).string x.ID).writeStoredGuildMessageAttribute
        x.Attribute).uint64 x.GuildID).uint64 x.ChannelID) hq
    rw [h5]
    rw [hq, Bool.true_and] at h
    exact arrayMsg_error_of_unsupported _ _ h

/-- A record that decodes to a message with a value of an unsupported kind makes the loop body
panic. -/
theorem encode_unsupported (dec : LegacyDecoder) (value : List Nat)
    (hk : kindKnown value = true) (hs : recordSupported dec value = false) :
    Main.encode dec value = .error "unsupported type" := by
  cases value with
  | nil => simp [recordSupported] at hs
  | cons k data =>
    have hp : ¬ (private_ = group) := by decide
    have hg1 : ¬ (guildChannel = group) := by decide
    have hg2 : ¬ (guildChannel = private_) := by decide
    rcases kindKnown_cases k data hk with rfl | rfl | rfl
    · cases hd : dec.group data with
      | error err => simp [recordSupported, hd] at hs
      | ok x =>
        simp only [recordSupported, if_true, hd] at hs
        rw [encode_group dec data x hd, groupMessage_error_of_unsupported x _ hs]
    · cases hd : dec.private_ data with
      | error err => simp [recordSupported, hd, if_neg hp] at hs
      | ok x =>
        simp only [recordSupported, if_true, if_neg hp, hd] at hs
        rw [encode_private dec data x hd, privateMessage_error_of_unsupported x _ hs]
    · cases hd : dec.guildChannel data with
      | error err => simp [recordSupported, hd, if_neg hg1, if_neg hg2] at hs
      | ok x =>
        simp only [recordSupported, if_true, if_neg hg1, if_neg hg2, hd] at hs
        rw [encode_guildChannel dec data x hd, guildChannelMessage_error_of_unsupported x _ hs]

/-- What the loop body does with a value of a known kind whose record, if it decodes, holds
supported values only. -/
theorem encode_supported (dec : LegacyDecoder) (value : List Nat)
    (hk : kindKnown value = true) (hs : recordSupported dec value = true) :
    (value = [] ∧ Main.encode dec value = .ok .skipped
        ∧ decodeError dec value = none ∧ recordBuffer dec value = none)
    ∨ (value ≠ [] ∧ ∃ e, decodeError dec value = some e ∧ recordBuffer dec value = none
        ∧ Main.encode dec value = .ok (.decodeFailed e))
    ∨ (value ≠ [] ∧ decodeError dec value = none ∧ ∃ b, recordBuffer dec value = some b
        ∧ Main.encode dec value = .ok (.encoded b)) := by
  rcases encode_known dec value hk with h | h | h | ⟨-, -, -, h, -⟩
  · exact Or.inl h
  · exact Or.inr (Or.inl h)
  · exact Or.inr (Or.inr h)
  · rw [hs] at h
    cases h

theorem buffer_iff_decoded (dec : LegacyDecoder) (value : List Nat)
    (hk : kindKnown value = true) (hs : recordSupported dec value = true) :
    (recordBuffer dec value).isSome = true ↔ (value ≠ [] ∧ decodeError dec value = none) := by
  rcases encode_supported dec value hk hs with ⟨hv, -, hde, hrb⟩ | ⟨hv, e, hde, hrb, -⟩
    | ⟨hv, hde, b, hrb, -⟩
  · rw [hrb]
    exact ⟨fun h => (by cases h), fun h => absurd hv h.1⟩
  · rw [hrb, hde]
    exact ⟨fun h => (by cases h), fun h => (by cases h.2)⟩
  · rw [hrb]
    exact ⟨fun _ => ⟨hv, hde⟩, fun _ => rfl⟩

theorem writtenBy_cons (dec : LegacyDecoder) (key value : List Nat)
    (rest : List (LegacyDecoder × List Nat × List Nat)) :
    writtenBy ((dec, key, value) :: rest) =
      match recordBuffer dec value with
      | some b => (key, b) :: writtenBy rest
      | none => writtenBy rest := by
  unfold writtenBy
  cases h : recordBuffer dec value with
  | none => simp [List.filterMap_cons, h]
  | some b => simp [List.filterMap_cons, h]

theorem reported_cons (dec : LegacyDecoder) (key value : List Nat)
    (rest : List (LegacyDecoder × List Nat × List Nat)) :
    reported ((dec, key, value) :: rest) =
      match decodeError dec value with
      | some e => e :: reported rest
      | none => reported rest := by
  unfold reported
  cases h : decodeError dec value with
  | none => simp [List.filterMap_cons, h]
  | some b => simp [List.filterMap_cons, h]

theorem writtenBy_keys_sublist : ∀ rs : List (LegacyDecoder × List Nat × List Nat),
    ((writtenBy rs).map Prod.fst).Sublist (rs.map (fun r => r.2.1))
  | [] => by simp [writtenBy]
  | (dec, key, value) :: rest => by
    rw [writtenBy_cons]
    cases h : recordBuffer dec value with
    | none =>
      simp only [List.map_cons]
      exact (writtenBy_keys_sublist rest).cons _
    | some b =>
      simp only [List.map_cons]
      exact (writtenBy_keys_sublist rest).cons₂ _

theorem mem_writtenBy (rs : List (LegacyDecoder × List Nat × List Nat)) (key b : List Nat) :
    (key, b) ∈ writtenBy rs ↔
      ∃ dec value, (dec, key, value) ∈ rs ∧ recordBuffer dec value = some b := by
  unfold writtenBy
  rw [List.mem_filterMap]
  constructor
  · rintro ⟨⟨dec, k, value⟩, hr, hb⟩
    cases hrb : recordBuffer dec value with
    | none => simp [hrb] at hb
    | some b2 =>
      simp only [hrb, Option.map_some', Option.some.injEq, Prod.mk.injEq] at hb
      obtain ⟨rfl, rfl⟩ := hb
      exact ⟨dec, value, hr, hrb⟩
  · rintro ⟨dec, value, hr, hb⟩
    exact ⟨(dec, key, value), hr, by simp [hb]⟩

/-- The run when every `Put` succeeds and every decoded record holds supported values: it
completes, the errors of the rounds that do not decode are added in order, and the buffers of
the others are put under their keys in order. -/
theorem rounds_spec : ∀ (rs : List (LegacyDecoder × List Nat × List Nat)) (st0 : MainState),
    (∀ r ∈ rs, kindKnown r.2.2 = true) → (∀ r ∈ rs, recordSupported r.1 r.2.2 = true) →
    Main.rounds (fun _ _ => none) st0 rs =
      ({ v3db := (writtenBy rs).foldl (fun d e => storePut d e.1 e.2) st0.v3db,
         errs := st0.errs ++ reported rs }, none)
  | [], st0, _, _ => by simp [Main.rounds, writtenBy, reported]
  | (dec, key, value) :: rest, st0, hk, hs => by
    have hk1 : kindKnown value = true := hk (dec, key, value) (List.mem_cons_self _ _)
    have hs1 : recordSupported dec value = true := hs (dec, key, value) (List.mem_cons_self _ _)
    have hk2 : ∀ r ∈ rest, kindKnown r.2.2 = true := fun r hr => hk r (List.mem_cons_of_mem _ hr)
    have hs2 : ∀ r ∈ rest, recordSupported r.1 r.2.2 = true :=
      fun r hr => hs r (List.mem_cons_of_mem _ hr)
    rw [Main.rounds, step_of_encode, writtenBy_cons, reported_cons]
    rcases encode_supported dec value hk1 hs1 with ⟨-, he, hde, hrb⟩ | ⟨-, e, hde, hrb, he⟩
      | ⟨-, hde, b, hrb, he⟩
    · rw [he, hde, hrb]
      exact rounds_spec rest st0 hk2 hs2
    · rw [he, hde, hrb]
      simp only
      rw [rounds_spec rest _ hk2 hs2]
      simp
    · rw [he, hde, hrb]
      simp only
      rw [rounds_spec rest _ hk2 hs2]
      rfl

theorem rounds_append (putErr : List Nat → List Nat → Option String) :
    ∀ (a b : List (LegacyDecoder × List Nat × List Nat)) (st : MainState),
    Main.rounds putErr st (a ++ b) =
      match Main.rounds putErr st a with
      | (s, none) => Main.rounds putErr s b
      | (s, some e) => (s, some e)
  | [], b, st => rfl
  | (dec, key, value) :: rest, b, st => by
    simp only [List.cons_append, Main.rounds]
    cases Main.step dec putErr st key value with
    | error e => rfl
    | ok s1 => exact rounds_append putErr rest b s1

/-- The loop of `Main` with one decoder for the whole run is the run round by round with that
decoder in every round. -/
theorem loop_rounds (dec : LegacyDecoder) (putErr : List Nat → List Nat → Option String) :
    ∀ (recs : List (List Nat × List Nat)) (st : MainState),
    Main.loop dec putErr st recs =
      match Main.rounds putErr st (recs.map (fun r => (dec, r.1, r.2))) with
      | (s, none) => .ok s
      | (_, some e) => .error e
  | [], st => rfl
  | (key, value) :: rest, st => by
    simp only [List.map_cons, Main.rounds, Main.loop]
    cases Main.step dec putErr st key value with
    | error e => rfl
    | ok s1 => exact loop_rounds dec putErr rest s1

/-- A record that decodes to a message with a value of an unsupported kind has a non-empty
value, no decode error and no buffer. -/
theorem unsupported_decodes (dec : LegacyDecoder) (value : List Nat)
    (hk : kindKnown value = true) (hs : recordSupported dec value = false) :
    value ≠ [] ∧ decodeError dec value = none ∧ recordBuffer dec value = none := by
  rcases encode_known dec value hk with ⟨-, he, -, -⟩ | ⟨-, e, -, -, he⟩
    | ⟨-, -, b, -, he⟩ | ⟨hv, hde, hrb, -, -⟩
  · rw [encode_unsupported dec value hk hs] at he; cases he
  · rw [encode_unsupported dec value hk hs] at he; cases he
  · rw [encode_unsupported dec value hk hs] at he; cases he
  · exact ⟨hv, hde, hrb⟩

/-- The run up to the first round whose record holds a value of an unsupported kind: the
rounds before it are done as in a run that completes, and the run ends there with the
panic. -/
theorem rounds_panic (pre post : List (LegacyDecoder × List Nat × List Nat))
    (r : LegacyDecoder × List Nat × List Nat) (st0 : MainState)
    (hk : ∀ q ∈ pre ++ r :: post, kindKnown q.2.2 = true)
    (hs : ∀ q ∈ pre, recordSupported q.1 q.2.2 = true)
    (hr : recordSupported r.1 r.2.2 = false) :
    Main.rounds (fun _ _ => none) st0 (pre ++ r :: post) =
      ({ v3db := (writtenBy pre).foldl (fun d e => storePut d e.1 e.2) st0.v3db,
         errs := st0.errs ++ reported pre }, some "unsupported type") := by
  have hk1 : ∀ q ∈ pre, kindKnown q.2.2 = true :=
    fun q hq => hk q (List.mem_append_left _ hq)
  have hk2 : kindKnown r.2.2 = true :=
    hk r (List.mem_append_right _ (List.mem_cons_self _ _))
  rw [rounds_append, rounds_spec pre st0 hk1 hs]
  obtain ⟨dec, key, value⟩ := r
  simp only [Main.rounds, step_of_encode, encode_unsupported dec value hk2 hr]

/-! ## The claims -/

/-- C1: `bytes()` returns the version, the length of the string data, the length of the index
data (each as a uvarint), then the string data, then the index data; the two lengths in the
header are the byte counts of the two sections behind it. -/
theorem C1_bytes_layout (w : writer) :
    w.bytes.1 = uvarintBytes 1 ++ uvarintBytes w.strings.length ++ uvarintBytes w.data.length
        ++ w.strings ++ w.data
    ∧ uvarintBytes 1 = [1]
    ∧ (w.bytes.1.drop (uvarintBytes 1 ++ uvarintBytes w.strings.length
          ++ uvarintBytes w.data.length).length).take w.strings.length = w.strings
    ∧ (w.bytes.1.drop (uvarintBytes 1 ++ uvarintBytes w.strings.length
          ++ uvarintBytes w.data.length).length).drop w.strings.length = w.data := by
  have e : w.bytes.1 = (uvarintBytes 1 ++ uvarintBytes w.strings.length
      ++ uvarintBytes w.data.length) ++ (w.strings ++ w.data) := by
    unfold writer.bytes
    simp only [uvarint_append, dataVersion, intWriter.Len, List.nil_append, List.append_assoc]
  refine ⟨by rw [e]; simp only [List.append_assoc], by decide, ?_, ?_⟩
  · rw [e, List.drop_left, List.take_left]
  · rw [e, List.drop_left, List.drop_left]

/-- C2: the mirror decoder applied to `uvarint(x)` followed by any bytes returns `x` and leaves
exactly those bytes, for every 64-bit unsigned `x`; `uvarint` appends to whatever the buffer
holds. -/
theorem C2_uvarint_round_trip (x : Nat) (rest : List Nat) (hx : x < 2 ^ 64) :
    readUvarint (uvarintBytes x ++ rest) = some (x, rest)
    ∧ ∀ w : intWriter, intWriter.uvarint w x = w ++ uvarintBytes x :=
  ⟨readUvarint_uvarintBytes x rest hx, fun w => uvarint_append x w⟩

/-- Witness of C2 at the largest 64-bit value, with trailing bytes. -/
theorem C2_uvarint_round_trip_witness :
    (2 ^ 64 - 1 < 2 ^ 64)
    ∧ readUvarint (uvarintBytes (2 ^ 64 - 1) ++ [0x80, 0x01]) = some (2 ^ 64 - 1, [0x80, 0x01])
    ∧ readUvarint (uvarintBytes 0 ++ []) = some (0, []) :=
  ⟨by decide, (C2_uvarint_round_trip (2 ^ 64 - 1) [0x80, 0x01] (by decide)).1,
    (C2_uvarint_round_trip 0 [] (by decide)).1⟩

/-- C3: `varint(x)` is `uvarint` of the zig-zag image `z` of `x`, which is `2x` for `x ≥ 0` and
`-2x - 1` for `x < 0`; decoding and undoing the zig-zag map returns `x`; the map is a bijection
between the 64-bit signed and the 64-bit unsigned values. -/
theorem C3_varint_round_trip (x : Int) (h0 : -2 ^ 63 ≤ x) (h1 : x < 2 ^ 63) :
    (∀ w : intWriter, intWriter.varint w x = intWriter.uvarint w (zigzag x))
    ∧ zigzag x = ((toUint64 x <<< 1) % 2 ^ 64) ^^^ toUint64 (Int.shiftRight x 63)
    ∧ (zigzag x : Int) = (if 0 ≤ x then 2 * x else -2 * x - 1)
    ∧ zigzag x < 2 ^ 64
    ∧ unzigzag (zigzag x) = x
    ∧ (∀ rest : List Nat, readVarint (varintBytes x ++ rest) = some (x, rest))
    ∧ (∀ y : Int, -2 ^ 63 ≤ y → y < 2 ^ 63 → zigzag y = zigzag x → y = x)
    ∧ (∀ z : Nat, z < 2 ^ 64 →
        -2 ^ 63 ≤ unzigzag z ∧ unzigzag z < 2 ^ 63 ∧ zigzag (unzigzag z) = z) := by
  refine ⟨fun _ => rfl, rfl, ?_, zigzag_lt x h0 h1, unzigzag_zigzag x h0 h1,
    fun rest => readVarint_varintBytes x rest h0 h1, ?_, ?_⟩
  · by_cases hx : 0 ≤ x
    · rw [if_pos hx, zigzag_nonneg x hx h1]; omega
    · rw [if_neg hx, zigzag_neg x h0 (by omega)]; omega
  · intro y hy0 hy1 h
    rw [← unzigzag_zigzag y hy0 hy1, h, unzigzag_zigzag x h0 h1]
  · intro z hz
    exact ⟨(unzigzag_range z hz).1, (unzigzag_range z hz).2, zigzag_unzigzag z hz⟩

/-- Witness of C3 at the smallest 64-bit signed value. -/
theorem C3_varint_round_trip_witness :
    readVarint (varintBytes (-2 ^ 63) ++ [5]) = some (-2 ^ 63, [5]) :=
  (C3_varint_round_trip (-2 ^ 63) (by decide) (by decide)).2.2.2.2.2.1 [5]

/-- C4: the mirror reader of a group message, applied to the index data that
`writeStoredGroupMessage` appended for a present message with supported content (and to the
string data of the writer), returns the message itself, every field in its place, and leaves
the bytes that follow. -/
theorem C4_group_field_order (x : StoredGroupMessage) (w : writer) (hv : w.Valid)
    (hr : x.inRange = true) (hq : quotedSupported x.QuotedInfo = true)
    (hc : msgsSupported x.Content = true) :
    ∃ w1 out, w.writeStoredGroupMessage (some x) = .ok w1
      ∧ w1.data = w.data ++ out
      ∧ (w1.strings.length < 2 ^ 64 →
          ∀ fuel rest, max (quotedDepth x.QuotedInfo) (msgsDepth x.Content) ≤ fuel →
            readStoredGroupMessage w1.strings fuel (out ++ rest) = some (some x, rest)) := by
  obtain ⟨w1, h1⟩ := groupMessage_ok_of_supported x w hq hc
  obtain ⟨⟨out, ho⟩, -⟩ := groupMessage_closed extends_closed _ w w1 h1
  refine ⟨w1, out, h1, ho, ?_⟩
  intro hS fuel rest hf
  obtain ⟨out2, ho2, hread⟩ := groupMessage_read x w w1 w1.strings h1 hv hr (Covers.self w1) hS
  have e : out2 = out := List.append_cancel_left (ho2.symm.trans ho)
  subst e
  exact hread fuel rest hf

/-- Witness of C4: the message with ID "m1", GlobalID 7, no Attribute, SubType "normal", no
QuotedInfo, GroupCode 123456, AnonymousID "" and Content [{"text": "hi"}], written by a fresh
writer and read back. -/
theorem C4_group_field_order_witness :
    newWriter.writeStoredGroupMessage (some exGroup) = .ok exGroupWritten
    ∧ readStoredGroupMessage exGroupWritten.strings 1 exGroupWritten.data
        = some (some exGroup, []) := by
  obtain ⟨w1, out, h1, h2, h3⟩ := C4_group_field_order exGroup newWriter valid_newWriter
    (by decide) (by decide) (by decide)
  have e : newWriter.writeStoredGroupMessage (some exGroup) = .ok exGroupWritten := rfl
  rw [e] at h1
  cases h1
  have e2 : out = exGroupWritten.data := by
    rw [h2]; rfl
  subst e2
  refine ⟨e, ?_⟩
  have := h3 (by decide) 1 [] (by decide)
  simpa using this

/-- C6: for a value of a supported kind, `obj` appends the discriminant of the kind and a
payload, and the mirror reader, applied to these bytes and the string data, returns the value
and leaves the bytes that follow. -/
theorem C6_tagged_round_trip (v : Value) (w : writer) (hv : w.Valid)
    (hs : v.supported = true) (hr : v.inRange = true) :
    ∃ w1 c payload, w.obj v = .ok w1 ∧ v.discriminant = some c
      ∧ w1.data = w.data ++ c :: payload ∧ w1.Valid
      ∧ (w1.strings.length < 2 ^ 64 → ∀ fuel rest, v.depth ≤ fuel →
          readObj w1.strings fuel (c :: payload ++ rest) = some (v, rest)) := by
  obtain ⟨w1, h1⟩ := obj_ok_of_supported v w hs
  obtain ⟨c, payload, hc, hd⟩ := obj_head v w w1 h1
  refine ⟨w1, c, payload, h1, hc, hd, obj_closed valid_closed v w w1 h1 hv, ?_⟩
  intro hS fuel rest hf
  obtain ⟨out, ho, hread⟩ := obj_read v w w1 w1.strings h1 hv hr (Covers.self w1) hS
  have e : out = c :: payload := List.append_cancel_left (ho.symm.trans hd)
  subst e
  exact hread fuel rest hf

/-- Witness of C6: the segment map {"a": "hi", "b": int64 -64, "c": [{"d": {}}, {}]}, written
by a fresh writer and read back with one more byte behind it. -/
theorem C6_tagged_round_trip_witness :
    newWriter.obj exValue = .ok exValueWritten
    ∧ readObj exValueWritten.strings 3 (exValueWritten.data ++ [0xFF])
        = some (exValue, [0xFF]) := by
  obtain ⟨w1, c, payload, h1, -, h2, -, h3⟩ := C6_tagged_round_trip exValue newWriter
    valid_newWriter (by decide) (by decide)
  have e : newWriter.obj exValue = .ok exValueWritten := rfl
  rw [e] at h1
  cases h1
  have e2 : c :: payload = exValueWritten.data := by
    have h4 : exValueWritten.data = newWriter.data ++ c :: payload := h2
    rw [h4]; rfl
  rw [e2] at h3
  exact ⟨e, h3 (by decide) 3 [0xFF] (by decide)⟩

/-- C7: each of the six record writers appends the single byte 0x00 to the index data, and
nothing to the string table, for an absent input; for a present input, whatever its fields,
what it appends is 0x0A followed by at least one more byte, and it does append that whenever
the content holds supported values. -/
theorem C7_record_nullability (w : writer) :
    (w.writeStoredGroupMessage none = .ok { w with data := w.data ++ [0x00] }
      ∧ w.writeStoredPrivateMessage none = .ok { w with data := w.data ++ [0x00] }
      ∧ w.writeStoredGuildChannelMessage none = .ok { w with data := w.data ++ [0x00] }
      ∧ w.writeStoredMessageAttribute none = { w with data := w.data ++ [0x00] }
      ∧ w.writeStoredGuildMessageAttribute none = { w with data := w.data ++ [0x00] }
      ∧ w.writeQuotedInfo none = .ok { w with data := w.data ++ [0x00] })
    ∧ (∀ (x : StoredGroupMessage) (w1 : writer), w.writeStoredGroupMessage (some x) = .ok w1 →
        ∃ tail, tail ≠ [] ∧ w1.data = w.data ++ 0x0A :: tail)
    ∧ (∀ (x : StoredPrivateMessage) (w1 : writer),
        w.writeStoredPrivateMessage (some x) = .ok w1 →
        ∃ tail, tail ≠ [] ∧ w1.data = w.data ++ 0x0A :: tail)
    ∧ (∀ (x : StoredGuildChannelMessage) (w1 : writer),
        w.writeStoredGuildChannelMessage (some x) = .ok w1 →
        ∃ tail, tail ≠ [] ∧ w1.data = w.data ++ 0x0A :: tail)
    ∧ (∀ x : StoredMessageAttribute,
        ∃ tail, tail ≠ [] ∧ (w.writeStoredMessageAttribute (some x)).data = w.data ++ 0x0A :: tail)
    ∧ (∀ x : StoredGuildMessageAttribute,
        ∃ tail, tail ≠ [] ∧
          (w.writeStoredGuildMessageAttribute (some x)).data = w.data ++ 0x0A :: tail)
    ∧ (∀ (x : QuotedInfo) (w1 : writer), w.writeQuotedInfo (some x) = .ok w1 →
        ∃ tail, tail ≠ [] ∧ w1.data = w.data ++ 0x0A :: tail)
    ∧ (∀ x : StoredGroupMessage,
        quotedSupported x.QuotedInfo = true → msgsSupported x.Content = true →
        ∃ w1, w.writeStoredGroupMessage (some x) = .ok w1)
    ∧ (∀ x : StoredPrivateMessage,
        quotedSupported x.QuotedInfo = true → msgsSupported x.Content = true →
        ∃ w1, w.writeStoredPrivateMessage (some x) = .ok w1)
    ∧ (∀ x : StoredGuildChannelMessage,
        quotedSupported x.QuotedInfo = true → msgsSupported x.Content = true →
        ∃ w1, w.writeStoredGuildChannelMessage (some x) = .ok w1)
    ∧ (∀ x : QuotedInfo, msgsSupported x.QuotedContent = true →
        ∃ w1, w.writeQuotedInfo (some x) = .ok w1) :=
  ⟨⟨rfl, rfl, rfl, rfl, rfl, rfl⟩,
    fun x w1 h => groupMessage_shape x w w1 h,
    fun x w1 h => privateMessage_shape x w w1 h,
    fun x w1 h => guildChannelMessage_shape x w w1 h,
    fun x => attribute_shape x w,
    fun x => guildAttribute_shape x w,
    fun x w1 h => quotedInfo_shape x w w1 h,
    fun x hq hc => groupMessage_ok_of_supported x w hq hc,
    fun x hq hc => privateMessage_ok_of_supported x w hq hc,
    fun x hq hc => guildChannelMessage_ok_of_supported x w hq hc,
    fun x hc => quotedInfo_ok_of_supported (some x) w hc⟩

/-- Witness of C7: the group message with every field at its zero value, and the absent one,
in a fresh writer: nine bytes that start with 0x0A against the single byte 0x00. -/
theorem C7_record_nullability_witness :
    newWriter.writeStoredGroupMessage (some zeroGroup)
        = .ok { data := [0x0A, 0, 0, 0, 0, 0, 0, 0, 0], strings := [0],
                stringIndex := [([], 0)] }
    ∧ (∃ tail, tail ≠ [] ∧ [0x0A, 0, 0, 0, 0, 0, 0, 0, 0] = newWriter.data ++ 0x0A :: tail)
    ∧ newWriter.writeStoredGroupMessage none
        = .ok { newWriter with data := newWriter.data ++ [0x00] } :=
  ⟨rfl, (C7_record_nullability newWriter).2.1 zeroGroup _ rfl,
    (C7_record_nullability newWriter).1.1⟩

/-- C8, as amended: `msg(m)` writes the number of entries as a uvarint and then, for each
entry in the order in which `range` yields the entries of the map, the key through the string
table followed by the tagged value. -/
theorem C8_msg_range_order (w : writer) (m : MSG) :
    w.msg m = m.foldlM (fun w e => (w.string e.1).obj e.2) (w.uvarint m.length)
    ∧ (w.uvarint m.length).data = w.data ++ uvarintBytes m.length :=
  ⟨msgLoop_eq_foldlM m _, uvarint_data w _⟩

/-- C8 fails as stated: the map with the entries "a": nil and "b": int 1, inserted in this
order, can be yielded by `range` as "b", "a"; the index data and the string data then differ
from those of the order "a", "b", so the bytes follow the order of `range`, not the order of
insertion, and two encodings of the same map need not agree. -/
theorem C8_counterexample :
    rangeOrderOf [(([97] : GoString), Value.nil), ([98], Value.int 1)]
        [([98], Value.int 1), ([97], Value.nil)]
    ∧ ([97] : GoString) ≠ [98]
    ∧ ∃ wa wb,
        newWriter.msg [([97], Value.nil), ([98], Value.int 1)] = .ok wa
        ∧ newWriter.msg [([98], Value.int 1), ([97], Value.nil)] = .ok wb
        ∧ wa.data = [2, 0, 0, 2, 1, 2] ∧ wb.data = [2, 0, 1, 2, 2, 0]
        ∧ wa.data ≠ wb.data ∧ wa.strings ≠ wb.strings :=
  ⟨List.Perm.swap _ _ _, by decide, ⟨_, _, rfl, rfl, rfl, rfl, by decide, by decide⟩⟩

/-- C9: `arrayMsg(a)` writes the number of elements as a uvarint and then runs `msg` on each
element in sequence order; what `msg` appends starts with the entry count of the map, not with
a discriminant; only `obj` puts the array discriminant in front, and what it appends is that
one byte followed by what `arrayMsg` appends. In every record writer the Content (or
QuotedContent) field is written by `arrayMsg` on the writer as the preceding field left it. -/
theorem C9_arrayMsg_no_inner_discriminant (w : writer) (a : List MSG) :
    w.arrayMsg a = a.foldlM (fun w m => w.msg m) (w.uvarint a.length)
    ∧ (w.uvarint a.length).data = w.data ++ uvarintBytes a.length
    ∧ (∀ w1, w.arrayMsg a = .ok w1 → ∃ tail, w1.data = w.data ++ uvarintBytes a.length ++ tail)
    ∧ (∀ (m : MSG) (u u1 : writer), u.msg m = .ok u1 →
        ∃ tail, u1.data = u.data ++ uvarintBytes m.length ++ tail)
    ∧ w.obj (Value.arrayMsg a) = (w.coder coderArrayMSG).arrayMsg a
    ∧ (∀ w1, w.arrayMsg a = .ok w1 →
        ∃ w2 out, w.obj (Value.arrayMsg a) = .ok w2 ∧ w1.data = w.data ++ out
          ∧ w2.data = w.data ++ coderArrayMSG :: out
          ∧ w2.strings = w1.strings ∧ w2.stringIndex = w1.stringIndex)
    ∧ (∀ x : StoredGroupMessage, w.writeStoredGroupMessage (some x) =
        match (((((w.coder coderStruct).string x.ID).int32 x.GlobalID).writeStoredMessageAttribute
          x.Attribute).string x.SubType).writeQuotedInfo x.QuotedInfo with
        | .error e => .error e
        | .ok w5 => ((w5.int64 x.GroupCode).string x.AnonymousID).arrayMsg x.Content)
    ∧ (∀ x : StoredPrivateMessage, w.writeStoredPrivateMessage (some x) =
        match (((((w.coder coderStruct).string x.ID).int32 x.GlobalID).writeStoredMessageAttribute
          x.Attribute).string x.SubType).writeQuotedInfo x.QuotedInfo with
        | .error e => .error e
        | .ok w5 => ((w5.int64 x.SessionUin).int64 x.TargetUin).arrayMsg x.Content)
    ∧ (∀ x : StoredGuildChannelMessage, w.writeStoredGuildChannelMessage (some x) =
        match (((((w.coder coderStruct).string x.ID).writeStoredGuildMessageAttribute
          x.Attribute).uint64 x.GuildID).uint64 x.ChannelID).writeQuotedInfo x.QuotedInfo with
        | .error e => .error e
        | .ok w5 => w5.arrayMsg x.Content)
    ∧ (∀ q : QuotedInfo, w.writeQuotedInfo (some q) =
        (((w.coder coderStruct).string q.PrevID).int32 q.PrevGlobalID).arrayMsg
          q.QuotedContent) :=
  ⟨arrayMsgLoop_eq_foldlM a _, uvarint_data w _, fun w1 h => arrayMsg_head a w w1 h,
    fun m u u1 h => msg_head m u u1 h, obj_arrayMsg w a,
    fun w1 h => arrayMsg_tagged w w1 a h, fun _ => rfl, fun _ => rfl, fun _ => rfl,
    fun _ => rfl⟩

/-- Witness of C9: an array of two maps in a fresh writer: the count 2, then the count 1, a
key and a tagged value of the first map, then the count 0 of the second. -/
theorem C9_arrayMsg_no_inner_discriminant_witness :
    newWriter.arrayMsg [[([97], Value.nil)], []]
      = .ok { data := [2, 1, 0, 0, 0], strings := [1, 97], stringIndex := [([97], 0)] } :=
  ((C9_arrayMsg_no_inner_discriminant newWriter [[([97], Value.nil)], []]).1).trans rfl

/-- C10: for a record of kind 0, 1 or 2 whose legacy decode succeeds, the loop body runs the
record writer of that kind behind the marker, and the value handed to `Put` is the buffer
whose index data is the marker `uvarint(k)`, one byte, followed by what the record writer
writes in a fresh writer, and whose declared index-data length is one more than the length of
that output; with content of supported kinds the value is produced, and a successful `Put`
stores it under the key of the record. -/
theorem C10_kind_marker (dec : LegacyDecoder) (data : List Nat) :
    (∀ x : StoredGroupMessage, dec.group data = .ok x →
        Main.encode dec (group :: data) =
          match newWriter.writeStoredGroupMessage (some x) with
          | .ok w0 => .ok (.encoded (markedBuffer group w0))
          | .error e => .error e)
    ∧ (∀ x : StoredPrivateMessage, dec.private_ data = .ok x →
        Main.encode dec (private_ :: data) =
          match newWriter.writeStoredPrivateMessage (some x) with
          | .ok w0 => .ok (.encoded (markedBuffer private_ w0))
          | .error e => .error e)
    ∧ (∀ x : StoredGuildChannelMessage, dec.guildChannel data = .ok x →
        Main.encode dec (guildChannel :: data) =
          match newWriter.writeStoredGuildChannelMessage (some x) with
          | .ok w0 => .ok (.encoded (markedBuffer guildChannel w0))
          | .error e => .error e)
    ∧ (∀ x : StoredGroupMessage, dec.group data = .ok x →
        quotedSupported x.QuotedInfo = true → msgsSupported x.Content = true →
        ∃ w0, newWriter.writeStoredGroupMessage (some x) = .ok w0
          ∧ Main.encode dec (group :: data) = .ok (.encoded (markedBuffer group w0))
          ∧ ∀ putErr st key, putErr key (markedBuffer group w0) = none →
              Main.step dec putErr st key (group :: data)
                = .ok { st with v3db := storePut st.v3db key (markedBuffer group w0) })
    ∧ (∀ x : StoredPrivateMessage, dec.private_ data = .ok x →
        quotedSupported x.QuotedInfo = true → msgsSupported x.Content = true →
        ∃ w0, newWriter.writeStoredPrivateMessage (some x) = .ok w0
          ∧ Main.encode dec (private_ :: data) = .ok (.encoded (markedBuffer private_ w0))
          ∧ ∀ putErr st key, putErr key (markedBuffer private_ w0) = none →
              Main.step dec putErr st key (private_ :: data)
                = .ok { st with v3db := storePut st.v3db key (markedBuffer private_ w0) })
    ∧ (∀ x : StoredGuildChannelMessage, dec.guildChannel data = .ok x →
        quotedSupported x.QuotedInfo = true → msgsSupported x.Content = true →
        ∃ w0, newWriter.writeStoredGuildChannelMessage (some x) = .ok w0
          ∧ Main.encode dec (guildChannel :: data)
              = .ok (.encoded (markedBuffer guildChannel w0))
          ∧ ∀ putErr st key, putErr key (markedBuffer guildChannel w0) = none →
              Main.step dec putErr st key (guildChannel :: data)
                = .ok { st with v3db := storePut st.v3db key (markedBuffer guildChannel w0) })
    ∧ (∀ (k : Nat) (w0 : writer), k < 0x80 →
        markedBuffer k w0 = uvarintBytes 1 ++ uvarintBytes w0.strings.length
          ++ uvarintBytes (1 + w0.data.length) ++ w0.strings ++ (k :: w0.data)) := by
  have eg : ∀ x : StoredGroupMessage, dec.group data = .ok x →
      Main.encode dec (group :: data) =
        match newWriter.writeStoredGroupMessage (some x) with
        | .ok w0 => .ok (.encoded (markedBuffer group w0))
        | .error e => .error e := by
    intro x hd
    simp only [Main.encode, if_true, hd, newWriter_uvarint, prepend_groupMessage]
    cases newWriter.writeStoredGroupMessage (some x) with
    | error e => rfl
    | ok w0 => simp only [Except.map, prepend_bytes]
  have ep : ∀ x : StoredPrivateMessage, dec.private_ data = .ok x →
      Main.encode dec (private_ :: data) =
        match newWriter.writeStoredPrivateMessage (some x) with
        | .ok w0 => .ok (.encoded (markedBuffer private_ w0))
        | .error e => .error e := by
    intro x hd
    have hne : ¬ (private_ = group) := by decide
    simp only [Main.encode, if_true, if_neg hne, hd, newWriter_uvarint, prepend_privateMessage]
    cases newWriter.writeStoredPrivateMessage (some x) with
    | error e => rfl
    | ok w0 => simp only [Except.map, prepend_bytes]
  have ec : ∀ x : StoredGuildChannelMessage, dec.guildChannel data = .ok x →
      Main.encode dec (guildChannel :: data) =
        match newWriter.writeStoredGuildChannelMessage (some x) with
        | .ok w0 => .ok (.encoded (markedBuffer guildChannel w0))
        | .error e => .error e := by
    intro x hd
    have hne : ¬ (guildChannel = group) := by decide
    have hne2 : ¬ (guildChannel = private_) := by decide
    simp only [Main.encode, if_true, if_neg hne, if_neg hne2, hd, newWriter_uvarint,
      prepend_guildChannelMessage]
    cases newWriter.writeStoredGuildChannelMessage (some x) with
    | error e => rfl
    | ok w0 => simp only [Except.map, prepend_bytes]
  refine ⟨eg, ep, ec, ?_, ?_, ?_, ?_⟩
  · intro x hd hq hc
    obtain ⟨w0, h0⟩ := groupMessage_ok_of_supported x newWriter hq hc
    have he := eg x hd
    rw [h0] at he
    exact ⟨w0, h0, he, fun putErr st key hp => by simp only [Main.step, he, hp]⟩
  · intro x hd hq hc
    obtain ⟨w0, h0⟩ := privateMessage_ok_of_supported x newWriter hq hc
    have he := ep x hd
    rw [h0] at he
    exact ⟨w0, h0, he, fun putErr st key hp => by simp only [Main.step, he, hp]⟩
  · intro x hd hq hc
    obtain ⟨w0, h0⟩ := guildChannelMessage_ok_of_supported x newWriter hq hc
    have he := ec x hd
    rw [h0] at he
    exact ⟨w0, h0, he, fun putErr st key hp => by simp only [Main.step, he, hp]⟩
  · intro k w0 hk
    have e : uvarintBytes k = [k] := by
      rw [uvarintBytes_unfold, if_neg (by omega), Nat.mod_eq_of_lt (by omega)]
    simp [markedBuffer, e, Nat.add_comm]

/-- Witness of C10: the record with value `[0, 1, 2, 3]`, whose payload decodes to the group
message of the field-order example. -/
theorem C10_kind_marker_witness :
    Main.encode exDecoder [0, 1, 2, 3] = .ok (.encoded
      [1, 19, 16,
        2, 109, 49, 6, 110, 111, 114, 109, 97, 108, 0, 4, 116, 101, 120, 116, 2, 104, 105,
        0, 10, 0, 14, 0, 3, 0, 128, 137, 15, 10, 1, 1, 11, 7, 16]) := by
  obtain ⟨w0, h0, he, -⟩ := (C10_kind_marker exDecoder [1, 2, 3]).2.2.2.1 exGroup rfl
    (by decide) (by decide)
  have e : newWriter.writeStoredGroupMessage (some exGroup) = .ok exGroupWritten := rfl
  rw [e] at h0
  cases h0
  exact he

/-- C15: `obj` panics, with "unsupported type", exactly when the value or a value nested in
it has a dynamic type outside the ten kinds; on every value built from the ten kinds only it
returns a writer. -/
theorem C15_unsupported_type (v : Value) (w : writer) :
    (w.obj v = .error "unsupported type" ↔ Nested Value.other v)
    ∧ ((∃ e, w.obj v = .error e) ↔ Nested Value.other v)
    ∧ ((∃ w1, w.obj v = .ok w1) ↔ ¬ Nested Value.other v)
    ∧ (Nested Value.other v ↔ v.supported = false) := by
  have key : Nested Value.other v ↔ v.supported = false :=
    ⟨unsupported_of_nested_other v, nested_other_of_unsupported v⟩
  cases hs : v.supported with
  | false =>
    have he := obj_error_of_unsupported v w hs
    have hn : Nested Value.other v := key.mpr hs
    refine ⟨⟨fun _ => hn, fun _ => he⟩, ⟨fun _ => hn, fun _ => ⟨_, he⟩⟩, ?_, ?_⟩
    · constructor
      · rintro ⟨w1, h1⟩
        rw [he] at h1
        cases h1
      · intro h
        exact absurd hn h
    · exact ⟨fun _ => rfl, fun _ => hn⟩
  | true =>
    obtain ⟨w1, h1⟩ := obj_ok_of_supported v w hs
    have hn : ¬ Nested Value.other v := by
      intro h
      rw [key.mp h] at hs
      cases hs
    refine ⟨⟨?_, fun h => absurd h hn⟩, ⟨?_, fun h => absurd h hn⟩,
      ⟨fun _ => hn, fun _ => ⟨w1, h1⟩⟩, ⟨fun h => absurd h hn, fun h => by cases h⟩⟩
    · intro h
      rw [h1] at h
      cases h
    · rintro ⟨e, h⟩
      rw [h1] at h
      cases h

/-- C16: `obj(nil)` appends the single byte 0x00 to the index data and changes nothing else;
it is the call `nil()`. -/
theorem C16_nil_one_byte (w : writer) :
    w.obj Value.nil = .ok { w with data := w.data ++ [0x00] }
    ∧ w.obj Value.nil = .ok w.nil
    ∧ w.nil.data = w.data ++ [0x00] ∧ w.nil.strings = w.strings
    ∧ w.nil.stringIndex = w.stringIndex ∧ coderNil = 0x00 := by
  refine ⟨?_, ?_, rfl, rfl, rfl, rfl⟩
  · rw [writer.obj]; rfl
  · rw [writer.obj]

/-- C17: for a 64-bit unsigned `x`, `uvarint(x)` appends `n` bytes, with `n = 1` for `x < 128`
and `n = ceil(bitlength(x) / 7)` otherwise (`Nat.size` is the bit length), so `1 ≤ n ≤ 10`;
byte `i < n - 1` is `((x >> 7i) and 0x7F) or 0x80`; the last byte is `x >> 7(n-1)`, is below
0x80, and is zero only for `x = 0`. -/
theorem C17_uvarint_shape (x : Nat) (hx : x < 2 ^ 64) :
    (∀ w : intWriter, intWriter.uvarint w x = w ++ uvarintBytes x)
    ∧ (uvarintBytes x).length = (if x < 128 then 1 else (Nat.size x + 6) / 7)
    ∧ 1 ≤ (uvarintBytes x).length ∧ (uvarintBytes x).length ≤ 10
    ∧ (∀ i, i + 1 < (uvarintBytes x).length →
        (uvarintBytes x)[i]? = some (((x >>> (7 * i)) &&& 0x7F) ||| 0x80))
    ∧ (uvarintBytes x)[(uvarintBytes x).length - 1]?
        = some (x >>> (7 * ((uvarintBytes x).length - 1)))
    ∧ x >>> (7 * ((uvarintBytes x).length - 1)) < 0x80
    ∧ (x ≠ 0 → x >>> (7 * ((uvarintBytes x).length - 1)) ≠ 0) := by
  have hpos := uvarintBytes_length_pos x
  refine ⟨fun w => uvarint_append x w, ?_, hpos, ?_, ?_, ?_, (uvarintBytes_last x).1,
    (uvarintBytes_last x).2⟩
  · by_cases h : x < 128
    · rw [if_pos h, uvarintBytes_small x h, List.length_singleton]
    · rw [if_neg h, uvarintBytes_length_size x (by omega)]
  · exact uvarintBytes_length_le 9 x
      (Nat.lt_of_lt_of_le hx (Nat.pow_le_pow_right (by decide) (by decide)))
  · intro i hi
    rw [uvarintBytes_getElem?, if_pos hi]
  · rw [uvarintBytes_getElem?, if_neg (by omega), if_pos (by omega)]

/-- Witness of C17 at the largest 64-bit value: ten bytes, nine of them 0xFF and the last
0x01. -/
theorem C17_uvarint_shape_witness :
    (uvarintBytes (2 ^ 64 - 1)).length = (if 2 ^ 64 - 1 < 128 then 1
      else (Nat.size (2 ^ 64 - 1) + 6) / 7)
    ∧ uvarintBytes (2 ^ 64 - 1)
        = [0xFF, 0xFF, 0xFF, 0xFF, 0xFF, 0xFF, 0xFF, 0xFF, 0xFF, 0x01] :=
  ⟨(C17_uvarint_shape (2 ^ 64 - 1) (by decide)).2.1, by decide⟩

/-- C19: for a 64-bit signed `x`, `varint(x)` is a single byte exactly when `-64 ≤ x ≤ 63`; a
32-bit signed value, which `int32` writes with `varint`, takes at most 5 bytes; the four
values at the boundary are encoded as stated. -/
theorem C19_zigzag_compact (x : Int) (h0 : -2 ^ 63 ≤ x) (h1 : x < 2 ^ 63) :
    ((varintBytes x).length = 1 ↔ (-64 ≤ x ∧ x ≤ 63))
    ∧ (-2 ^ 31 ≤ x → x < 2 ^ 31 →
        (varintBytes x).length ≤ 5
        ∧ ∀ w : writer, ∃ out, (w.int32 x).data = w.data ++ out ∧ out.length ≤ 5
            ∧ (w.int32 x).strings = w.strings ∧ (w.int32 x).stringIndex = w.stringIndex)
    ∧ varintBytes (-1) = [0x01] ∧ varintBytes 63 = [0x7E]
    ∧ varintBytes (-64) = [0x7F] ∧ varintBytes 64 = [0x80, 0x01] := by
  have hv : varintBytes x = uvarintBytes (zigzag x) := rfl
  refine ⟨?_, ?_, by decide, by decide, by decide, by decide⟩
  · rw [hv, uvarintBytes_length_eq_one]
    by_cases hx : 0 ≤ x
    · rw [zigzag_nonneg x hx h1]; omega
    · rw [zigzag_neg x h0 (by omega)]; omega
  · intro l0 l1
    have hz : zigzag x < 2 ^ (7 * (4 + 1)) := by
      by_cases hx : 0 ≤ x
      · rw [zigzag_nonneg x hx h1]; omega
      · rw [zigzag_neg x h0 (by omega)]; omega
    have hl : (varintBytes x).length ≤ 5 := by
      rw [hv]; exact uvarintBytes_length_le 4 _ hz
    exact ⟨hl, fun w => ⟨varintBytes x, varint_data w x, hl, rfl, rfl⟩⟩

/-- Witness of C19 at the two ends of the 32-bit range and at the first two-byte values. -/
theorem C19_zigzag_compact_witness :
    (varintBytes (-2 ^ 31)).length ≤ 5 ∧ (varintBytes (2 ^ 31 - 1)).length ≤ 5
    ∧ ¬ ((varintBytes (-65)).length = 1) ∧ (varintBytes (-64)).length = 1 :=
  ⟨((C19_zigzag_compact (-2 ^ 31) (by decide) (by decide)).2.1 (by decide) (by decide)).1,
    ((C19_zigzag_compact (2 ^ 31 - 1) (by decide) (by decide)).2.1 (by decide) (by decide)).1,
    fun h => absurd ((C19_zigzag_compact (-65) (by decide) (by decide)).1.mp h) (by decide),
    (C19_zigzag_compact (-64) (by decide) (by decide)).1.mpr (by decide)⟩

/-- C20: for a record whose value starts with a byte `k` other than 0, 1 and 2, the loop body
asks no legacy decoder, and the value handed to `Put` is the buffer with empty string data
whose index data is the marker `uvarint(k)` alone; when `Put` succeeds the entry is in the
destination under the key of the record and the error list is as before. -/
theorem C20_unknown_kind (dec : LegacyDecoder) (k : Nat) (data : List Nat)
    (h0 : k ≠ 0) (h1 : k ≠ 1) (h2 : k ≠ 2) :
    Main.encode dec (k :: data) = .ok (.encoded
      (uvarintBytes 1 ++ uvarintBytes 0 ++ uvarintBytes (uvarintBytes k).length
        ++ uvarintBytes k))
    ∧ (∀ dec2 : LegacyDecoder, Main.encode dec2 (k :: data) = Main.encode dec (k :: data))
    ∧ (∀ (putErr : List Nat → List Nat → Option String) (st : MainState) (key : List Nat),
        putErr key (uvarintBytes 1 ++ uvarintBytes 0 ++ uvarintBytes (uvarintBytes k).length
          ++ uvarintBytes k) = none →
        ∃ st1, Main.step dec putErr st key (k :: data) = .ok st1
          ∧ st1.errs = st.errs
          ∧ List.lookup key st1.v3db = some (uvarintBytes 1 ++ uvarintBytes 0
              ++ uvarintBytes (uvarintBytes k).length ++ uvarintBytes k)
          ∧ ∀ key2, key2 ≠ key → List.lookup key2 st1.v3db = List.lookup key2 st.v3db) := by
  have he : ∀ d : LegacyDecoder, Main.encode d (k :: data) = .ok (.encoded
      (uvarintBytes 1 ++ uvarintBytes 0 ++ uvarintBytes (uvarintBytes k).length
        ++ uvarintBytes k)) := by
    intro d
    have g0 : ¬ (k = group) := h0
    have g1 : ¬ (k = private_) := h1
    have g2 : ¬ (k = guildChannel) := h2
    simp only [Main.encode, if_neg g0, if_neg g1, if_neg g2, newWriter_uvarint]
    rw [prepend_bytes]
    simp [markedBuffer, newWriter]
  refine ⟨he dec, fun dec2 => (he dec2).trans (he dec).symm, ?_⟩
  intro putErr st key hp
  refine ⟨{ st with v3db := storePut st.v3db key _ }, ?_, rfl, storePut_lookup _ _ _,
    fun key2 hk => storePut_lookup_ne _ _ _ hk _⟩
  simp only [Main.step, he dec, hp]

/-- Witness of C20: a record with key "k" and value `[7, 1, 2]`, and one whose kind byte 200
takes two bytes as a uvarint. -/
theorem C20_unknown_kind_witness :
    Main.encode exDecoder [7, 1, 2] = .ok (.encoded [1, 0, 1, 7])
    ∧ Main.encode exDecoder [200] = .ok (.encoded [1, 0, 2, 200, 1]) :=
  ⟨(C20_unknown_kind exDecoder 7 [1, 2] (by decide) (by decide) (by decide)).1,
    (C20_unknown_kind exDecoder 200 [] (by decide) (by decide) (by decide)).1⟩

/-- C14: for a present guild-channel message, `writeStoredGuildChannelMessage` appends 0x0A,
the offset of the ID, the attribute, `uvarint(GuildID)`, `uvarint(ChannelID)`, the quoted
reference and the content, in this order; a present attribute is 0x0A, the three unsigned
fields as plain uvarints, the offset of the sender name and the zig-zag varint of the
timestamp, an absent one the byte 0x00. -/
theorem C14_guild_channel_layout (x : StoredGuildChannelMessage) (w : writer) :
    (∀ w1, w.writeStoredGuildChannelMessage (some x) = .ok w1 →
      ∃ off attr quoted content wq,
        ((w.coder coderStruct).string x.ID).data = w.data ++ 0x0A :: uvarintBytes off
        ∧ (((w.coder coderStruct).string x.ID).writeStoredGuildMessageAttribute x.Attribute).data
            = ((w.coder coderStruct).string x.ID).data ++ attr
        ∧ (((((w.coder coderStruct).string x.ID).writeStoredGuildMessageAttribute
              x.Attribute).uint64 x.GuildID).uint64 x.ChannelID).writeQuotedInfo x.QuotedInfo
            = .ok wq
        ∧ wq.data = (((((w.coder coderStruct).string x.ID).writeStoredGuildMessageAttribute
              x.Attribute).uint64 x.GuildID).uint64 x.ChannelID).data ++ quoted
        ∧ wq.arrayMsg x.Content = .ok w1
        ∧ w1.data = wq.data ++ content
        ∧ w1.data = w.data ++ 0x0A :: (uvarintBytes off ++ attr ++ uvarintBytes x.GuildID
            ++ uvarintBytes x.ChannelID ++ quoted ++ content))
    ∧ (quotedSupported x.QuotedInfo = true → msgsSupported x.Content = true →
        ∃ w1, w.writeStoredGuildChannelMessage (some x) = .ok w1)
    ∧ (∀ (u : writer) (y : StoredGuildMessageAttribute),
        ∃ off, (((((u.coder coderStruct).uint64 y.MessageSeq).uint64 y.InternalID).uint64
            y.SenderTinyID).string y.SenderName).data
              = ((((u.coder coderStruct).uint64 y.MessageSeq).uint64 y.InternalID).uint64
                  y.SenderTinyID).data ++ uvarintBytes off
          ∧ (u.writeStoredGuildMessageAttribute (some y)).data
              = u.data ++ 0x0A :: (uvarintBytes y.MessageSeq ++ uvarintBytes y.InternalID
                  ++ uvarintBytes y.SenderTinyID ++ uvarintBytes off
                  ++ uvarintBytes (zigzag y.Timestamp)))
    ∧ (∀ u : writer, (u.writeStoredGuildMessageAttribute none).data = u.data ++ [0x00])
    ∧ (∀ (u : writer) (n : Nat), (u.uint64 n).data = u.data ++ uvarintBytes n)
    ∧ (∀ (u : writer) (t : Int), (u.int64 t).data = u.data ++ uvarintBytes (zigzag t)) := by
  refine ⟨?_, fun hq hc => guildChannelMessage_ok_of_supported x w hq hc,
    fun u y => guildAttribute_bytes y u, fun _ => rfl, fun u n => uvarint_data u n, ?_⟩
  · intro w1 h
    simp only [writer.writeStoredGuildChannelMessage] at h
    split at h
    · cases h
    · rename_i wq hq
      obtain ⟨off, hd, -⟩ := string_lookup (w.coder coderStruct) x.ID
      obtain ⟨⟨attr, ha⟩, -⟩ := guildAttribute_closed extends_closed x.Attribute
        ((w.coder coderStruct).string x.ID)
      obtain ⟨⟨quoted, hqd⟩, -⟩ := quotedInfo_closed extends_closed _ _ _ hq
      obtain ⟨⟨content, hc⟩, -⟩ := arrayMsg_closed extends_closed _ _ _ h
      have hd2 : ((w.coder coderStruct).string x.ID).data = w.data ++ 0x0A :: uvarintBytes off := by
        rw [hd]; simp [coderStruct]
      refine ⟨off, attr, quoted, content, wq, hd2, ha, hq, hqd, h, hc, ?_⟩
      rw [hc, hqd]
      simp only [uint64_eq, uvarint_data, ha, hd2]
      simp
  · intro u t
    show (u.varint t).data = _
    rw [varint_data]
    rfl

set_option maxRecDepth 100000 in
/-- Witness of C14: the message `exGuild` in a fresh writer: GuildID 2^63 and SenderTinyID
2^64 - 1 take ten bytes each, as plain uvarints, and the timestamp -1 the single byte 0x01. -/
theorem C14_guild_channel_layout_witness :
    newWriter.writeStoredGuildChannelMessage (some exGuild) = .ok exGuildWritten
    ∧ ∃ off attr quoted content,
        exGuildWritten.data = newWriter.data ++ 0x0A :: (uvarintBytes off ++ attr
          ++ uvarintBytes exGuild.GuildID ++ uvarintBytes exGuild.ChannelID ++ quoted
          ++ content) := by
  have e : newWriter.writeStoredGuildChannelMessage (some exGuild) = .ok exGuildWritten := rfl
  obtain ⟨off, attr, quoted, content, -, -, -, -, -, -, -, h⟩ :=
    (C14_guild_channel_layout exGuild newWriter).1 exGuildWritten e
  exact ⟨e, off, attr, quoted, content, h⟩

/-- C18, as amended: in every writer state reached from `newWriter()` by writer calls other
than `bytes()`, the string data is the entries (`uvarint(length)` and bytes) of the distinct
strings encoded so far, in first-seen order, and the offset map sends each of them to the start
of its entry; so every offset in the map, and every offset that `string` writes, is below the
length of the string data and has the entry of its string there. -/
theorem C18_string_table (ops : List Op) (w : writer) (hb : ops.all Op.writes = true)
    (h : newWriter.run ops = .ok w) :
    (firstSeen (opsStrs ops)).Nodup
    ∧ (∀ s, s ∈ firstSeen (opsStrs ops) ↔ s ∈ opsStrs ops)
    ∧ w.strings = layout (firstSeen (opsStrs ops))
    ∧ (∀ s, w.stringIndex.lookup s = offsetOf s (firstSeen (opsStrs ops)))
    ∧ (∀ s off, w.stringIndex.lookup s = some off →
        (∃ before after, firstSeen (opsStrs ops) = before ++ s :: after ∧ s ∉ before
          ∧ off = (layout before).length)
        ∧ off < w.strings.length ∧ EntryAt w.strings off s)
    ∧ (∀ s, ∃ off, (w.string s).data = w.data ++ uvarintBytes off
        ∧ off < (w.string s).strings.length ∧ EntryAt (w.string s).strings off s
        ∧ (w.string s).strings = layout (seeString (firstSeen (opsStrs ops)) s)) := by
  have ht : w.Table (firstSeen (opsStrs ops)) := run_traces ops newWriter w hb h [] table_newWriter
  refine ⟨foldl_seeString_nodup _ [] List.nodup_nil, ?_, ht.1, ht.2, ?_, ?_⟩
  · intro s
    unfold firstSeen
    rw [mem_foldl_seeString]
    simp
  · intro s off hl
    have ho : offsetOf s (firstSeen (opsStrs ops)) = some off := (ht.2 s).symm.trans hl
    have he := offsetOf_entry s _ off ho
    rw [ht.1]
    exact ⟨offsetOf_split s _ off ho, he.1, he.2⟩
  · intro s
    have ht2 := table_string w s _ ht
    obtain ⟨off, hd, hl⟩ := string_lookup w s
    have ho : offsetOf s (seeString (firstSeen (opsStrs ops)) s) = some off :=
      (ht2.2 s).symm.trans hl
    have he := offsetOf_entry s _ off ho
    rw [ht2.1]
    exact ⟨off, hd, he.1, he.2, rfl⟩

/-- Witness of C18: a fresh writer that encodes "hi", then the map {"a": "hi", "b": "a"}: the
string data holds "hi", "a", "b" once each, in this order. -/
theorem C18_string_table_witness :
    exTableWriter.strings = [2, 104, 105, 1, 97, 1, 98]
    ∧ firstSeen (opsStrs exTableOps) = [[104, 105], [97], [98]]
    ∧ exTableWriter.strings = layout (firstSeen (opsStrs exTableOps)) :=
  ⟨rfl, by decide, (C18_string_table exTableOps exTableWriter (by decide) rfl).2.2.1⟩

/-- C18 fails as stated: `bytes()` is a writer call too, and it takes the content out of both
buffers. After `string("a")` and `bytes()` the string data is empty, not the entry of "a",
although "a" has been encoded and has offset 0 in the map, and the next `string("a")` writes
the offset 0, which is not below the length of the string data. -/
theorem C18_counterexample :
    newWriter.run [Op.string [97], Op.bytes]
        = .ok { data := [], strings := [], stringIndex := [([97], 0)] }
    ∧ (writer.mk [] [] [([97], 0)]).strings
        ≠ layout (firstSeen (opsStrs [Op.string [97], Op.bytes]))
    ∧ ((writer.mk [] [] [([97], 0)]).string [97]).data
        = (writer.mk [] [] [([97], 0)]).data ++ uvarintBytes 0
    ∧ ¬ (0 < ((writer.mk [] [] [([97], 0)]).string [97]).strings.length) :=
  ⟨rfl, by decide, rfl, by decide⟩

/-- C12, as amended: for a record of kind 0, 1 or 2 whose legacy decode fails, the round
appends exactly one error to the list, whose message is the fixed text of the kind, ": " and
the cause of the failure, the same whatever the key of the record; the destination is left as
it was, and the loop goes on with the next record. -/
theorem C12_decode_failure (dec : LegacyDecoder) (putErr : List Nat → List Nat → Option String)
    (st : MainState) (key data : List Nat) (rest : List (List Nat × List Nat)) :
    (∀ err, dec.group data = .error err →
        Main.step dec putErr st key (group :: data)
          = .ok { st with errs := st.errs ++ ["decode group message failed" ++ ": " ++ err] }
        ∧ Main.loop dec putErr st ((key, group :: data) :: rest)
          = Main.loop dec putErr
              { st with errs := st.errs ++ ["decode group message failed" ++ ": " ++ err] }
              rest)
    ∧ (∀ err, dec.private_ data = .error err →
        Main.step dec putErr st key (private_ :: data)
          = .ok { st with errs := st.errs ++ ["decode private message failed" ++ ": " ++ err] }
        ∧ Main.loop dec putErr st ((key, private_ :: data) :: rest)
          = Main.loop dec putErr
              { st with errs := st.errs ++ ["decode private message failed" ++ ": " ++ err] }
              rest)
    ∧ (∀ err, dec.guildChannel data = .error err →
        Main.step dec putErr st key (guildChannel :: data)
          = .ok { st with
              errs := st.errs ++ ["decode guild channel message failed" ++ ": " ++ err] }
        ∧ Main.loop dec putErr st ((key, guildChannel :: data) :: rest)
          = Main.loop dec putErr
              { st with
                errs := st.errs ++ ["decode guild channel message failed" ++ ": " ++ err] }
              rest) := by
  refine ⟨?_, ?_, ?_⟩
  · intro err hd
    have hs : Main.step dec putErr st key (group :: data)
        = .ok { st with errs := st.errs ++ ["decode group message failed" ++ ": " ++ err] } := by
      simp only [Main.step, encode_group_error dec data err hd]
      rfl
    exact ⟨hs, by rw [Main.loop, hs]⟩
  · intro err hd
    have hs : Main.step dec putErr st key (private_ :: data)
        = .ok { st with
            errs := st.errs ++ ["decode private message failed" ++ ": " ++ err] } := by
      simp only [Main.step, encode_private_error dec data err hd]
      rfl
    exact ⟨hs, by rw [Main.loop, hs]⟩
  · intro err hd
    have hs : Main.step dec putErr st key (guildChannel :: data)
        = .ok { st with
            errs := st.errs ++ ["decode guild channel message failed" ++ ": " ++ err] } := by
      simp only [Main.step, encode_guildChannel_error dec data err hd]
      rfl
    exact ⟨hs, by rw [Main.loop, hs]⟩

/-- Witness of C12: the record "k2" with the corrupted payload, in a run that has one entry
and no error so far. -/
theorem C12_decode_failure_witness :
    Main.step exDecoder (fun _ _ => none) { v3db := [([107, 49], exBuffer)], errs := [] }
        [107, 50] [0, 9, 9]
      = .ok { v3db := [([107, 49], exBuffer)],
              errs := ["decode group message failed: unexpected EOF"] } :=
  ((C12_decode_failure exDecoder (fun _ _ => none)
    { v3db := [([107, 49], exBuffer)], errs := [] } [107, 50] [9, 9] []).1
    "unexpected EOF" rfl).1

/-- C12 fails as stated: for the record under the key "k2" whose decode fails, the message of
the error is "decode group message failed: unexpected EOF", in which the key does not occur;
the record under "k1" with the same payload gets the same message. -/
theorem C12_counterexample :
    Main.step exDecoder (fun _ _ => none) { v3db := [], errs := [] } [107, 50] [0, 9, 9]
      = .ok { v3db := [], errs := ["decode group message failed: unexpected EOF"] }
    ∧ ¬ mentionsKey "decode group message failed: unexpected EOF" [107, 50]
    ∧ Main.step exDecoder (fun _ _ => none) { v3db := [], errs := [] } [107, 49] [0, 9, 9]
      = .ok { v3db := [], errs := ["decode group message failed: unexpected EOF"] } :=
  ⟨rfl, by unfold mentionsKey; decide, rfl⟩

/-- C13, as amended: within a run (a decoder together with the order in which each decoded
map is ranged over), the value written for a record is the one the loop body computes from
the value of the record alone: whatever records come before and after it and whatever the
destination held, the entry under its key after the run is that value; and in the writer of
the record the ID, its first string, has offset 0 and its entry at the start of the string
data. -/
theorem C13_session_isolation (dec : LegacyDecoder)
    (putErr : List Nat → List Nat → Option String) (key value out : List Nat)
    (he : Main.encode dec value = .ok (.encoded out)) (hp : putErr key out = none) :
    (∀ (pre post : List (List Nat × List Nat)) (st final : MainState),
        Main.loop dec putErr st (pre ++ (key, value) :: post) = .ok final →
        key ∉ post.map Prod.fst → List.lookup key final.v3db = some out)
    ∧ (∀ st : MainState, ∃ st1, Main.step dec putErr st key value = .ok st1
        ∧ List.lookup key st1.v3db = some out)
    ∧ (∀ data x, value = group :: data → dec.group data = .ok x →
        ∃ w0 tail t, newWriter.writeStoredGroupMessage (some x) = .ok w0
          ∧ out = markedBuffer group w0 ∧ w0.data = 0x0A :: 0 :: tail
          ∧ w0.strings = stringEntry x.ID ++ t ∧ w0.stringIndex.lookup x.ID = some 0)
    ∧ (∀ data x, value = private_ :: data → dec.private_ data = .ok x →
        ∃ w0 tail t, newWriter.writeStoredPrivateMessage (some x) = .ok w0
          ∧ out = markedBuffer private_ w0 ∧ w0.data = 0x0A :: 0 :: tail
          ∧ w0.strings = stringEntry x.ID ++ t ∧ w0.stringIndex.lookup x.ID = some 0)
    ∧ (∀ data x, value = guildChannel :: data → dec.guildChannel data = .ok x →
        ∃ w0 tail t, newWriter.writeStoredGuildChannelMessage (some x) = .ok w0
          ∧ out = markedBuffer guildChannel w0 ∧ w0.data = 0x0A :: 0 :: tail
          ∧ w0.strings = stringEntry x.ID ++ t ∧ w0.stringIndex.lookup x.ID = some 0) := by
  have hstep : ∀ st : MainState, Main.step dec putErr st key value
      = .ok { st with v3db := storePut st.v3db key out } :=
    fun st => step_encoded dec putErr st key value out he hp
  refine ⟨?_, fun st => ⟨_, hstep st, storePut_lookup _ _ _⟩, ?_, ?_, ?_⟩
  · intro pre post st final h hk
    rw [loop_append] at h
    cases h1 : Main.loop dec putErr st pre with
    | error e => rw [h1] at h; cases h
    | ok s1 =>
      rw [h1] at h
      simp only [Main.loop, hstep s1] at h
      rw [loop_lookup_absent dec putErr key post _ final h hk]
      exact storePut_lookup _ _ _
  · intro data x hv hd
    subst hv
    have h2 := encode_group dec data x hd
    rw [he] at h2
    cases hw : newWriter.writeStoredGroupMessage (some x) with
    | error e => rw [hw] at h2; cases h2
    | ok w0 =>
      rw [hw] at h2
      simp only [Except.ok.injEq, Outcome.encoded.injEq] at h2
      obtain ⟨tail, t, a1, a2, a3⟩ := first_string w0 x.ID (groupMessage_after_id x _ w0 hw)
      exact ⟨w0, tail, t, rfl, h2, a1, a2, a3⟩
  · intro data x hv hd
    subst hv
    have h2 := encode_private dec data x hd
    rw [he] at h2
    cases hw : newWriter.writeStoredPrivateMessage (some x) with
    | error e => rw [hw] at h2; cases h2
    | ok w0 =>
      rw [hw] at h2
      simp only [Except.ok.injEq, Outcome.encoded.injEq] at h2
      obtain ⟨tail, t, a1, a2, a3⟩ := first_string w0 x.ID (privateMessage_after_id x _ w0 hw)
      exact ⟨w0, tail, t, rfl, h2, a1, a2, a3⟩
  · intro data x hv hd
    subst hv
    have h2 := encode_guildChannel dec data x hd
    rw [he] at h2
    cases hw : newWriter.writeStoredGuildChannelMessage (some x) with
    | error e => rw [hw] at h2; cases h2
    | ok w0 =>
      rw [hw] at h2
      simp only [Except.ok.injEq, Outcome.encoded.injEq] at h2
      obtain ⟨tail, t, a1, a2, a3⟩ :=
        first_string w0 x.ID (guildChannelMessage_after_id x _ w0 hw)
      exact ⟨w0, tail, t, rfl, h2, a1, a2, a3⟩

set_option maxRecDepth 100000 in
/-- Witness of C13: the record "k3" of the example run has the same value as "k1" before it,
and its entry after the run is the same buffer. -/
theorem C13_session_isolation_witness :
    Main.encode exDecoder [0, 1, 2, 3] = .ok (.encoded exBuffer)
    ∧ List.lookup [107, 51]
        (MainState.mk [([107, 49], exBuffer), ([107, 51], exBuffer)]
          ["decode group message failed: unexpected EOF"]).v3db = some exBuffer :=
  ⟨rfl,
    (C13_session_isolation exDecoder (fun _ _ => none) [107, 51] [0, 1, 2, 3] exBuffer rfl rfl).1
      [([107, 49], [0, 1, 2, 3]), ([107, 50], [0, 9, 9])] [] (MainState.mk [] [])
      (MainState.mk [([107, 49], exBuffer), ([107, 51], exBuffer)]
        ["decode group message failed: unexpected EOF"]) rfl (by simp)⟩

/-- C13 fails as stated: the same source value `[0, 1, 2, 3]`, decoded to the same group
message in two runs, is written as different bytes when the map in its content is ranged over
as "a", "b" in one run and as "b", "a" in the other. -/
theorem C13_counterexample :
    exGroupAB.Content = [[([97], Value.nil), ([98], Value.int 1)]]
    ∧ exGroupBA.Content = [[([98], Value.int 1), ([97], Value.nil)]]
    ∧ rangeOrderOf [([97], Value.nil), ([98], Value.int 1)]
        [([98], Value.int 1), ([97], Value.nil)]
    ∧ { exGroupBA with Content := exGroupAB.Content } = exGroupAB
    ∧ Main.encode exDecoderAB [0, 1, 2, 3] = .ok (.encoded
        [1, 15, 18, 2, 109, 49, 6, 110, 111, 114, 109, 97, 108, 0, 1, 97, 1, 98,
          0, 10, 0, 14, 0, 3, 0, 128, 137, 15, 10, 1, 2, 11, 0, 13, 1, 2])
    ∧ Main.encode exDecoderBA [0, 1, 2, 3] = .ok (.encoded
        [1, 15, 18, 2, 109, 49, 6, 110, 111, 114, 109, 97, 108, 0, 1, 98, 1, 97,
          0, 10, 0, 14, 0, 3, 0, 128, 137, 15, 10, 1, 2, 11, 1, 2, 13, 0])
    ∧ ([1, 15, 18, 2, 109, 49, 6, 110, 111, 114, 109, 97, 108, 0, 1, 97, 1, 98,
          0, 10, 0, 14, 0, 3, 0, 128, 137, 15, 10, 1, 2, 11, 0, 13, 1, 2] : List Nat)
        ≠ [1, 15, 18, 2, 109, 49, 6, 110, 111, 114, 109, 97, 108, 0, 1, 98, 1, 97,
          0, 10, 0, 14, 0, 3, 0, 128, 137, 15, 10, 1, 2, 11, 1, 2, 13, 0] :=
  ⟨rfl, rfl, List.Perm.swap _ _ _, rfl, rfl, rfl, by decide⟩

/-- C5, as amended: when `string(s)` is called, writer calls follow, and `string(s)` is called
again, both calls append the same offset to the index data and the second call leaves the
string data and the offset map as they were, the empty string being no exception; and when
the writer comes from `newWriter()` and no call so far is `bytes()`, the string data after
the second call is the entries of the distinct strings encoded so far, among them the entry of
`s` exactly once, at the offset that both calls wrote. -/
theorem C5_string_dedup (w w2 : writer) (s : GoString) (ops : List Op)
    (h : (w.string s).run ops = .ok w2) :
    (∃ off, (w.string s).data = w.data ++ uvarintBytes off
      ∧ (w2.string s).data = w2.data ++ uvarintBytes off
      ∧ (w2.string s).strings = w2.strings
      ∧ (w2.string s).stringIndex = w2.stringIndex)
    ∧ (∀ ops0 : List Op, newWriter.run ops0 = .ok w → ops0.all Op.writes = true →
        ops.all Op.writes = true →
        ∃ off before after,
          firstSeen (opsStrs ops0 ++ s :: opsStrs ops) = before ++ s :: after
          ∧ s ∉ before ∧ s ∉ after
          ∧ (firstSeen (opsStrs ops0 ++ s :: opsStrs ops)).Nodup
          ∧ off = (layout before).length
          ∧ w2.strings = layout before ++ stringEntry s ++ layout after
          ∧ (w2.string s).strings = layout before ++ stringEntry s ++ layout after
          ∧ (w.string s).data = w.data ++ uvarintBytes off
          ∧ (w2.string s).data = w2.data ++ uvarintBytes off
          ∧ EntryAt (w.string s).strings off s
          ∧ EntryAt w2.strings off s) := by
  obtain ⟨off, hd, hl⟩ := string_lookup w s
  have hl2 := run_keepsIndex ops _ w2 h s off hl
  have hit := string_hit w2 s off hl2
  have hd2 : (w2.string s).data = w2.data ++ uvarintBytes off := by
    rw [hit]; exact uvarint_data w2 off
  have hs2 : (w2.string s).strings = w2.strings := by rw [hit]; rfl
  have hi2 : (w2.string s).stringIndex = w2.stringIndex := by rw [hit]; rfl
  refine ⟨⟨off, hd, hd2, hs2, hi2⟩, ?_⟩
  intro ops0 h0 hb0 hb
  have ht0 : w.Table (firstSeen (opsStrs ops0)) :=
    run_traces ops0 newWriter w hb0 h0 [] table_newWriter
  have ht1 := table_string w s _ ht0
  have ht2 := run_traces ops _ w2 hb h _ ht1
  rw [← firstSeen_around] at ht2
  have hnd : (firstSeen (opsStrs ops0 ++ s :: opsStrs ops)).Nodup :=
    foldl_seeString_nodup _ [] List.nodup_nil
  have ho : offsetOf s (firstSeen (opsStrs ops0 ++ s :: opsStrs ops)) = some off :=
    (ht2.2 s).symm.trans hl2
  have ho1 : offsetOf s (seeString (firstSeen (opsStrs ops0)) s) = some off :=
    (ht1.2 s).symm.trans hl
  obtain ⟨before, after, e, hnb, hoff⟩ := offsetOf_split s _ off ho
  have hna : s ∉ after := by
    rw [e] at hnd
    have h1 := (List.nodup_append.mp hnd).2.1
    exact (List.nodup_cons.mp h1).1
  have hw2 : w2.strings = layout before ++ stringEntry s ++ layout after := by
    rw [ht2.1, e, layout_append, layout, List.append_assoc]
  have e1 := (offsetOf_entry s _ off ho1).2
  rw [← ht1.1] at e1
  have e2 := (offsetOf_entry s _ off ho).2
  rw [← ht2.1] at e2
  exact ⟨off, before, after, e, hnb, hna, hnd, hoff, hw2,
    hs2.trans hw2, hd, hd2, e1, e2⟩

/-- Witness of C5: the empty string in a fresh writer, then a tagged string and a number, then
the empty string again: the string data holds the entry of the empty string once, at offset
0, before the entry of "hi". -/
theorem C5_string_dedup_witness :
    firstSeen (opsStrs [] ++ [] :: opsStrs exOps) = [[], [104, 105]]
    ∧ (exAfter.string []).strings = [0, 2, 104, 105]
    ∧ ∃ off before after,
        firstSeen (opsStrs [] ++ [] :: opsStrs exOps) = before ++ [] :: after
        ∧ [] ∉ before ∧ [] ∉ after
        ∧ (firstSeen (opsStrs [] ++ [] :: opsStrs exOps)).Nodup
        ∧ off = (layout before).length
        ∧ exAfter.strings = layout before ++ stringEntry [] ++ layout after
        ∧ (exAfter.string []).strings = layout before ++ stringEntry [] ++ layout after
        ∧ (newWriter.string []).data = newWriter.data ++ uvarintBytes off
        ∧ (exAfter.string []).data = exAfter.data ++ uvarintBytes off
        ∧ EntryAt (newWriter.string []).strings off []
        ∧ EntryAt exAfter.strings off [] :=
  ⟨by decide, rfl, (C5_string_dedup newWriter exAfter [] exOps rfl).2 [] rfl rfl rfl⟩

/-- C5 fails as stated: `bytes()` is a writer call too. With `string("a")`, `bytes()`,
`string("a")` in a fresh writer both calls of `string` write the offset 0 and the second
changes neither the string data nor the map, but `bytes()` has taken the content out of the
string data: after the second call it is empty and holds no entry of "a". -/
theorem C5_counterexample :
    (newWriter.string [97]).run [Op.bytes] = .ok (writer.mk [] [] [([97], 0)])
    ∧ (newWriter.string [97]).data = newWriter.data ++ uvarintBytes 0
    ∧ (newWriter.string [97]).strings = [1, 97]
    ∧ ((writer.mk [] [] [([97], 0)]).string [97]).data
        = (writer.mk [] [] [([97], 0)]).data ++ uvarintBytes 0
    ∧ ((writer.mk [] [] [([97], 0)]).string [97]).strings = []
    ∧ ¬ EntryAt ((writer.mk [] [] [([97], 0)]).string [97]).strings 0 [97] := by
  refine ⟨rfl, rfl, rfl, rfl, rfl, ?_⟩
  rintro ⟨tail, ht⟩
  have e : ((writer.mk [] [] [([97], 0)]).string [97]).strings = [] := rfl
  rw [e] at ht
  have hl := congrArg List.length ht
  simp at hl
  omega

/-- C11, as amended: a run is a list of rounds, each with its decoder, key and value; the keys
are distinct, the values are empty or of kind 0, 1 or 2, every `Put` succeeds and the
destination is empty at the start. If every record that decodes holds values of supported
kinds only, the run completes and leaves in the destination exactly one entry for each record
with a non-empty value that decodes, under the key of the record and with its buffer as
value, in the order of the rounds, and nothing else; it reports one error for each record
that does not decode. If not, the run panics at the first record with a value of an
unsupported kind: that record decodes but gets no entry, the destination holds the entries of
the rounds before it, and no later record is looked at. A record with an empty value changes
nothing. -/
theorem C11_driver_resilience (rs : List (LegacyDecoder × List Nat × List Nat))
    (hk : ∀ r ∈ rs, kindKnown r.2.2 = true) (hn : (rs.map (fun r => r.2.1)).Nodup) :
    ((∀ r ∈ rs, recordSupported r.1 r.2.2 = true) →
      ∃ st, Main.rounds (fun _ _ => none) { v3db := [], errs := [] } rs = (st, none)
        ∧ st.v3db = writtenBy rs
        ∧ (st.v3db.map Prod.fst).Nodup
        ∧ (∀ key b, (key, b) ∈ st.v3db ↔
            ∃ dec value, (dec, key, value) ∈ rs ∧ recordBuffer dec value = some b)
        ∧ (∀ r ∈ rs, (recordBuffer r.1 r.2.2).isSome = true ↔
            (r.2.2 ≠ [] ∧ decodeError r.1 r.2.2 = none))
        ∧ st.errs = reported rs
        ∧ st.errs.length = rs.countP (fun r => (decodeError r.1 r.2.2).isSome)
        ∧ st.v3db.length = rs.countP (fun r => (recordBuffer r.1 r.2.2).isSome))
    ∧ (∀ pre r post, rs = pre ++ r :: post →
        (∀ q ∈ pre, recordSupported q.1 q.2.2 = true) → recordSupported r.1 r.2.2 = false →
        Main.rounds (fun _ _ => none) { v3db := [], errs := [] } rs
            = ({ v3db := writtenBy pre, errs := reported pre }, some "unsupported type")
        ∧ r.2.2 ≠ [] ∧ decodeError r.1 r.2.2 = none
        ∧ ∀ q ∈ r :: post, q.2.1 ∉ (writtenBy pre).map Prod.fst)
    ∧ (∀ (dec : LegacyDecoder) (putErr : List Nat → List Nat → Option String)
        (st : MainState) (recs : List (List Nat × List Nat)),
        Main.loop dec putErr st recs =
          match Main.rounds putErr st (recs.map (fun r => (dec, r.1, r.2))) with
          | (s, none) => .ok s
          | (_, some e) => .error e)
    ∧ (∀ (dec : LegacyDecoder) (putErr : List Nat → List Nat → Option String)
        (st : MainState) (key : List Nat), Main.step dec putErr st key [] = .ok st) := by
  refine ⟨?_, ?_, fun dec putErr st recs => loop_rounds dec putErr recs st,
    fun _ _ _ _ => rfl⟩
  · intro hs
    have hnw : ((writtenBy rs).map Prod.fst).Nodup :=
      (writtenBy_keys_sublist rs).nodup hn
    have hv : (writtenBy rs).foldl (fun d e => storePut d e.1 e.2) [] = writtenBy rs := by
      rw [foldl_storePut _ _ (by simpa using hnw)]
      simp
    refine ⟨{ v3db := writtenBy rs, errs := reported rs }, ?_, rfl, hnw,
      mem_writtenBy rs, fun r hr => buffer_iff_decoded r.1 r.2.2 (hk r hr) (hs r hr), rfl, ?_, ?_⟩
    · rw [rounds_spec rs _ hk hs, hv]
      simp
    · exact length_filterMap_eq_countP _ rs
    · show (writtenBy rs).length = _
      unfold writtenBy
      rw [length_filterMap_eq_countP]
      congr 1
      funext r
      cases recordBuffer r.1 r.2.2 <;> rfl
  · intro pre r post e hs hr
    subst e
    have hkr : kindKnown r.2.2 = true :=
      hk r (List.mem_append_right _ (List.mem_cons_self _ _))
    obtain ⟨h1, h2, -⟩ := unsupported_decodes r.1 r.2.2 hkr hr
    have hsub := writtenBy_keys_sublist pre
    rw [List.map_append, List.nodup_append] at hn
    have hnw : ((writtenBy pre).map Prod.fst).Nodup := hsub.nodup hn.1
    have hv : (writtenBy pre).foldl (fun d e => storePut d e.1 e.2) [] = writtenBy pre := by
      rw [foldl_storePut _ _ (by simpa using hnw)]
      simp
    refine ⟨?_, h1, h2, ?_⟩
    · rw [rounds_panic pre post r _ hk hs hr, hv]
      simp
    · intro q hq hm
      exact hn.2.2 (hsub.subset hm) (List.mem_map_of_mem (fun r => r.2.1) hq)

set_option maxRecDepth 100000 in
/-- Witness of C11: three rounds, the payload of the second corrupted, the first and the third
with the same value ranged over in different orders: two entries in the destination, under
the first and the third key, and one error. -/
theorem C11_driver_resilience_witness :
    Main.rounds (fun _ _ => none) { v3db := [], errs := [] } exRounds
      = ({ v3db := [([107, 49], exBufferAB), ([107, 51], exBufferBA)],
           errs := ["decode group message failed: unexpected EOF"] }, none)
    ∧ writtenBy exRounds = [([107, 49], exBufferAB), ([107, 51], exBufferBA)]
    ∧ exRounds.countP (fun r => (decodeError r.1 r.2.2).isSome) = 1
    ∧ exRounds.countP (fun r => (recordBuffer r.1 r.2.2).isSome) = 2 := by
  have e : Main.rounds (fun _ _ => none) { v3db := [], errs := [] } exRounds
      = ({ v3db := [([107, 49], exBufferAB), ([107, 51], exBufferBA)],
           errs := ["decode group message failed: unexpected EOF"] }, none) := rfl
  obtain ⟨st, h0, h1, -, -, -, -, h2, h3⟩ :=
    (C11_driver_resilience exRounds (by decide) (by decide)).1 (by decide)
  rw [e] at h0
  cases h0
  exact ⟨e, h1.symm, h2.symm, h3.symm⟩

set_option maxRecDepth 100000 in
/-- C11 fails as stated: three records of kind 0 with distinct keys, all non-empty, all
decoding, every `Put` succeeding; the second holds a value of an unsupported kind. The run
panics in the second round: the destination holds the entry of "k1" only, and the record under
"k3", which decodes and has a buffer, has no entry. -/
theorem C11_counterexample :
    (∀ r ∈ exPanicRecords, kindKnown r.2 = true ∧ r.2 ≠ []
        ∧ decodeError exDecoderOther r.2 = none)
    ∧ (exPanicRecords.map Prod.fst).Nodup
    ∧ Main.loop exDecoderOther (fun _ _ => none) { v3db := [], errs := [] } exPanicRecords
        = .error "unsupported type"
    ∧ Main.rounds (fun _ _ => none) { v3db := [], errs := [] }
          (exPanicRecords.map (fun r => (exDecoderOther, r.1, r.2)))
        = ({ v3db := [([107, 49], exBuffer)], errs := [] }, some "unsupported type")
    ∧ recordBuffer exDecoderOther [0, 1, 2, 3] = some exBuffer
    ∧ List.lookup [107, 51] [([107, 49], exBuffer)] = none
    ∧ List.lookup [107, 50] [([107, 49], exBuffer)] = none := by
  refine ⟨?_, by decide, rfl, rfl, rfl, rfl, rfl⟩
  intro r hr
  simp only [exPanicRecords, List.mem_cons, List.mem_singleton, List.not_mem_nil, or_false] at hr
  rcases hr with rfl | rfl | rfl
  · exact ⟨rfl, by simp, rfl⟩
  · exact ⟨rfl, by simp, rfl⟩
  · exact ⟨rfl, by simp, rfl⟩

end Cmd
